import Mathlib

/-!
# Optiboot for AxiomaCore-328: the STK500v1 command loop

A shallow embedding of `bootloader/optiboot/optiboot.c`.  The C program is a
single thread that talks to three devices (the UART, the watchdog and the
self-programming hardware), so it is embedded as a state-passing program over
a record `State` that holds the registers and memories the program touches,
the bytes still to arrive on the serial line and the bytes already sent.

Machine integers are natural numbers reduced modulo `2 ^ w` at every place
where the C type truncates.  Loops of the C code are recursive functions on a
fuel argument that mirror one iteration of the loop body per unfolding; a loop
that exhausts its fuel ends in `Halt.fuel`.
-/

namespace Optiboot

/-! ## Build-time configuration

Everything the source takes from headers that are not part of the file
(`stk500.h`, `avr/io.h`, `avr/boot.h`, the command line of the compiler) is a
field of `Config`. -/

/-- The constants and feature switches the source file takes from outside. -/
structure Config where
  STK_OK : Nat
  STK_INSYNC : Nat
  CRC_EOP : Nat
  STK_GET_PARAMETER : Nat
  STK_SET_DEVICE : Nat
  STK_SET_DEVICE_EXT : Nat
  STK_LOAD_ADDRESS : Nat
  STK_UNIVERSAL : Nat
  STK_PROG_PAGE : Nat
  STK_READ_PAGE : Nat
  STK_READ_SIGN : Nat
  STK_LEAVE_PROGMODE : Nat
  STK_SW_MAJOR : Nat
  STK_SW_MINOR : Nat
  OPTIBOOT_MAJOR : Nat
  SIGNATURE_0 : Nat
  SIGNATURE_1 : Nat
  SIGNATURE_2 : Nat
  WATCHDOG_OFF : Nat
  WATCHDOG_16MS : Nat
  WATCHDOG_1S : Nat
  PORF : Nat
  EXTRF : Nat
  WDRF : Nat
  SPM_PAGESIZE : Nat
  RAMSTART : Nat
  SOFT_UART : Bool
  SUPPORT_EEPROM : Bool
  BIGBOOT : Bool
  VIRTUAL_BOOT_PARTITION : Bool
  VIRTUAL_BOOT_PARTITION_SIZE : Nat
  RWWSRE : Bool

/-- Line 38: `#define OPTIBOOT_AXIOMA_VERSION 1`. -/
def OPTIBOOT_AXIOMA_VERSION : Nat := 1

/-- Width in bits of `pagelen_t` (lines 44-50): `uint16_t` when
`SPM_PAGESIZE > 255`, `uint8_t` otherwise. -/
def Config.lenBits (cfg : Config) : Nat :=
  if cfg.SPM_PAGESIZE > 255 then 16 else 8

/-- Number of values of `pagelen_t`. -/
def Config.lenMod (cfg : Config) : Nat := 2 ^ cfg.lenBits

/-- The nine opcodes the dispatch chain tests, in the order of the chain. -/
def Config.opcodes (cfg : Config) : List Nat :=
  [cfg.STK_GET_PARAMETER, cfg.STK_SET_DEVICE, cfg.STK_SET_DEVICE_EXT,
   cfg.STK_LOAD_ADDRESS, cfg.STK_UNIVERSAL, cfg.STK_PROG_PAGE,
   cfg.STK_READ_PAGE, cfg.STK_READ_SIGN, cfg.STK_LEAVE_PROGMODE]

/-- A configuration is well formed when the protocol constants are bytes, the
opcodes are pairwise different, the two version ids are different, and the
values handed to `putch` and `watchdogConfig` fit their 8-bit parameter. -/
structure Config.WF (cfg : Config) : Prop where
  ok_lt : cfg.STK_OK < 256
  insync_lt : cfg.STK_INSYNC < 256
  eop_lt : cfg.CRC_EOP < 256
  ops_nodup : cfg.opcodes.Nodup
  ids_ne : cfg.STK_SW_MAJOR ≠ cfg.STK_SW_MINOR
  major_lt : cfg.OPTIBOOT_MAJOR + 100 < 256
  sig0_lt : cfg.SIGNATURE_0 < 256
  sig1_lt : cfg.SIGNATURE_1 < 256
  sig2_lt : cfg.SIGNATURE_2 < 256
  wd_off_lt : cfg.WATCHDOG_OFF < 256
  wd_16ms_lt : cfg.WATCHDOG_16MS < 256
  wd_1s_lt : cfg.WATCHDOG_1S < 256

/-- The values of the headers for the ATmega328P, the part the source names
(its signature block, lines 95-99), with the hardware UART and with the EEPROM
read path compiled in. -/
def atmega328p : Config where
  STK_OK := 0x10
  STK_INSYNC := 0x14
  CRC_EOP := 0x20
  STK_GET_PARAMETER := 0x41
  STK_SET_DEVICE := 0x42
  STK_SET_DEVICE_EXT := 0x45
  STK_LOAD_ADDRESS := 0x55
  STK_UNIVERSAL := 0x56
  STK_PROG_PAGE := 0x64
  STK_READ_PAGE := 0x74
  STK_READ_SIGN := 0x75
  STK_LEAVE_PROGMODE := 0x51
  STK_SW_MAJOR := 0x81
  STK_SW_MINOR := 0x82
  OPTIBOOT_MAJOR := 8
  SIGNATURE_0 := 0x1E
  SIGNATURE_1 := 0x95
  SIGNATURE_2 := 0x0F
  WATCHDOG_OFF := 0
  WATCHDOG_16MS := 8
  WATCHDOG_1S := 14
  PORF := 0
  EXTRF := 1
  WDRF := 3
  SPM_PAGESIZE := 128
  RAMSTART := 0x100
  SOFT_UART := false
  SUPPORT_EEPROM := true
  BIGBOOT := false
  VIRTUAL_BOOT_PARTITION := false
  VIRTUAL_BOOT_PARTITION_SIZE := 0
  RWWSRE := true

/-- The ATmega328P values for the source file built as it stands: no line of
it defines SUPPORT_EEPROM or BIGBOOT, so the EEPROM case of `read_mem` (lines
554-560) is left out unless the build passes one of them in. -/
def atmega328pPlain : Config := { atmega328p with SUPPORT_EEPROM := false }

/-! ## Machine state -/

/-- One byte arriving on the serial line: the content of `UDR0` and the
framing-error flag `FE0` that `UCSR0A` shows for it. -/
structure Rx where
  data : Nat
  fe : Bool
deriving DecidableEq, Repr

/-- What the program does to the outside world, in the order it does it. -/
inductive Event where
  | rx (b : Nat)
  | tx (b : Nat)
  | wdr
  | wdtcsr (x : Nat)
  | eepromWrite (a b : Nat)
  | pageErase (a : Nat)
  | pageFill (a w : Nat)
  | pageWrite (a : Nat)
  | spmBusyWait
  | rwwEnable
deriving DecidableEq, Repr

/-- The registers and memories the program reads or writes.  `input` is the
serial line still to be read, `out` the bytes sent so far, `address` the
register variable of `main` (line 147), `ram` the data space that holds the
page buffer at `RAMSTART`, `latch` the temporary page buffer of the
self-programming hardware, and `log` every event in program order. -/
structure State where
  input : List Rx
  out : List Nat
  address : Nat
  ram : Nat → Nat
  flash : Nat → Nat
  latch : Nat → Nat
  eeprom : Nat → Nat
  wdtcsr : Nat
  mcusr : Nat
  log : List Event

/-- Why control never comes back to the caller: the `while (1)` of
`verifySpace`, a `getch` that waits for a byte that never arrives, a loop
that used up its fuel, or the jump to the application. -/
inductive Halt where
  | desync
  | starved
  | fuel
  | app
deriving DecidableEq, Repr

/-- Result of running a piece of the program from a state. -/
inductive Res (α : Type) where
  | ok : α → State → Res α
  | stop : Halt → State → Res α

/-- A piece of the program: a function from the state before to the result. -/
def M (α : Type) : Type := State → Res α

/-- Sequencing: run `m`, and run `f` on its value unless `m` never returns. -/
def M.bind {α β : Type} (m : M α) (f : α → M β) : M β := fun s =>
  match m s with
  | .ok a s' => f a s'
  | .stop h s' => .stop h s'

/-- Return a value without touching the state. -/
def M.pure {α : Type} (a : α) : M α := fun s => .ok a s

instance : Monad M where
  pure := M.pure
  bind := M.bind

/-- Control does not continue. -/
def halt {α : Type} (h : Halt) : M α := fun s => .stop h s

/-- Read the current state. -/
def getState : M State := fun s => .ok s s

/-- Replace the state. -/
def setState (s' : State) : M Unit := fun _ => .ok () s'

/-- Append an event to the log. -/
def emit (e : Event) : M Unit := fun s => .ok () { s with log := s.log ++ [e] }

/-! ## Devices -/

/-- Lines 474-478: `wdr`. -/
def watchdogReset : M Unit := emit .wdr

/-- Lines 480-483: the timed sequence leaves `x` in `WDTCSR`. -/
def watchdogConfig (x : Nat) : M Unit := fun s =>
  .ok () { s with wdtcsr := x % 256, log := s.log ++ [.wdtcsr (x % 256)] }

/-- Lines 334-362: send one byte (`char` argument, 8 bits). -/
def putch (ch : Nat) : M Unit := fun s =>
  .ok () { s with out := s.out ++ [ch % 256], log := s.log ++ [.tx (ch % 256)] }

/-- Lines 364-423: wait for a byte.  On the hardware UART path (lines 397-411)
`watchdogReset` runs when `FE0` is clear; the soft UART path has no such test.
A line with no byte left blocks for ever. -/
def getch (cfg : Config) : M Nat := fun s =>
  match s.input with
  | [] => .stop .starved s
  | b :: rest =>
    let s1 : State := { s with input := rest }
    let s2 : State :=
      if cfg.SOFT_UART then s1
      else if !b.fe then { s1 with log := s1.log ++ [.wdr] }
      else s1
    .ok (b.data % 256) { s2 with log := s2.log ++ [.rx (b.data % 256)] }

/-- Modelled from the spec: `eeprom_write_byte` of avr-libc, the byte-granular
write of auxiliary memory; it blocks until the write cycle is complete and
then the cell holds the byte. -/
def eeprom_write_byte (p v : Nat) : M Unit := fun s =>
  .ok () { s with eeprom := fun x => if x = p then v % 256 else s.eeprom x,
                  log := s.log ++ [.eepromWrite p (v % 256)] }

/-- Modelled from the spec: `eeprom_read_byte` of avr-libc, the byte read of
auxiliary memory. -/
def eeprom_read_byte (p : Nat) : M Nat := fun s => .ok (s.eeprom p % 256) s

/-- Modelled from the spec: `lpm`, the read-only instruction-space access that
fetches one byte of code memory. -/
def pgm_read_byte_near (a : Nat) : M Nat := fun s => .ok (s.flash a % 256) s

/-- Modelled from the spec: `pgm_read_word_near`, two bytes of code memory,
low byte first. -/
def pgm_read_word_near (a : Nat) : M Nat := fun s =>
  .ok (s.flash a % 256 + 256 * (s.flash (a + 1) % 256)) s

/-- Modelled from the spec: `__boot_page_erase_short`, phase (a) of the page
commit: every byte of the page that contains `a` reads as the erased value
0xFF afterwards. -/
def boot_page_erase_short (cfg : Config) (a : Nat) : M Unit := fun s =>
  .ok () { s with
    flash := fun x => if x / cfg.SPM_PAGESIZE = a / cfg.SPM_PAGESIZE then 0xFF else s.flash x,
    log := s.log ++ [.pageErase a] }

/-- Modelled from the spec: `__boot_page_fill_short`, phase (b): the 16-bit
word `w` goes into the write latch at the word position that the address has
inside its page, low byte first. -/
def boot_page_fill_short (cfg : Config) (a w : Nat) : M Unit := fun s =>
  let o := (a % cfg.SPM_PAGESIZE) / 2 * 2
  .ok () { s with
    latch := fun x => if x = o then w % 256 else if x = o + 1 then w / 256 % 256 else s.latch x,
    log := s.log ++ [.pageFill a w] }

/-- Modelled from the spec: `__boot_page_write_short`, phase (c): the latch is
committed to the page that contains `a`, and the latch is cleared. -/
def boot_page_write_short (cfg : Config) (a : Nat) : M Unit := fun s =>
  .ok () { s with
    flash := fun x => if x / cfg.SPM_PAGESIZE = a / cfg.SPM_PAGESIZE
                      then s.latch (x % cfg.SPM_PAGESIZE) else s.flash x,
    latch := fun _ => 0xFF,
    log := s.log ++ [.pageWrite a] }

/-- Modelled from the spec: `boot_spm_busy_wait`, the wait for the hardware,
which always ends. -/
def boot_spm_busy_wait : M Unit := emit .spmBusyWait

/-- Modelled from the spec: `boot_rww_enable`, which re-enables reads of code
memory after a write. -/
def boot_rww_enable : M Unit := emit .rwwEnable

/-- Store to the data space through an 8-bit pointer target. -/
def ramWrite (p v : Nat) : M Unit := fun s =>
  .ok () { s with ram := fun x => if x = p then v % 256 else s.ram x }

/-- Load from the data space. -/
def ramRead (p : Nat) : M Nat := fun s => .ok (s.ram p % 256) s

/-- Assignment to the register variable `address` (16 bits). -/
def setAddress (a : Nat) : M Unit := fun s => .ok () { s with address := a % 65536 }

/-! ## The program -/

/-- Lines 449-456. -/
def verifySpace (cfg : Config) : M Unit := do
  let c ← getch cfg
  if c ≠ cfg.CRC_EOP then
    watchdogConfig cfg.WATCHDOG_16MS
    halt .desync
  putch cfg.STK_INSYNC

/-- Line 445: `do getch(); while (--count);` with `uint8_t count`. -/
def getNch.loop (cfg : Config) : Nat → Nat → M Unit
  | 0, _ => halt .fuel
  | fuel + 1, count => do
    let _ ← getch cfg
    let count := (count + 255) % 256
    if count ≠ 0 then getNch.loop cfg fuel count

/-- Lines 444-447. -/
def getNch (cfg : Config) (fuel count : Nat) : M Unit := do
  getNch.loop cfg fuel (count % 256)
  verifySpace cfg

/-- Lines 44-50: the macro `GETLENGTH(len)`, in its 16-bit and 8-bit form. -/
def GETLENGTH (cfg : Config) : M Nat :=
  if cfg.SPM_PAGESIZE > 255 then do
    let h ← getch cfg
    let len := (h <<< 8) % 65536
    let l ← getch cfg
    pure ((len ||| l) % 65536)
  else do
    let _ ← getch cfg
    let l ← getch cfg
    pure l

/-- Conversion of a byte to `int8_t`, the type of `memtype` in `writebuffer`. -/
def toInt8 (v : Nat) : Int :=
  if v % 256 < 128 then ((v % 256 : Nat) : Int) else ((v % 256 : Nat) : Int) - 256

/-- Lines 494-496: `while (len--) eeprom_write_byte(address++, *mybuff++);`. -/
def writebuffer.eeLoop (cfg : Config) : Nat → Nat → Nat → Nat → M Unit
  | 0, _, _, _ => halt .fuel
  | fuel + 1, mybuff, address, len =>
    if len ≠ 0 then do
      let len := (len + (cfg.lenMod - 1)) % cfg.lenMod
      let v ← ramRead mybuff
      eeprom_write_byte address v
      writebuffer.eeLoop cfg fuel ((mybuff + 1) % 65536) ((address + 1) % 65536) len
    else
      pure ()

/-- Lines 521-527: the page-fill loop `do { ... } while (len -= 2);`. -/
def writebuffer.fillLoop (cfg : Config) : Nat → Nat → Nat → Nat → M Unit
  | 0, _, _, _ => halt .fuel
  | fuel + 1, bufPtr, addrPtr, len => do
    let a ← ramRead bufPtr
    let bufPtr := (bufPtr + 1) % 65536
    let b ← ramRead bufPtr
    let a := (a ||| (b <<< 8) % 65536) % 65536
    let bufPtr := (bufPtr + 1) % 65536
    boot_page_fill_short cfg addrPtr a
    let addrPtr := (addrPtr + 2) % 65536
    let len := (len + (cfg.lenMod - 2)) % cfg.lenMod
    if len ≠ 0 then writebuffer.fillLoop cfg fuel bufPtr addrPtr len

/-- Lines 489-541. -/
def writebuffer (cfg : Config) (fuel memtype mybuff address len : Nat) : M Unit :=
  if toInt8 memtype = 69 then
    writebuffer.eeLoop cfg fuel mybuff address len
  else do
    boot_page_erase_short cfg address
    boot_spm_busy_wait
    writebuffer.fillLoop cfg fuel mybuff address len
    boot_page_write_short cfg address
    boot_spm_busy_wait
    if cfg.RWWSRE then boot_rww_enable

/-- Lines 556-558: `do putch(eeprom_read_byte(address++)); while (--length);`. -/
def read_mem.eeLoop (cfg : Config) : Nat → Nat → Nat → M Unit
  | 0, _, _ => halt .fuel
  | fuel + 1, address, length => do
    let v ← eeprom_read_byte address
    putch v
    let address := (address + 1) % 65536
    let length := (length + (cfg.lenMod - 1)) % cfg.lenMod
    if length ≠ 0 then read_mem.eeLoop cfg fuel address length

/-- Lines 562-572: the flash loop of `read_mem`; with `VIRTUAL_BOOT_PARTITION`
the byte comes from `address - VIRTUAL_BOOT_PARTITION_SIZE` and `address` is
not advanced, otherwise `lpm Z+` reads the byte and advances `address`. -/
def read_mem.flashLoop (cfg : Config) : Nat → Nat → Nat → M Unit
  | 0, _, _ => halt .fuel
  | fuel + 1, address, length => do
    if cfg.VIRTUAL_BOOT_PARTITION then
      let virtBootPartitionAddr :=
        (address + (65536 - cfg.VIRTUAL_BOOT_PARTITION_SIZE % 65536)) % 65536
      let cc ← pgm_read_byte_near virtBootPartitionAddr
      putch cc
      let length := (length + (cfg.lenMod - 1)) % cfg.lenMod
      if length ≠ 0 then read_mem.flashLoop cfg fuel address length
    else
      let cc ← pgm_read_byte_near address
      let address := (address + 1) % 65536
      putch cc
      let length := (length + (cfg.lenMod - 1)) % cfg.lenMod
      if length ≠ 0 then read_mem.flashLoop cfg fuel address length

/-- Lines 547-575. -/
def read_mem (cfg : Config) (fuel memtype address length : Nat) : M Unit :=
  if (cfg.SUPPORT_EEPROM || cfg.BIGBOOT) && memtype % 256 = 69 then
    read_mem.eeLoop cfg fuel address length
  else
    read_mem.flashLoop cfg fuel address length

/-- Lines 295-296: `do *bufPtr++ = getch(); while (--length);`. -/
def progRecv (cfg : Config) : Nat → Nat → Nat → M Unit
  | 0, _, _ => halt .fuel
  | fuel + 1, bufPtr, length => do
    let v ← getch cfg
    ramWrite bufPtr v
    let bufPtr := (bufPtr + 1) % 65536
    let length := (length + (cfg.lenMod - 1)) % cfg.lenMod
    if length ≠ 0 then progRecv cfg fuel bufPtr length

/-- Lines 240-330: the body of the `for (;;)` loop of `main`. -/
def step (cfg : Config) (fuel : Nat) : M Unit := do
  let ch ← getch cfg
  if ch = cfg.STK_GET_PARAMETER then
    let which ← getch cfg
    verifySpace cfg
    if which = cfg.STK_SW_MINOR then
      putch OPTIBOOT_AXIOMA_VERSION
    else if which = cfg.STK_SW_MAJOR then
      putch (cfg.OPTIBOOT_MAJOR + 100)
    else
      putch 0x03
  else if ch = cfg.STK_SET_DEVICE then
    getNch cfg fuel 20
  else if ch = cfg.STK_SET_DEVICE_EXT then
    getNch cfg fuel 5
  else if ch = cfg.STK_LOAD_ADDRESS then
    let lo ← getch cfg
    setAddress lo
    let hi ← getch cfg
    let s ← getState
    setAddress ((s.address &&& 0xff) ||| (hi <<< 8) % 65536)
    let s ← getState
    setAddress (s.address + s.address)
    verifySpace cfg
  else if ch = cfg.STK_UNIVERSAL then
    getNch cfg fuel 4
    putch 0x00
  else if ch = cfg.STK_PROG_PAGE then
    let length ← GETLENGTH cfg
    let savelength := length
    let desttype ← getch cfg
    progRecv cfg fuel (cfg.RAMSTART % 65536) length
    verifySpace cfg
    let s ← getState
    writebuffer cfg fuel desttype (cfg.RAMSTART % 65536) s.address savelength
  else if ch = cfg.STK_READ_PAGE then
    let length ← GETLENGTH cfg
    let desttype ← getch cfg
    verifySpace cfg
    let s ← getState
    read_mem cfg fuel desttype s.address length
  else if ch = cfg.STK_READ_SIGN then
    verifySpace cfg
    putch cfg.SIGNATURE_0
    putch cfg.SIGNATURE_1
    putch cfg.SIGNATURE_2
  else if ch = cfg.STK_LEAVE_PROGMODE then
    watchdogConfig cfg.WATCHDOG_16MS
    verifySpace cfg
  else
    verifySpace cfg
  putch cfg.STK_OK

/-- Line 239: `for (;;)`, at most `iters` passes through the body. -/
def mainLoop (cfg : Config) (fuel : Nat) : Nat → State → Halt × State
  | 0, s => (.fuel, s)
  | iters + 1, s =>
    match step cfg fuel s with
    | .ok _ s' => mainLoop cfg fuel iters s'
    | .stop h s' => (h, s')

/-- Lines 174-205: the boot decision.  It returns when the program goes on to
the command loop and ends in `Halt.app` when it jumps to address 0. -/
def bootDecision (cfg : Config) : M Unit := do
  watchdogConfig cfg.WATCHDOG_1S
  let s ← getState
  let ch := s.mcusr % 256
  setState { s with mcusr := 0 }
  if ch &&& (2 ^ cfg.PORF ||| 2 ^ cfg.EXTRF ||| 2 ^ cfg.WDRF) ≠ 0 then
    let w ← pgm_read_word_near 0x0000
    if w ≠ 0xFFFF then
      watchdogConfig cfg.WATCHDOG_OFF
      halt .app

/-- Lines 138-332: `main`: `address = 0` (line 147), the boot decision, the
watchdog pulse of line 227 and the command loop.  `axioma_startup_sequence`
(port registers, the wait for the EEPROM, the delay) and the timer and UART
set-up write registers that are not part of the state. -/
def main (cfg : Config) (fuel iters : Nat) (s : State) : Halt × State :=
  match (do setAddress 0; bootDecision cfg; watchdogReset : M Unit) s with
  | .ok _ s' => mainLoop cfg fuel iters s'
  | .stop h s' => (h, s')

/-! ## Closed forms of the loops

Fuel-free descriptions of what each loop of the program does, used to state
what a command leaves behind. -/

/-- Events of one `getch` on the byte `b`: the watchdog pulse of the hardware
UART path when `FE0` is clear, then the receipt. -/
def rxLog (cfg : Config) (b : Rx) : List Event :=
  (if cfg.SOFT_UART then [] else if !b.fe then [Event.wdr] else []) ++ [Event.rx (b.data % 256)]

/-- Events of receiving the bytes `bs` one after the other. -/
def rxEvents (cfg : Config) : List Rx → List Event
  | [] => []
  | b :: bs => rxLog cfg b ++ rxEvents cfg bs

/-- Number of passes of `do ... while (--n)` on a counter with `m` values. -/
def dwIters (m n : Nat) : Nat := if n = 0 then m else n

/-- Data space after storing `vs` from pointer `p` upwards (16-bit pointer). -/
def ramStore (ram : Nat → Nat) (p : Nat) : List Nat → Nat → Nat
  | [] => ram
  | v :: vs => ramStore (fun x => if x = p then v % 256 else ram x) ((p + 1) % 65536) vs

/-- EEPROM after `n` passes of the write loop of `writebuffer`. -/
def eeStore (ee ram : Nat → Nat) (mybuff address : Nat) : Nat → Nat → Nat
  | 0 => ee
  | n + 1 =>
    eeStore (fun x => if x = address then ram mybuff % 256 % 256 else ee x) ram
      ((mybuff + 1) % 65536) ((address + 1) % 65536) n

/-- Events of `n` passes of the write loop of `writebuffer`. -/
def eeEvents (ram : Nat → Nat) (mybuff address : Nat) : Nat → List Event
  | 0 => []
  | n + 1 =>
    Event.eepromWrite address (ram mybuff % 256 % 256) ::
      eeEvents ram ((mybuff + 1) % 65536) ((address + 1) % 65536) n

/-- The word the fill loop builds from the two bytes at `bufPtr`. -/
def fillWord (ram : Nat → Nat) (bufPtr : Nat) : Nat :=
  (ram bufPtr % 256 ||| ((ram ((bufPtr + 1) % 65536) % 256) <<< 8) % 65536) % 65536

/-- Write latch after `n` passes of the fill loop. -/
def fillLatch (cfg : Config) (latch ram : Nat → Nat) (bufPtr addrPtr : Nat) : Nat → Nat → Nat
  | 0 => latch
  | n + 1 =>
    fillLatch cfg
      (fun x =>
        if x = addrPtr % cfg.SPM_PAGESIZE / 2 * 2 then fillWord ram bufPtr % 256
        else if x = addrPtr % cfg.SPM_PAGESIZE / 2 * 2 + 1 then fillWord ram bufPtr / 256 % 256
        else latch x)
      ram (((bufPtr + 1) % 65536 + 1) % 65536) ((addrPtr + 2) % 65536) n

/-- Events of `n` passes of the fill loop. -/
def fillEvents (ram : Nat → Nat) (bufPtr addrPtr : Nat) : Nat → List Event
  | 0 => []
  | n + 1 =>
    Event.pageFill addrPtr (fillWord ram bufPtr) ::
      fillEvents ram (((bufPtr + 1) % 65536 + 1) % 65536) ((addrPtr + 2) % 65536) n

/-- Bytes sent by `n` passes of the EEPROM loop of `read_mem`. -/
def eeBytes (ee : Nat → Nat) (address : Nat) : Nat → List Nat
  | 0 => []
  | n + 1 => ee address % 256 % 256 :: eeBytes ee ((address + 1) % 65536) n

/-- Bytes sent by `n` passes of the flash loop of `read_mem`. -/
def flashBytes (cfg : Config) (flash : Nat → Nat) (address : Nat) : Nat → List Nat
  | 0 => []
  | n + 1 =>
    if cfg.VIRTUAL_BOOT_PARTITION then
      flash ((address + (65536 - cfg.VIRTUAL_BOOT_PARTITION_SIZE % 65536)) % 65536) % 256 % 256 ::
        flashBytes cfg flash address n
    else
      flash address % 256 % 256 :: flashBytes cfg flash ((address + 1) % 65536) n

/-- Value of `length` after `GETLENGTH` has read the bytes `hi` then `lo`. -/
def lenOf (cfg : Config) (hi lo : Nat) : Nat :=
  if cfg.SPM_PAGESIZE > 255 then ((hi % 256) <<< 8 % 65536 ||| lo % 256) % 65536 else lo % 256

/-- State after `getch` has taken the bytes `bs` off the line, leaving `rest`. -/
def State.rxd (cfg : Config) (s : State) (bs rest : List Rx) : State :=
  { s with input := rest, log := s.log ++ rxEvents cfg bs }

/-- State after `putch` has sent the bytes `bytes`. -/
def State.sent (s : State) (bytes : List Nat) : State :=
  { s with out := s.out ++ bytes, log := s.log ++ bytes.map Event.tx }

/-- State in which `verifySpace` hangs: the watchdog set to `WATCHDOG_16MS`. -/
def State.hung (cfg : Config) (s : State) : State :=
  { s with wdtcsr := cfg.WATCHDOG_16MS % 256,
           log := s.log ++ [Event.wdtcsr (cfg.WATCHDOG_16MS % 256)] }

/-- State after the EEPROM path of `writebuffer` has written `len` bytes. -/
def State.eeWritten (s : State) (mybuff address len : Nat) : State :=
  { s with eeprom := eeStore s.eeprom s.ram mybuff address len,
           log := s.log ++ eeEvents s.ram mybuff address len }

/-- State after the flash path of `writebuffer` has run with `k` passes of the
fill loop: erase, fill, commit. -/
def State.flashWritten (cfg : Config) (s : State) (mybuff address k : Nat) : State :=
  { s with
    flash := fun x =>
      if x / cfg.SPM_PAGESIZE = address / cfg.SPM_PAGESIZE
      then fillLatch cfg s.latch s.ram mybuff address k (x % cfg.SPM_PAGESIZE)
      else s.flash x,
    latch := fun _ => 0xFF,
    log := s.log ++ [Event.pageErase address, Event.spmBusyWait] ++
      fillEvents s.ram mybuff address k ++ [Event.pageWrite address, Event.spmBusyWait] ++
      (if cfg.RWWSRE then [Event.rwwEnable] else []) }

/-- Value of `address` after the three assignments of the Load Address branch
(lines 272-274) on the parameter bytes `lo` then `hi`. -/
def loadAddr (lo hi : Nat) : Nat :=
  (((lo % 256 % 65536 &&& 0xff) ||| ((hi % 256) <<< 8) % 65536) % 65536 +
    ((lo % 256 % 65536 &&& 0xff) ||| ((hi % 256) <<< 8) % 65536) % 65536) % 65536

/-- State with `address` replaced. -/
def State.withAddress (s : State) (a : Nat) : State := { s with address := a }

/-- State after the bytes `vs` have been stored in the data space from `p`. -/
def State.stored (s : State) (p : Nat) (vs : List Nat) : State :=
  { s with ram := ramStore s.ram p vs }

/-- The byte Get Parameter answers for the parameter id `which`. -/
def paramValue (cfg : Config) (which : Nat) : Nat :=
  if which = cfg.STK_SW_MINOR then OPTIBOOT_AXIOMA_VERSION
  else if which = cfg.STK_SW_MAJOR then cfg.OPTIBOOT_MAJOR + 100
  else 0x03

/-! ## Command frames -/

/-- Number of parameter bytes that the branch of the opcode at the head of
`frame` reads between the opcode and the terminator: the fixed counts of the
dispatch chain, and for Program Page the two length bytes, the tag and as many
data bytes as the receive loop takes for the length read by `GETLENGTH`. -/
def paramCount (cfg : Config) (frame : List Rx) : Nat :=
  match frame with
  | [] => 0
  | op :: ps =>
    if op.data % 256 = cfg.STK_GET_PARAMETER then 1
    else if op.data % 256 = cfg.STK_SET_DEVICE then 20
    else if op.data % 256 = cfg.STK_SET_DEVICE_EXT then 5
    else if op.data % 256 = cfg.STK_LOAD_ADDRESS then 2
    else if op.data % 256 = cfg.STK_UNIVERSAL then 4
    else if op.data % 256 = cfg.STK_PROG_PAGE then
      match ps with
      | hi :: lo :: _ => 3 + dwIters cfg.lenMod (lenOf cfg hi.data lo.data)
      | _ => 3
    else if op.data % 256 = cfg.STK_READ_PAGE then 3
    else 0

/-- A frame is a Program Page whose tag is not `'E'` (so that `writebuffer`
takes the flash path) and whose length, as read by `GETLENGTH`, is odd. -/
def oddFlashProgram (cfg : Config) (frame : List Rx) : Bool :=
  match frame with
  | op :: hi :: lo :: tag :: _ =>
    decide (op.data % 256 = cfg.STK_PROG_PAGE) && decide (tag.data % 256 ≠ 69) &&
      decide (lenOf cfg hi.data lo.data % 2 = 1)
  | _ => false

/-- The shapes of opcode and parameter bytes, one per branch of the chain. -/
inductive FrameShape (cfg : Config) : List Rx → Prop where
  | getParameter (op which : Rx) :
      op.data % 256 = cfg.STK_GET_PARAMETER → FrameShape cfg [op, which]
  | setDevice (op : Rx) (ps : List Rx) :
      op.data % 256 = cfg.STK_SET_DEVICE → ps.length = 20 → FrameShape cfg (op :: ps)
  | setDeviceExt (op : Rx) (ps : List Rx) :
      op.data % 256 = cfg.STK_SET_DEVICE_EXT → ps.length = 5 → FrameShape cfg (op :: ps)
  | loadAddress (op lo hi : Rx) :
      op.data % 256 = cfg.STK_LOAD_ADDRESS → FrameShape cfg [op, lo, hi]
  | universal (op : Rx) (ps : List Rx) :
      op.data % 256 = cfg.STK_UNIVERSAL → ps.length = 4 → FrameShape cfg (op :: ps)
  | progPage (op hi lo tag : Rx) (data : List Rx) :
      op.data % 256 = cfg.STK_PROG_PAGE →
      data.length = dwIters cfg.lenMod (lenOf cfg hi.data lo.data) →
      FrameShape cfg (op :: hi :: lo :: tag :: data)
  | readPage (op hi lo tag : Rx) :
      op.data % 256 = cfg.STK_READ_PAGE → FrameShape cfg [op, hi, lo, tag]
  | readSign (op : Rx) : op.data % 256 = cfg.STK_READ_SIGN → FrameShape cfg [op]
  | leave (op : Rx) : op.data % 256 = cfg.STK_LEAVE_PROGMODE → FrameShape cfg [op]
  | other (op : Rx) : op.data % 256 ∉ cfg.opcodes → FrameShape cfg [op]

/-! ## Concrete devices -/

/-- A serial line that delivers the bytes `bs` without framing errors. -/
def line (bs : List Nat) : List Rx := bs.map fun b => ⟨b, false⟩

/-- A device with erased code memory and EEPROM, nothing sent yet, `address`
0, and the bytes `input` waiting on the serial line. -/
def State.fresh (input : List Rx) : State :=
  { input := input, out := [], address := 0, ram := fun _ => 0, flash := fun _ => 0xFF,
    latch := fun _ => 0xFF, eeprom := fun _ => 0xFF, wdtcsr := 0, mcusr := 0, log := [] }

/-- An event that changes non-volatile memory or its write latch. -/
def Event.isWrite : Event → Bool
  | .eepromWrite _ _ => true
  | .pageErase _ => true
  | .pageFill _ _ => true
  | .pageWrite _ => true
  | _ => false

/-- An event that takes a byte off the serial line. -/
def Event.isRx : Event → Bool
  | .rx _ => true
  | _ => false

/-- An event of the code-memory programming hardware. -/
def Event.isFlashOp : Event → Bool
  | .pageErase _ => true
  | .pageFill _ _ => true
  | .pageWrite _ => true
  | .spmBusyWait => true
  | .rwwEnable => true
  | _ => false

/-- An EEPROM byte write. -/
def Event.isEepromWrite : Event → Bool
  | .eepromWrite _ _ => true
  | _ => false

/-- The state in which a run ended, returned or not. -/
def Res.state {α : Type} : Res α → State
  | .ok _ s => s
  | .stop _ s => s

/-- An event that puts a byte on the serial line. -/
def Event.isTx : Event → Bool
  | .tx _ => true
  | _ => false

/-- The parameter counts of the fixed-length commands as the specification
states them, to be compared with what `step` takes off the line: 1 for Get
Parameter, 20 for Set Device, 5 for Set Device (extended), 2 for Load Address,
4 for Universal, 3 for Read Page, and 0 for every other opcode that is not
Program Page. -/
def fixedParams (cfg : Config) (ch : Nat) : Nat :=
  if ch = cfg.STK_GET_PARAMETER then 1
  else if ch = cfg.STK_SET_DEVICE then 20
  else if ch = cfg.STK_SET_DEVICE_EXT then 5
  else if ch = cfg.STK_LOAD_ADDRESS then 2
  else if ch = cfg.STK_UNIVERSAL then 4
  else if ch = cfg.STK_READ_PAGE then 3
  else 0

/-- A piece of the program keeps the observation `f` of the state: whatever
state it is run from, the state in which it ends, returned or not, shows the
same `f`. -/
def Keeps {α β : Type} (f : State → β) (m : M α) : Prop :=
  ∀ s, f (m s).state = f s

/-- Bytes that `read_mem` streams in `n` passes from `address`: out of EEPROM
when the EEPROM case is compiled in and the tag is 'E', out of code memory
otherwise. -/
def readBytes (cfg : Config) (s : State) (memtype address n : Nat) : List Nat :=
  if (cfg.SUPPORT_EEPROM || cfg.BIGBOOT) = true ∧ memtype % 256 = 69
  then eeBytes s.eeprom address n
  else flashBytes cfg s.flash address n

/-! ## Running the primitives -/

@[simp] theorem bind_run {α β : Type} (m : M α) (f : α → M β) (s : State) :
    (m >>= f) s = match m s with
      | .ok a s' => f a s'
      | .stop h s' => .stop h s' := rfl

@[simp] theorem pure_run {α : Type} (a : α) (s : State) : (pure a : M α) s = .ok a s := rfl

theorem lenMod_cases (cfg : Config) : cfg.lenMod = 256 ∨ cfg.lenMod = 65536 := by
  unfold Config.lenMod Config.lenBits
  split_ifs
  · right; norm_num
  · left; norm_num

theorem getch_cons (cfg : Config) (s : State) (b : Rx) (rest : List Rx)
    (h : s.input = b :: rest) :
    getch cfg s = .ok (b.data % 256) { s with input := rest, log := s.log ++ rxLog cfg b } := by
  obtain ⟨d, fe⟩ := b
  unfold getch rxLog
  rw [h]
  cases cfg.SOFT_UART <;> cases fe <;> simp

theorem getch_nil (cfg : Config) (s : State) (h : s.input = []) :
    getch cfg s = .stop .starved s := by
  unfold getch
  rw [h]

theorem verifySpace_ok (cfg : Config) (s : State) (t : Rx) (rest : List Rx)
    (h : s.input = t :: rest) (ht : t.data % 256 = cfg.CRC_EOP) :
    verifySpace cfg s = .ok () { s with
      input := rest, out := s.out ++ [cfg.STK_INSYNC % 256],
      log := s.log ++ rxLog cfg t ++ [Event.tx (cfg.STK_INSYNC % 256)] } := by
  simp [verifySpace, getch_cons cfg s t rest h, ht, putch]

theorem verifySpace_bad (cfg : Config) (s : State) (t : Rx) (rest : List Rx)
    (h : s.input = t :: rest) (ht : t.data % 256 ≠ cfg.CRC_EOP) :
    verifySpace cfg s = .stop .desync { s with
      input := rest, wdtcsr := cfg.WATCHDOG_16MS % 256,
      log := s.log ++ rxLog cfg t ++ [Event.wdtcsr (cfg.WATCHDOG_16MS % 256)] } := by
  simp [verifySpace, getch_cons cfg s t rest h, ht, watchdogConfig, halt]

/-! ## Running the loops -/

theorem getNch_loop_ok (cfg : Config) :
    ∀ (bs : List Rx) (fuel count : Nat) (s : State) (rest : List Rx),
      bs ≠ [] → count < 256 → bs.length = dwIters 256 count → bs.length ≤ fuel →
      s.input = bs ++ rest →
      getNch.loop cfg fuel count s =
        .ok () { s with input := rest, log := s.log ++ rxEvents cfg bs } := by
  intro bs
  induction bs with
  | nil => intro _ _ _ _ h; exact absurd rfl h
  | cons b bs ih =>
    intro fuel count s rest _ _ hn hf hin
    cases fuel with
    | zero => simp at hf
    | succ fuel =>
      unfold getNch.loop
      simp only [bind_run]
      rw [getch_cons cfg s b (bs ++ rest) hin]
      simp only [dwIters, List.length_cons] at hn hf
      by_cases hbs : bs = []
      · subst hbs
        have h0 : (count + 255) % 256 = 0 := by
          simp only [List.length_nil] at hn
          split_ifs at hn <;> omega
        simp [h0, rxEvents]
      · have hpos : 0 < bs.length := List.length_pos.mpr hbs
        have h0 : (count + 255) % 256 ≠ 0 := by
          split_ifs at hn <;> omega
        have h1 : bs.length = dwIters 256 ((count + 255) % 256) := by
          unfold dwIters
          rw [if_neg h0]
          split_ifs at hn <;> omega
        simp only [ne_eq, h0, not_false_eq_true, if_true]
        rw [ih fuel ((count + 255) % 256) _ rest hbs (Nat.mod_lt _ (by norm_num)) h1
          (by omega) rfl]
        simp [rxEvents]

theorem progRecv_ok (cfg : Config) :
    ∀ (bs : List Rx) (fuel p length : Nat) (s : State) (rest : List Rx),
      bs ≠ [] → length < cfg.lenMod → bs.length = dwIters cfg.lenMod length →
      bs.length ≤ fuel → s.input = bs ++ rest →
      progRecv cfg fuel p length s =
        .ok () { s with
          input := rest,
          ram := ramStore s.ram p (bs.map fun b => b.data % 256),
          log := s.log ++ rxEvents cfg bs } := by
  intro bs
  induction bs with
  | nil => intro _ _ _ _ _ h; exact absurd rfl h
  | cons b bs ih =>
    intro fuel p length s rest _ hlt hn hf hin
    cases fuel with
    | zero => simp at hf
    | succ fuel =>
      unfold progRecv
      simp only [bind_run]
      rw [getch_cons cfg s b (bs ++ rest) hin]
      simp only [dwIters, List.length_cons] at hn hf
      simp only [ramWrite]
      by_cases hbs : bs = []
      · subst hbs
        have h0 : (length + (cfg.lenMod - 1)) % cfg.lenMod = 0 := by
          simp only [List.length_nil] at hn
          rcases lenMod_cases cfg with hm | hm <;> rw [hm] at hn hlt ⊢ <;>
            split_ifs at hn <;> omega
        simp [h0, rxEvents, ramStore]
      · have hpos : 0 < bs.length := List.length_pos.mpr hbs
        have h0 : (length + (cfg.lenMod - 1)) % cfg.lenMod ≠ 0 := by
          rcases lenMod_cases cfg with hm | hm <;> rw [hm] at hn hlt ⊢ <;>
            split_ifs at hn <;> omega
        have h1 : bs.length = dwIters cfg.lenMod ((length + (cfg.lenMod - 1)) % cfg.lenMod) := by
          unfold dwIters
          rw [if_neg h0]
          rcases lenMod_cases cfg with hm | hm <;> rw [hm] at hn hlt ⊢ <;>
            split_ifs at hn <;> omega
        have h2 : (length + (cfg.lenMod - 1)) % cfg.lenMod < cfg.lenMod :=
          Nat.mod_lt _ (by rcases lenMod_cases cfg with hm | hm <;> rw [hm] <;> norm_num)
        simp only [ne_eq, h0, not_false_eq_true, if_true]
        rw [ih fuel ((p + 1) % 65536) _ _ rest hbs h2 h1 (by omega) rfl]
        simp [rxEvents, ramStore]


theorem lenMod_pos (cfg : Config) : 0 < cfg.lenMod := by
  rcases lenMod_cases cfg with hm | hm <;> rw [hm] <;> norm_num

theorem dw_last (cfg : Config) (len : Nat) (_hlt : len < cfg.lenMod)
    (hn : 1 = dwIters cfg.lenMod len) : (len + (cfg.lenMod - 1)) % cfg.lenMod = 0 := by
  unfold dwIters at hn
  rcases lenMod_cases cfg with hm | hm <;> rw [hm] at hn ⊢ <;> split_ifs at hn <;> omega

theorem dw_next (cfg : Config) (n len : Nat) (hlt : len < cfg.lenMod) (hpos : 0 < n)
    (hn : n + 1 = dwIters cfg.lenMod len) :
    (len + (cfg.lenMod - 1)) % cfg.lenMod ≠ 0 ∧
    (len + (cfg.lenMod - 1)) % cfg.lenMod < cfg.lenMod ∧
    n = dwIters cfg.lenMod ((len + (cfg.lenMod - 1)) % cfg.lenMod) := by
  unfold dwIters at hn
  have h0 : (len + (cfg.lenMod - 1)) % cfg.lenMod ≠ 0 := by
    rcases lenMod_cases cfg with hm | hm <;> rw [hm] at hn hlt ⊢ <;> split_ifs at hn <;> omega
  refine ⟨h0, Nat.mod_lt _ (lenMod_pos cfg), ?_⟩
  unfold dwIters
  rw [if_neg h0]
  rcases lenMod_cases cfg with hm | hm <;> rw [hm] at hn hlt ⊢ <;> split_ifs at hn <;> omega

theorem writebuffer_eeLoop_ok (cfg : Config) :
    ∀ (n fuel mybuff address : Nat) (s : State), n < cfg.lenMod → n < fuel →
      writebuffer.eeLoop cfg fuel mybuff address n s =
        .ok () { s with
          eeprom := eeStore s.eeprom s.ram mybuff address n,
          log := s.log ++ eeEvents s.ram mybuff address n } := by
  intro n
  induction n with
  | zero =>
    intro fuel mybuff address s _ hf
    cases fuel with
    | zero => omega
    | succ fuel => simp [writebuffer.eeLoop, eeStore, eeEvents]
  | succ n ih =>
    intro fuel mybuff address s hlt hf
    cases fuel with
    | zero => omega
    | succ fuel =>
      have h1 : (n + 1 + (cfg.lenMod - 1)) % cfg.lenMod = n := by
        rcases lenMod_cases cfg with hm | hm <;> rw [hm] at hlt ⊢ <;> omega
      unfold writebuffer.eeLoop
      simp only [ne_eq, Nat.succ_ne_zero, not_false_eq_true, if_true, bind_run, ramRead,
        eeprom_write_byte, h1]
      rw [ih fuel _ _ _ (by omega) (by omega)]
      simp [eeStore, eeEvents]

theorem fill_last (cfg : Config) (len : Nat) (_hlt : len < cfg.lenMod)
    (hn : 2 = dwIters cfg.lenMod len) : (len + (cfg.lenMod - 2)) % cfg.lenMod = 0 := by
  unfold dwIters at hn
  rcases lenMod_cases cfg with hm | hm <;> rw [hm] at hn ⊢ <;> split_ifs at hn <;> omega

theorem fill_next (cfg : Config) (k len : Nat) (hlt : len < cfg.lenMod) (hpos : 0 < k)
    (hn : 2 * (k + 1) = dwIters cfg.lenMod len) :
    (len + (cfg.lenMod - 2)) % cfg.lenMod ≠ 0 ∧
    (len + (cfg.lenMod - 2)) % cfg.lenMod < cfg.lenMod ∧
    2 * k = dwIters cfg.lenMod ((len + (cfg.lenMod - 2)) % cfg.lenMod) := by
  unfold dwIters at hn
  have h0 : (len + (cfg.lenMod - 2)) % cfg.lenMod ≠ 0 := by
    rcases lenMod_cases cfg with hm | hm <;> rw [hm] at hn hlt ⊢ <;> split_ifs at hn <;> omega
  refine ⟨h0, Nat.mod_lt _ (lenMod_pos cfg), ?_⟩
  unfold dwIters
  rw [if_neg h0]
  rcases lenMod_cases cfg with hm | hm <;> rw [hm] at hn hlt ⊢ <;> split_ifs at hn <;> omega

theorem fillLoop_ok (cfg : Config) :
    ∀ (k fuel bufPtr addrPtr len : Nat) (s : State), 0 < k → len < cfg.lenMod →
      2 * k = dwIters cfg.lenMod len → k ≤ fuel →
      writebuffer.fillLoop cfg fuel bufPtr addrPtr len s =
        .ok () { s with
          latch := fillLatch cfg s.latch s.ram bufPtr addrPtr k,
          log := s.log ++ fillEvents s.ram bufPtr addrPtr k } := by
  intro k
  induction k with
  | zero => intro _ _ _ _ _ h; omega
  | succ k ih =>
    intro fuel bufPtr addrPtr len s _ hlt hn hf
    cases fuel with
    | zero => omega
    | succ fuel =>
      unfold writebuffer.fillLoop
      simp only [bind_run, ramRead, boot_page_fill_short]
      by_cases hk : k = 0
      · subst hk
        have h0 := fill_last cfg len hlt hn
        simp [h0, fillLatch, fillEvents, fillWord]
      · obtain ⟨h0, h2, h1⟩ := fill_next cfg k len hlt (Nat.pos_of_ne_zero hk) hn
        simp only [ne_eq, h0, not_false_eq_true, if_true]
        rw [ih fuel _ _ _ _ (Nat.pos_of_ne_zero hk) h2 h1 (by omega)]
        simp [fillLatch, fillEvents, fillWord]

theorem fillLoop_odd (cfg : Config) :
    ∀ (fuel bufPtr addrPtr len : Nat) (s : State), len % 2 = 1 →
      ∃ s' tail, writebuffer.fillLoop cfg fuel bufPtr addrPtr len s = .stop .fuel s' ∧
        s'.out = s.out ∧ s'.input = s.input ∧ s'.flash = s.flash ∧ s'.eeprom = s.eeprom ∧
        s'.log = s.log ++ tail ∧ ∀ e ∈ tail, ∃ a w, e = Event.pageFill a w := by
  intro fuel
  induction fuel with
  | zero => intro _ _ _ s _; exact ⟨s, [], rfl, rfl, rfl, rfl, rfl, by simp, by simp⟩
  | succ fuel ih =>
    intro bufPtr addrPtr len s hodd
    have h0 : (len + (cfg.lenMod - 2)) % cfg.lenMod % 2 = 1 := by
      rcases lenMod_cases cfg with hm | hm <;> rw [hm] <;> omega
    have h1 : (len + (cfg.lenMod - 2)) % cfg.lenMod ≠ 0 := by
      intro h; rw [h] at h0; omega
    unfold writebuffer.fillLoop
    simp only [bind_run, ramRead, boot_page_fill_short, ne_eq, h1, not_false_eq_true, if_true]
    obtain ⟨s', tail, hs', ho, hi, hfl, hee, hlog, htail⟩ :=
      ih (((bufPtr + 1) % 65536 + 1) % 65536) ((addrPtr + 2) % 65536) _ { s with
        latch := fun x =>
          if x = addrPtr % cfg.SPM_PAGESIZE / 2 * 2 then fillWord s.ram bufPtr % 256
          else if x = addrPtr % cfg.SPM_PAGESIZE / 2 * 2 + 1 then fillWord s.ram bufPtr / 256 % 256
          else s.latch x,
        log := s.log ++ [Event.pageFill addrPtr (fillWord s.ram bufPtr)] } h0
    refine ⟨s', Event.pageFill addrPtr (fillWord s.ram bufPtr) :: tail, hs', ho, hi, hfl, hee,
      by simp [hlog], ?_⟩
    intro e he
    rcases List.mem_cons.mp he with rfl | he
    · exact ⟨_, _, rfl⟩
    · exact htail e he

theorem read_eeLoop_ok (cfg : Config) :
    ∀ (n fuel address length : Nat) (s : State), 0 < n → length < cfg.lenMod →
      n = dwIters cfg.lenMod length → n ≤ fuel →
      read_mem.eeLoop cfg fuel address length s =
        .ok () { s with
          out := s.out ++ eeBytes s.eeprom address n,
          log := s.log ++ (eeBytes s.eeprom address n).map Event.tx } := by
  intro n
  induction n with
  | zero => intro _ _ _ _ h; omega
  | succ n ih =>
    intro fuel address length s _ hlt hn hf
    cases fuel with
    | zero => omega
    | succ fuel =>
      unfold read_mem.eeLoop
      simp only [bind_run, eeprom_read_byte, putch]
      by_cases hk : n = 0
      · subst hk
        have h0 := dw_last cfg length hlt hn
        simp [h0, eeBytes]
      · obtain ⟨h0, h2, h1⟩ := dw_next cfg n length hlt (Nat.pos_of_ne_zero hk) hn
        simp only [ne_eq, h0, not_false_eq_true, if_true]
        rw [ih fuel _ _ _ (Nat.pos_of_ne_zero hk) h2 h1 (by omega)]
        simp [eeBytes]

theorem read_flashLoop_ok (cfg : Config) :
    ∀ (n fuel address length : Nat) (s : State), 0 < n → length < cfg.lenMod →
      n = dwIters cfg.lenMod length → n ≤ fuel →
      read_mem.flashLoop cfg fuel address length s =
        .ok () { s with
          out := s.out ++ flashBytes cfg s.flash address n,
          log := s.log ++ (flashBytes cfg s.flash address n).map Event.tx } := by
  intro n
  induction n with
  | zero => intro _ _ _ _ h; omega
  | succ n ih =>
    intro fuel address length s _ hlt hn hf
    cases fuel with
    | zero => omega
    | succ fuel =>
      unfold read_mem.flashLoop
      by_cases hk : n = 0
      · subst hk
        have h0 := dw_last cfg length hlt hn
        cases hv : cfg.VIRTUAL_BOOT_PARTITION <;>
          simp [h0, flashBytes, hv, pgm_read_byte_near, putch]
      · obtain ⟨h0, h2, h1⟩ := dw_next cfg n length hlt (Nat.pos_of_ne_zero hk) hn
        cases hv : cfg.VIRTUAL_BOOT_PARTITION
        · simp only [Bool.false_eq_true, if_false, bind_run, pgm_read_byte_near, putch, ne_eq, h0,
            not_false_eq_true, if_true]
          rw [ih fuel _ _ _ (Nat.pos_of_ne_zero hk) h2 h1 (by omega)]
          simp [flashBytes, hv]
        · simp only [if_true, bind_run, pgm_read_byte_near, putch, ne_eq, h0,
            not_false_eq_true]
          rw [ih fuel _ _ _ (Nat.pos_of_ne_zero hk) h2 h1 (by omega)]
          simp [flashBytes, hv]

/-! ## Running the subroutines -/

@[simp] theorem rxd_out (cfg : Config) (s : State) (bs rest : List Rx) :
    (s.rxd cfg bs rest).out = s.out := rfl
@[simp] theorem rxd_input (cfg : Config) (s : State) (bs rest : List Rx) :
    (s.rxd cfg bs rest).input = rest := rfl
@[simp] theorem rxd_address (cfg : Config) (s : State) (bs rest : List Rx) :
    (s.rxd cfg bs rest).address = s.address := rfl
@[simp] theorem rxd_flash (cfg : Config) (s : State) (bs rest : List Rx) :
    (s.rxd cfg bs rest).flash = s.flash := rfl
@[simp] theorem rxd_eeprom (cfg : Config) (s : State) (bs rest : List Rx) :
    (s.rxd cfg bs rest).eeprom = s.eeprom := rfl
@[simp] theorem rxd_wdtcsr (cfg : Config) (s : State) (bs rest : List Rx) :
    (s.rxd cfg bs rest).wdtcsr = s.wdtcsr := rfl
@[simp] theorem rxd_ram (cfg : Config) (s : State) (bs rest : List Rx) :
    (s.rxd cfg bs rest).ram = s.ram := rfl
@[simp] theorem rxd_latch (cfg : Config) (s : State) (bs rest : List Rx) :
    (s.rxd cfg bs rest).latch = s.latch := rfl
@[simp] theorem sent_out (s : State) (bytes : List Nat) :
    (s.sent bytes).out = s.out ++ bytes := rfl
@[simp] theorem sent_input (s : State) (bytes : List Nat) :
    (s.sent bytes).input = s.input := rfl
@[simp] theorem sent_address (s : State) (bytes : List Nat) :
    (s.sent bytes).address = s.address := rfl
@[simp] theorem sent_flash (s : State) (bytes : List Nat) :
    (s.sent bytes).flash = s.flash := rfl
@[simp] theorem sent_eeprom (s : State) (bytes : List Nat) :
    (s.sent bytes).eeprom = s.eeprom := rfl
@[simp] theorem sent_wdtcsr (s : State) (bytes : List Nat) :
    (s.sent bytes).wdtcsr = s.wdtcsr := rfl
@[simp] theorem sent_ram (s : State) (bytes : List Nat) :
    (s.sent bytes).ram = s.ram := rfl
@[simp] theorem sent_latch (s : State) (bytes : List Nat) :
    (s.sent bytes).latch = s.latch := rfl
@[simp] theorem hung_out (cfg : Config) (s : State) : (s.hung cfg).out = s.out := rfl
@[simp] theorem hung_input (cfg : Config) (s : State) : (s.hung cfg).input = s.input := rfl
@[simp] theorem hung_address (cfg : Config) (s : State) : (s.hung cfg).address = s.address := rfl
@[simp] theorem hung_flash (cfg : Config) (s : State) : (s.hung cfg).flash = s.flash := rfl
@[simp] theorem hung_eeprom (cfg : Config) (s : State) : (s.hung cfg).eeprom = s.eeprom := rfl
@[simp] theorem hung_wdtcsr (cfg : Config) (s : State) :
    (s.hung cfg).wdtcsr = cfg.WATCHDOG_16MS % 256 := rfl

theorem rxEvents_append (cfg : Config) (as bs : List Rx) :
    rxEvents cfg (as ++ bs) = rxEvents cfg as ++ rxEvents cfg bs := by
  induction as with
  | nil => rfl
  | cons a as ih => simp [rxEvents, ih]

theorem rxd_rxd (cfg : Config) (s : State) (as bs r1 r2 : List Rx) :
    (s.rxd cfg as r1).rxd cfg bs r2 = s.rxd cfg (as ++ bs) r2 := by
  simp [State.rxd, rxEvents_append]

theorem sent_sent (s : State) (as bs : List Nat) :
    (s.sent as).sent bs = s.sent (as ++ bs) := by
  simp [State.sent]

theorem getch_rxd (cfg : Config) (s : State) (b : Rx) (rest : List Rx)
    (h : s.input = b :: rest) :
    getch cfg s = .ok (b.data % 256) (s.rxd cfg [b] rest) := by
  rw [getch_cons cfg s b rest h]
  simp [State.rxd, rxEvents]

theorem putch_sent (ch : Nat) (s : State) : putch ch s = .ok () (s.sent [ch % 256]) := rfl

theorem verifySpace_cons (cfg : Config) (s : State) (t : Rx) (rest : List Rx)
    (h : s.input = t :: rest) :
    verifySpace cfg s =
      if t.data % 256 = cfg.CRC_EOP
      then .ok () ((s.rxd cfg [t] rest).sent [cfg.STK_INSYNC % 256])
      else .stop .desync ((s.rxd cfg [t] rest).hung cfg) := by
  split_ifs with ht
  · rw [verifySpace_ok cfg s t rest h ht]
    simp [State.rxd, State.sent, rxEvents]
  · rw [verifySpace_bad cfg s t rest h ht]
    simp [State.rxd, State.hung, rxEvents]

theorem getNch_run (cfg : Config) (fuel count : Nat) (s : State) (bs : List Rx) (t : Rx)
    (rest : List Rx) (hbs : bs ≠ []) (hn : bs.length = dwIters 256 (count % 256))
    (hf : bs.length ≤ fuel) (h : s.input = bs ++ t :: rest) :
    getNch cfg fuel count s =
      if t.data % 256 = cfg.CRC_EOP
      then .ok () ((s.rxd cfg (bs ++ [t]) rest).sent [cfg.STK_INSYNC % 256])
      else .stop .desync ((s.rxd cfg (bs ++ [t]) rest).hung cfg) := by
  unfold getNch
  simp only [bind_run]
  rw [getNch_loop_ok cfg bs fuel (count % 256) s (t :: rest) hbs (Nat.mod_lt _ (by norm_num)) hn
    hf h]
  simp only []
  rw [verifySpace_cons cfg _ t rest rfl]
  have e : ({ s with input := t :: rest, log := s.log ++ rxEvents cfg bs } : State) =
      s.rxd cfg bs (t :: rest) := rfl
  rw [e, rxd_rxd]

theorem lenOf_lt (cfg : Config) (hi lo : Nat) : lenOf cfg hi lo < cfg.lenMod := by
  unfold lenOf Config.lenMod Config.lenBits
  split_ifs
  · exact Nat.mod_lt _ (by norm_num)
  · exact Nat.mod_lt _ (by norm_num)

theorem GETLENGTH_run (cfg : Config) (s : State) (hi lo : Rx) (rest : List Rx)
    (h : s.input = hi :: lo :: rest) :
    GETLENGTH cfg s = .ok (lenOf cfg hi.data lo.data) (s.rxd cfg [hi, lo] rest) := by
  unfold GETLENGTH lenOf
  split_ifs
  · simp only [bind_run]
    rw [getch_rxd cfg s hi (lo :: rest) h]
    simp only []
    rw [getch_rxd cfg _ lo rest rfl]
    simp [rxd_rxd]
  · simp only [bind_run]
    rw [getch_rxd cfg s hi (lo :: rest) h]
    simp only []
    rw [getch_rxd cfg _ lo rest rfl]
    simp [rxd_rxd]

theorem writebuffer_ee (cfg : Config) (fuel memtype mybuff address len : Nat) (s : State)
    (hm : toInt8 memtype = 69) (hlt : len < cfg.lenMod) (hf : len < fuel) :
    writebuffer cfg fuel memtype mybuff address len s =
      .ok () (s.eeWritten mybuff address len) := by
  unfold writebuffer
  rw [if_pos hm, writebuffer_eeLoop_ok cfg len fuel mybuff address s hlt hf]
  rfl

theorem writebuffer_flash (cfg : Config) (fuel memtype mybuff address len k : Nat) (s : State)
    (hm : toInt8 memtype ≠ 69) (hlt : len < cfg.lenMod) (hk : 0 < k)
    (hn : 2 * k = dwIters cfg.lenMod len) (hf : k ≤ fuel) :
    writebuffer cfg fuel memtype mybuff address len s =
      .ok () (s.flashWritten cfg mybuff address k) := by
  unfold writebuffer
  rw [if_neg hm]
  simp only [bind_run, boot_page_erase_short, boot_spm_busy_wait, emit]
  rw [fillLoop_ok cfg k fuel mybuff address len _ hk hlt hn hf]
  cases hr : cfg.RWWSRE <;>
    simp [boot_page_write_short, boot_rww_enable, emit, State.flashWritten, hr] <;>
    (funext x; split_ifs <;> rfl)

theorem writebuffer_flash_odd (cfg : Config) (fuel memtype mybuff address len : Nat) (s : State)
    (hm : toInt8 memtype ≠ 69) (hodd : len % 2 = 1) :
    ∃ s' tail, writebuffer cfg fuel memtype mybuff address len s = .stop .fuel s' ∧
      s'.out = s.out ∧ s'.input = s.input ∧ s'.eeprom = s.eeprom ∧
      s'.log = s.log ++ [Event.pageErase address, Event.spmBusyWait] ++ tail ∧
      ∀ e ∈ tail, ∃ a w, e = Event.pageFill a w := by
  unfold writebuffer
  rw [if_neg hm]
  simp only [bind_run, boot_page_erase_short, boot_spm_busy_wait, emit]
  obtain ⟨s', tail, hs', ho, hi, _, hee, hlog, htail⟩ :=
    fillLoop_odd cfg fuel mybuff address len
    { s with
      flash := fun x =>
        if x / cfg.SPM_PAGESIZE = address / cfg.SPM_PAGESIZE then 0xFF else s.flash x,
      log := s.log ++ [Event.pageErase address] ++ [Event.spmBusyWait] } hodd
  rw [hs']
  exact ⟨s', tail, rfl, ho, hi, hee, by simp [hlog], htail⟩

theorem read_mem_ee (cfg : Config) (fuel memtype address length n : Nat) (s : State)
    (hc : (cfg.SUPPORT_EEPROM || cfg.BIGBOOT) = true) (hm : memtype % 256 = 69)
    (hlt : length < cfg.lenMod) (hn : n = dwIters cfg.lenMod length) (hpos : 0 < n)
    (hf : n ≤ fuel) :
    read_mem cfg fuel memtype address length s =
      .ok () (s.sent (eeBytes s.eeprom address n)) := by
  unfold read_mem
  simp only [hc, hm, Bool.true_and, decide_True, if_true]
  rw [read_eeLoop_ok cfg n fuel address length s hpos hlt hn hf]
  rfl

theorem read_mem_flash (cfg : Config) (fuel memtype address length n : Nat) (s : State)
    (hc : ¬ ((cfg.SUPPORT_EEPROM || cfg.BIGBOOT) = true ∧ memtype % 256 = 69))
    (hlt : length < cfg.lenMod) (hn : n = dwIters cfg.lenMod length) (hpos : 0 < n)
    (hf : n ≤ fuel) :
    read_mem cfg fuel memtype address length s =
      .ok () (s.sent (flashBytes cfg s.flash address n)) := by
  unfold read_mem
  have : ((cfg.SUPPORT_EEPROM || cfg.BIGBOOT) && decide (memtype % 256 = 69)) = false := by
    by_cases h1 : (cfg.SUPPORT_EEPROM || cfg.BIGBOOT) = true
    · have h2 : ¬ memtype % 256 = 69 := fun h => hc ⟨h1, h⟩
      simp [h2]
    · simp only [Bool.not_eq_true] at h1
      simp [h1]
  rw [this]
  simp only [Bool.false_eq_true, if_false]
  rw [read_flashLoop_ok cfg n fuel address length s hpos hlt hn hf]
  rfl

/-! ## Running one pass of the command loop -/

@[simp] theorem withAddress_out (s : State) (a : Nat) : (s.withAddress a).out = s.out := rfl
@[simp] theorem withAddress_input (s : State) (a : Nat) : (s.withAddress a).input = s.input := rfl
@[simp] theorem withAddress_address (s : State) (a : Nat) : (s.withAddress a).address = a := rfl
@[simp] theorem withAddress_flash (s : State) (a : Nat) : (s.withAddress a).flash = s.flash := rfl
@[simp] theorem withAddress_eeprom (s : State) (a : Nat) :
    (s.withAddress a).eeprom = s.eeprom := rfl
@[simp] theorem withAddress_wdtcsr (s : State) (a : Nat) :
    (s.withAddress a).wdtcsr = s.wdtcsr := rfl
@[simp] theorem stored_out (s : State) (p : Nat) (vs : List Nat) :
    (s.stored p vs).out = s.out := rfl
@[simp] theorem stored_input (s : State) (p : Nat) (vs : List Nat) :
    (s.stored p vs).input = s.input := rfl
@[simp] theorem stored_address (s : State) (p : Nat) (vs : List Nat) :
    (s.stored p vs).address = s.address := rfl
@[simp] theorem stored_flash (s : State) (p : Nat) (vs : List Nat) :
    (s.stored p vs).flash = s.flash := rfl
@[simp] theorem stored_eeprom (s : State) (p : Nat) (vs : List Nat) :
    (s.stored p vs).eeprom = s.eeprom := rfl
@[simp] theorem stored_wdtcsr (s : State) (p : Nat) (vs : List Nat) :
    (s.stored p vs).wdtcsr = s.wdtcsr := rfl
@[simp] theorem stored_latch (s : State) (p : Nat) (vs : List Nat) :
    (s.stored p vs).latch = s.latch := rfl
@[simp] theorem stored_ram (s : State) (p : Nat) (vs : List Nat) :
    (s.stored p vs).ram = ramStore s.ram p vs := rfl

theorem op_ne (cfg : Config) (hwf : cfg.WF) (i j : Nat) (hi : i < 9) (hj : j < 9) (hij : i ≠ j) :
    cfg.opcodes.get ⟨i, hi⟩ ≠ cfg.opcodes.get ⟨j, hj⟩ := by
  intro h
  have := (List.Nodup.get_inj_iff hwf.ops_nodup).mp h
  exact hij (Fin.mk.inj this)

theorem step_getParameter (cfg : Config) (fuel : Nat) (s : State) (op which t : Rx)
    (rest : List Rx) (h : s.input = op :: which :: t :: rest)
    (hop : op.data % 256 = cfg.STK_GET_PARAMETER) :
    step cfg fuel s =
      if t.data % 256 = cfg.CRC_EOP
      then .ok () ((s.rxd cfg [op, which, t] rest).sent
        [cfg.STK_INSYNC % 256, paramValue cfg (which.data % 256) % 256, cfg.STK_OK % 256])
      else .stop .desync ((s.rxd cfg [op, which, t] rest).hung cfg) := by
  unfold step
  simp only [bind_run]
  rw [getch_rxd cfg s op _ h]
  simp only [hop, if_true, bind_run]
  rw [getch_rxd cfg _ which (t :: rest) rfl]
  simp only []
  rw [verifySpace_cons cfg _ t rest rfl]
  unfold paramValue
  split_ifs <;> simp [putch_sent, rxd_rxd, sent_sent]

theorem step_setDevice (cfg : Config) (hwf : cfg.WF) (fuel : Nat) (s : State) (op t : Rx)
    (ps rest : List Rx) (h : s.input = op :: (ps ++ t :: rest)) (hps : ps.length = 20)
    (hop : op.data % 256 = cfg.STK_SET_DEVICE) (hf : 65536 ≤ fuel) :
    step cfg fuel s =
      if t.data % 256 = cfg.CRC_EOP
      then .ok () ((s.rxd cfg (op :: ps ++ [t]) rest).sent [cfg.STK_INSYNC % 256, cfg.STK_OK % 256])
      else .stop .desync ((s.rxd cfg (op :: ps ++ [t]) rest).hung cfg) := by
  have n0 : cfg.STK_SET_DEVICE ≠ cfg.STK_GET_PARAMETER :=
    op_ne cfg hwf 1 0 (by decide) (by decide) (by decide)
  unfold step
  simp only [bind_run]
  rw [getch_rxd cfg s op _ h]
  simp only [hop, n0, if_true, if_false, bind_run]
  rw [getNch_run cfg fuel 20 _ ps t rest (by intro h0; rw [h0] at hps; simp at hps)
    (by rw [hps]; rfl) (by omega) rfl]
  split_ifs <;> simp [putch_sent, rxd_rxd, sent_sent]

theorem step_setDeviceExt (cfg : Config) (hwf : cfg.WF) (fuel : Nat) (s : State) (op t : Rx)
    (ps rest : List Rx) (h : s.input = op :: (ps ++ t :: rest)) (hps : ps.length = 5)
    (hop : op.data % 256 = cfg.STK_SET_DEVICE_EXT) (hf : 65536 ≤ fuel) :
    step cfg fuel s =
      if t.data % 256 = cfg.CRC_EOP
      then .ok () ((s.rxd cfg (op :: ps ++ [t]) rest).sent [cfg.STK_INSYNC % 256, cfg.STK_OK % 256])
      else .stop .desync ((s.rxd cfg (op :: ps ++ [t]) rest).hung cfg) := by
  have n0 : cfg.STK_SET_DEVICE_EXT ≠ cfg.STK_GET_PARAMETER :=
    op_ne cfg hwf 2 0 (by decide) (by decide) (by decide)
  have n1 : cfg.STK_SET_DEVICE_EXT ≠ cfg.STK_SET_DEVICE :=
    op_ne cfg hwf 2 1 (by decide) (by decide) (by decide)
  unfold step
  simp only [bind_run]
  rw [getch_rxd cfg s op _ h]
  simp only [hop, n0, n1, if_true, if_false, bind_run]
  rw [getNch_run cfg fuel 5 _ ps t rest (by intro h0; rw [h0] at hps; simp at hps)
    (by rw [hps]; rfl) (by omega) rfl]
  split_ifs <;> simp [putch_sent, rxd_rxd, sent_sent]

theorem step_loadAddress (cfg : Config) (hwf : cfg.WF) (fuel : Nat) (s : State)
    (op lo hi t : Rx) (rest : List Rx) (h : s.input = op :: lo :: hi :: t :: rest)
    (hop : op.data % 256 = cfg.STK_LOAD_ADDRESS) :
    step cfg fuel s =
      if t.data % 256 = cfg.CRC_EOP
      then .ok () (((s.rxd cfg [op, lo, hi, t] rest).withAddress (loadAddr lo.data hi.data)).sent
        [cfg.STK_INSYNC % 256, cfg.STK_OK % 256])
      else .stop .desync
        (((s.rxd cfg [op, lo, hi, t] rest).withAddress (loadAddr lo.data hi.data)).hung cfg) := by
  have n0 : cfg.STK_LOAD_ADDRESS ≠ cfg.STK_GET_PARAMETER :=
    op_ne cfg hwf 3 0 (by decide) (by decide) (by decide)
  have n1 : cfg.STK_LOAD_ADDRESS ≠ cfg.STK_SET_DEVICE :=
    op_ne cfg hwf 3 1 (by decide) (by decide) (by decide)
  have n2 : cfg.STK_LOAD_ADDRESS ≠ cfg.STK_SET_DEVICE_EXT :=
    op_ne cfg hwf 3 2 (by decide) (by decide) (by decide)
  unfold step
  simp only [bind_run]
  rw [getch_rxd cfg s op _ h]
  simp only [hop, n0, n1, n2, if_true, if_false, bind_run]
  rw [getch_rxd cfg _ lo (hi :: t :: rest) rfl]
  simp only [setAddress]
  rw [getch_cons cfg _ hi (t :: rest) rfl]
  simp only [getState]
  rw [verifySpace_cons cfg _ t rest rfl]
  split_ifs <;>
    simp [putch_sent, State.rxd, State.sent, State.withAddress, State.hung, loadAddr, rxEvents]


theorem step_universal (cfg : Config) (hwf : cfg.WF) (fuel : Nat) (s : State) (op t : Rx)
    (ps rest : List Rx) (h : s.input = op :: (ps ++ t :: rest)) (hps : ps.length = 4)
    (hop : op.data % 256 = cfg.STK_UNIVERSAL) (hf : 65536 ≤ fuel) :
    step cfg fuel s =
      if t.data % 256 = cfg.CRC_EOP
      then .ok () ((s.rxd cfg (op :: ps ++ [t]) rest).sent
        [cfg.STK_INSYNC % 256, 0, cfg.STK_OK % 256])
      else .stop .desync ((s.rxd cfg (op :: ps ++ [t]) rest).hung cfg) := by
  have n0 : cfg.STK_UNIVERSAL ≠ cfg.STK_GET_PARAMETER :=
    op_ne cfg hwf 4 0 (by decide) (by decide) (by decide)
  have n1 : cfg.STK_UNIVERSAL ≠ cfg.STK_SET_DEVICE :=
    op_ne cfg hwf 4 1 (by decide) (by decide) (by decide)
  have n2 : cfg.STK_UNIVERSAL ≠ cfg.STK_SET_DEVICE_EXT :=
    op_ne cfg hwf 4 2 (by decide) (by decide) (by decide)
  have n3 : cfg.STK_UNIVERSAL ≠ cfg.STK_LOAD_ADDRESS :=
    op_ne cfg hwf 4 3 (by decide) (by decide) (by decide)
  unfold step
  simp only [bind_run]
  rw [getch_rxd cfg s op _ h]
  simp only [hop, n0, n1, n2, n3, if_true, if_false, bind_run]
  rw [getNch_run cfg fuel 4 _ ps t rest (by intro h0; rw [h0] at hps; simp at hps)
    (by rw [hps]; rfl) (by omega) rfl]
  split_ifs
  · simp [putch_sent, rxd_rxd, sent_sent]
  · simp [rxd_rxd]

theorem lenMod_le (cfg : Config) : cfg.lenMod ≤ 65536 := by
  rcases lenMod_cases cfg with hm | hm <;> omega

theorem dwIters_pos (cfg : Config) (n : Nat) : 0 < dwIters cfg.lenMod n := by
  unfold dwIters
  split_ifs with h
  · exact lenMod_pos cfg
  · exact Nat.pos_of_ne_zero h

theorem dwIters_le (cfg : Config) (n : Nat) (h : n < cfg.lenMod) :
    dwIters cfg.lenMod n ≤ 65536 := by
  unfold dwIters
  have := lenMod_le cfg
  split_ifs <;> omega

theorem stored_rxd (cfg : Config) (s : State) (p : Nat) (vs : List Nat) (bs rest : List Rx) :
    (s.stored p vs).rxd cfg bs rest = (s.rxd cfg bs rest).stored p vs := rfl

theorem progRecv_run (cfg : Config) (bs : List Rx) (fuel p length : Nat) (s : State)
    (rest : List Rx) (hbs : bs ≠ []) (hlt : length < cfg.lenMod)
    (hn : bs.length = dwIters cfg.lenMod length) (hf : bs.length ≤ fuel)
    (h : s.input = bs ++ rest) :
    progRecv cfg fuel p length s =
      .ok () ((s.rxd cfg bs rest).stored p (bs.map fun b => b.data % 256)) := by
  rw [progRecv_ok cfg bs fuel p length s rest hbs hlt hn hf h]
  rfl

theorem step_progPage (cfg : Config) (hwf : cfg.WF) (fuel : Nat) (s : State)
    (op hi lo tag t : Rx) (data rest : List Rx)
    (h : s.input = op :: hi :: lo :: tag :: (data ++ t :: rest))
    (hd : data.length = dwIters cfg.lenMod (lenOf cfg hi.data lo.data))
    (hop : op.data % 256 = cfg.STK_PROG_PAGE) (hf : data.length ≤ fuel) :
    step cfg fuel s =
      if t.data % 256 = cfg.CRC_EOP
      then
        match writebuffer cfg fuel (tag.data % 256) (cfg.RAMSTART % 65536) s.address
          (lenOf cfg hi.data lo.data)
          ((((s.rxd cfg (op :: hi :: lo :: tag :: data ++ [t]) rest).stored
            (cfg.RAMSTART % 65536) (data.map fun b => b.data % 256))).sent
              [cfg.STK_INSYNC % 256]) with
        | .ok _ s2 => .ok () (s2.sent [cfg.STK_OK % 256])
        | .stop r s2 => .stop r s2
      else .stop .desync
        (((s.rxd cfg (op :: hi :: lo :: tag :: data ++ [t]) rest).stored
            (cfg.RAMSTART % 65536) (data.map fun b => b.data % 256)).hung cfg) := by
  have n0 : cfg.STK_PROG_PAGE ≠ cfg.STK_GET_PARAMETER :=
    op_ne cfg hwf 5 0 (by decide) (by decide) (by decide)
  have n1 : cfg.STK_PROG_PAGE ≠ cfg.STK_SET_DEVICE :=
    op_ne cfg hwf 5 1 (by decide) (by decide) (by decide)
  have n2 : cfg.STK_PROG_PAGE ≠ cfg.STK_SET_DEVICE_EXT :=
    op_ne cfg hwf 5 2 (by decide) (by decide) (by decide)
  have n3 : cfg.STK_PROG_PAGE ≠ cfg.STK_LOAD_ADDRESS :=
    op_ne cfg hwf 5 3 (by decide) (by decide) (by decide)
  have n4 : cfg.STK_PROG_PAGE ≠ cfg.STK_UNIVERSAL :=
    op_ne cfg hwf 5 4 (by decide) (by decide) (by decide)
  have hpos := dwIters_pos cfg (lenOf cfg hi.data lo.data)
  have hne : data ≠ [] := by intro h0; rw [h0] at hd; simp at hd; omega
  unfold step
  simp only [bind_run]
  rw [getch_rxd cfg s op _ h]
  simp only [hop, n0, n1, n2, n3, n4, if_true, if_false, bind_run]
  rw [GETLENGTH_run cfg _ hi lo (tag :: (data ++ t :: rest)) rfl]
  simp only []
  rw [getch_rxd cfg _ tag (data ++ t :: rest) rfl]
  simp only []
  rw [progRecv_run cfg data fuel _ _ _ (t :: rest) hne (lenOf_lt cfg _ _) hd (by omega) rfl]
  simp only []
  rw [verifySpace_cons cfg _ t rest rfl]
  simp only [stored_rxd, rxd_rxd, List.singleton_append, List.cons_append, List.nil_append]
  split_ifs with ht
  · simp only [getState, sent_address, stored_address, rxd_address]
    cases writebuffer cfg fuel (tag.data % 256) (cfg.RAMSTART % 65536) s.address
      (lenOf cfg hi.data lo.data) _ <;> simp [putch_sent]
  · rfl


theorem step_readPage (cfg : Config) (hwf : cfg.WF) (fuel : Nat) (s : State)
    (op hi lo tag t : Rx) (rest : List Rx)
    (h : s.input = op :: hi :: lo :: tag :: t :: rest)
    (hop : op.data % 256 = cfg.STK_READ_PAGE) :
    step cfg fuel s =
      if t.data % 256 = cfg.CRC_EOP
      then
        match read_mem cfg fuel (tag.data % 256) s.address (lenOf cfg hi.data lo.data)
          ((s.rxd cfg [op, hi, lo, tag, t] rest).sent [cfg.STK_INSYNC % 256]) with
        | .ok _ s2 => .ok () (s2.sent [cfg.STK_OK % 256])
        | .stop r s2 => .stop r s2
      else .stop .desync ((s.rxd cfg [op, hi, lo, tag, t] rest).hung cfg) := by
  have n0 : cfg.STK_READ_PAGE ≠ cfg.STK_GET_PARAMETER :=
    op_ne cfg hwf 6 0 (by decide) (by decide) (by decide)
  have n1 : cfg.STK_READ_PAGE ≠ cfg.STK_SET_DEVICE :=
    op_ne cfg hwf 6 1 (by decide) (by decide) (by decide)
  have n2 : cfg.STK_READ_PAGE ≠ cfg.STK_SET_DEVICE_EXT :=
    op_ne cfg hwf 6 2 (by decide) (by decide) (by decide)
  have n3 : cfg.STK_READ_PAGE ≠ cfg.STK_LOAD_ADDRESS :=
    op_ne cfg hwf 6 3 (by decide) (by decide) (by decide)
  have n4 : cfg.STK_READ_PAGE ≠ cfg.STK_UNIVERSAL :=
    op_ne cfg hwf 6 4 (by decide) (by decide) (by decide)
  have n5 : cfg.STK_READ_PAGE ≠ cfg.STK_PROG_PAGE :=
    op_ne cfg hwf 6 5 (by decide) (by decide) (by decide)
  unfold step
  simp only [bind_run]
  rw [getch_rxd cfg s op _ h]
  simp only [hop, n0, n1, n2, n3, n4, n5, if_true, if_false, bind_run]
  rw [GETLENGTH_run cfg _ hi lo (tag :: t :: rest) rfl]
  simp only []
  rw [getch_rxd cfg _ tag (t :: rest) rfl]
  simp only []
  rw [verifySpace_cons cfg _ t rest rfl]
  simp only [rxd_rxd, List.singleton_append, List.cons_append, List.nil_append]
  split_ifs with ht
  · simp only [getState, sent_address, rxd_address]
    cases read_mem cfg fuel (tag.data % 256) s.address (lenOf cfg hi.data lo.data) _ <;>
      simp [putch_sent]
  · rfl

theorem step_readSign (cfg : Config) (hwf : cfg.WF) (fuel : Nat) (s : State)
    (op t : Rx) (rest : List Rx) (h : s.input = op :: t :: rest)
    (hop : op.data % 256 = cfg.STK_READ_SIGN) :
    step cfg fuel s =
      if t.data % 256 = cfg.CRC_EOP
      then .ok () ((s.rxd cfg [op, t] rest).sent
        [cfg.STK_INSYNC % 256, cfg.SIGNATURE_0 % 256, cfg.SIGNATURE_1 % 256,
          cfg.SIGNATURE_2 % 256, cfg.STK_OK % 256])
      else .stop .desync ((s.rxd cfg [op, t] rest).hung cfg) := by
  have n0 : cfg.STK_READ_SIGN ≠ cfg.STK_GET_PARAMETER :=
    op_ne cfg hwf 7 0 (by decide) (by decide) (by decide)
  have n1 : cfg.STK_READ_SIGN ≠ cfg.STK_SET_DEVICE :=
    op_ne cfg hwf 7 1 (by decide) (by decide) (by decide)
  have n2 : cfg.STK_READ_SIGN ≠ cfg.STK_SET_DEVICE_EXT :=
    op_ne cfg hwf 7 2 (by decide) (by decide) (by decide)
  have n3 : cfg.STK_READ_SIGN ≠ cfg.STK_LOAD_ADDRESS :=
    op_ne cfg hwf 7 3 (by decide) (by decide) (by decide)
  have n4 : cfg.STK_READ_SIGN ≠ cfg.STK_UNIVERSAL :=
    op_ne cfg hwf 7 4 (by decide) (by decide) (by decide)
  have n5 : cfg.STK_READ_SIGN ≠ cfg.STK_PROG_PAGE :=
    op_ne cfg hwf 7 5 (by decide) (by decide) (by decide)
  have n6 : cfg.STK_READ_SIGN ≠ cfg.STK_READ_PAGE :=
    op_ne cfg hwf 7 6 (by decide) (by decide) (by decide)
  unfold step
  simp only [bind_run]
  rw [getch_rxd cfg s op _ h]
  simp only [hop, n0, n1, n2, n3, n4, n5, n6, if_true, if_false, bind_run]
  rw [verifySpace_cons cfg _ t rest rfl]
  simp only [rxd_rxd, List.singleton_append]
  split_ifs with ht
  · simp [putch_sent, sent_sent]
  · rfl

theorem step_leave (cfg : Config) (hwf : cfg.WF) (fuel : Nat) (s : State)
    (op t : Rx) (rest : List Rx) (h : s.input = op :: t :: rest)
    (hop : op.data % 256 = cfg.STK_LEAVE_PROGMODE) :
    step cfg fuel s =
      if t.data % 256 = cfg.CRC_EOP
      then .ok () ((((s.rxd cfg [op] (t :: rest)).hung cfg).rxd cfg [t] rest).sent
        [cfg.STK_INSYNC % 256, cfg.STK_OK % 256])
      else .stop .desync ((((s.rxd cfg [op] (t :: rest)).hung cfg).rxd cfg [t] rest).hung cfg) := by
  have n0 : cfg.STK_LEAVE_PROGMODE ≠ cfg.STK_GET_PARAMETER :=
    op_ne cfg hwf 8 0 (by decide) (by decide) (by decide)
  have n1 : cfg.STK_LEAVE_PROGMODE ≠ cfg.STK_SET_DEVICE :=
    op_ne cfg hwf 8 1 (by decide) (by decide) (by decide)
  have n2 : cfg.STK_LEAVE_PROGMODE ≠ cfg.STK_SET_DEVICE_EXT :=
    op_ne cfg hwf 8 2 (by decide) (by decide) (by decide)
  have n3 : cfg.STK_LEAVE_PROGMODE ≠ cfg.STK_LOAD_ADDRESS :=
    op_ne cfg hwf 8 3 (by decide) (by decide) (by decide)
  have n4 : cfg.STK_LEAVE_PROGMODE ≠ cfg.STK_UNIVERSAL :=
    op_ne cfg hwf 8 4 (by decide) (by decide) (by decide)
  have n5 : cfg.STK_LEAVE_PROGMODE ≠ cfg.STK_PROG_PAGE :=
    op_ne cfg hwf 8 5 (by decide) (by decide) (by decide)
  have n6 : cfg.STK_LEAVE_PROGMODE ≠ cfg.STK_READ_PAGE :=
    op_ne cfg hwf 8 6 (by decide) (by decide) (by decide)
  have n7 : cfg.STK_LEAVE_PROGMODE ≠ cfg.STK_READ_SIGN :=
    op_ne cfg hwf 8 7 (by decide) (by decide) (by decide)
  unfold step
  simp only [bind_run]
  rw [getch_rxd cfg s op _ h]
  simp only [hop, n0, n1, n2, n3, n4, n5, n6, n7, if_true, if_false, bind_run]
  have e : ∀ s1 : State, watchdogConfig cfg.WATCHDOG_16MS s1 = .ok () (s1.hung cfg) :=
    fun _ => rfl
  rw [e]
  simp only []
  rw [verifySpace_cons cfg _ t rest rfl]
  split_ifs with ht
  · simp [putch_sent, sent_sent]
  · rfl

theorem step_other (cfg : Config) (fuel : Nat) (s : State)
    (op t : Rx) (rest : List Rx) (h : s.input = op :: t :: rest)
    (hop : op.data % 256 ∉ cfg.opcodes) :
    step cfg fuel s =
      if t.data % 256 = cfg.CRC_EOP
      then .ok () ((s.rxd cfg [op, t] rest).sent [cfg.STK_INSYNC % 256, cfg.STK_OK % 256])
      else .stop .desync ((s.rxd cfg [op, t] rest).hung cfg) := by
  simp only [Config.opcodes, List.mem_cons, List.mem_singleton, not_or, List.not_mem_nil,
    not_false_eq_true, and_true] at hop
  obtain ⟨n0, n1, n2, n3, n4, n5, n6, n7, n8⟩ := hop
  unfold step
  simp only [bind_run]
  rw [getch_rxd cfg s op _ h]
  simp only [n0, n1, n2, n3, n4, n5, n6, n7, n8, if_false, bind_run]
  rw [verifySpace_cons cfg _ t rest rfl]
  simp only [rxd_rxd, List.singleton_append]
  split_ifs with ht
  · simp [putch_sent, sent_sent]
  · rfl

/-! ## Frames -/

theorem toInt8_eq (v : Nat) : toInt8 v = 69 ↔ v % 256 = 69 := by
  unfold toInt8
  split_ifs <;> omega

theorem frame_shape (cfg : Config) (frame : List Rx) (hne : frame ≠ [])
    (hlen : frame.length = 1 + paramCount cfg frame) : FrameShape cfg frame := by
  cases frame with
  | nil => exact absurd rfl hne
  | cons op ps =>
    unfold paramCount at hlen
    simp only [List.length_cons] at hlen
    split_ifs at hlen with h0 h1 h2 h3 h4 h5 h6
    · match ps, hlen with
      | [which], _ => exact .getParameter op which h0
    · exact .setDevice op ps h1 (by omega)
    · exact .setDeviceExt op ps h2 (by omega)
    · match ps, hlen with
      | [lo, hi], _ => exact .loadAddress op lo hi h3
    · exact .universal op ps h4 (by omega)
    · match ps, hlen with
      | [], hl => simp at hl
      | [_], hl => simp at hl
      | [_, _], hl => simp at hl; omega
      | hi :: lo :: tag :: data, hl =>
        simp only [List.length_cons] at hl
        exact .progPage op hi lo tag data h5 (by omega)
    · match ps, hlen with
      | [hi, lo, tag], _ => exact .readPage op hi lo tag h6
    · match ps, hlen with
      | [], _ =>
        by_cases h7 : op.data % 256 = cfg.STK_READ_SIGN
        · exact .readSign op h7
        · by_cases h8 : op.data % 256 = cfg.STK_LEAVE_PROGMODE
          · exact .leave op h8
          · refine .other op ?_
            simp [Config.opcodes, h0, h1, h2, h3, h4, h5, h6, h7, h8]

@[simp] theorem eeWritten_out (s : State) (m a n : Nat) : (s.eeWritten m a n).out = s.out := rfl
@[simp] theorem eeWritten_input (s : State) (m a n : Nat) :
    (s.eeWritten m a n).input = s.input := rfl
@[simp] theorem eeWritten_address (s : State) (m a n : Nat) :
    (s.eeWritten m a n).address = s.address := rfl
@[simp] theorem eeWritten_flash (s : State) (m a n : Nat) :
    (s.eeWritten m a n).flash = s.flash := rfl
@[simp] theorem eeWritten_eeprom (s : State) (m a n : Nat) :
    (s.eeWritten m a n).eeprom = eeStore s.eeprom s.ram m a n := rfl
@[simp] theorem flashWritten_out (cfg : Config) (s : State) (m a n : Nat) :
    (s.flashWritten cfg m a n).out = s.out := rfl
@[simp] theorem flashWritten_input (cfg : Config) (s : State) (m a n : Nat) :
    (s.flashWritten cfg m a n).input = s.input := rfl
@[simp] theorem flashWritten_address (cfg : Config) (s : State) (m a n : Nat) :
    (s.flashWritten cfg m a n).address = s.address := rfl
@[simp] theorem flashWritten_eeprom (cfg : Config) (s : State) (m a n : Nat) :
    (s.flashWritten cfg m a n).eeprom = s.eeprom := rfl

theorem half_iters (cfg : Config) (len : Nat) (hlt : len < cfg.lenMod) (hev : len % 2 = 0) :
    0 < dwIters cfg.lenMod len / 2 ∧ 2 * (dwIters cfg.lenMod len / 2) = dwIters cfg.lenMod len ∧
      dwIters cfg.lenMod len / 2 ≤ 65536 := by
  unfold dwIters
  rcases lenMod_cases cfg with hm | hm <;> rw [hm] at hlt ⊢ <;> split_ifs <;> omega

theorem atmega328p_wf : atmega328p.WF := by
  constructor <;> decide

theorem progRecv_short (cfg : Config) :
    ∀ (fuel : Nat) (bs : List Rx) (p length : Nat) (s : State) (rest : List Rx),
      length < cfg.lenMod → bs.length = dwIters cfg.lenMod length → fuel < bs.length →
      s.input = bs ++ rest →
      ∃ s', progRecv cfg fuel p length s = .stop .fuel s' ∧ s'.out = s.out := by
  intro fuel
  induction fuel with
  | zero => intro _ _ _ s _ _ _ _ _; exact ⟨s, rfl, rfl⟩
  | succ fuel ih =>
    intro bs p length s rest hlt hn hf hin
    cases bs with
    | nil => simp at hf
    | cons b bs =>
      simp only [List.length_cons] at hn hf
      obtain ⟨h0, h2, h1⟩ := dw_next cfg bs.length length hlt (by omega) hn
      unfold progRecv
      simp only [bind_run]
      rw [getch_cons cfg s b (bs ++ rest) hin]
      simp only [ramWrite, ne_eq, h0, not_false_eq_true, if_true]
      obtain ⟨s', hs', ho⟩ := ih bs ((p + 1) % 65536) _
        { s with input := bs ++ rest, log := s.log ++ rxLog cfg b,
                 ram := fun x => if x = p then b.data % 256 % 256 else s.ram x }
        rest h2 h1 (by omega) rfl
      exact ⟨s', hs', ho⟩

theorem step_progPage_odd (cfg : Config) (hwf : cfg.WF) (fuel : Nat) (s : State)
    (op hi lo tag t : Rx) (data rest : List Rx)
    (h : s.input = op :: hi :: lo :: tag :: (data ++ t :: rest))
    (hd : data.length = dwIters cfg.lenMod (lenOf cfg hi.data lo.data))
    (hop : op.data % 256 = cfg.STK_PROG_PAGE) (ht : t.data % 256 = cfg.CRC_EOP)
    (hE : tag.data % 256 ≠ 69) (hodd : lenOf cfg hi.data lo.data % 2 = 1) :
    ∃ s', step cfg fuel s = .stop .fuel s' ∧
      (s'.out = s.out ∨ s'.out = s.out ++ [cfg.STK_INSYNC % 256]) := by
  by_cases hf : data.length ≤ fuel
  · have hstep := step_progPage cfg hwf fuel s op hi lo tag t data rest h hd hop hf
    rw [if_pos ht] at hstep
    obtain ⟨s2, -, hs2, ho, -⟩ := writebuffer_flash_odd cfg fuel (tag.data % 256)
      (cfg.RAMSTART % 65536) s.address (lenOf cfg hi.data lo.data)
      ((((s.rxd cfg (op :: hi :: lo :: tag :: data ++ [t]) rest).stored
        (cfg.RAMSTART % 65536) (data.map fun b => b.data % 256))).sent [cfg.STK_INSYNC % 256])
      (fun h => hE (by simpa using (toInt8_eq _).mp h)) hodd
    rw [hs2] at hstep
    exact ⟨s2, hstep, Or.inr (by simp [ho])⟩
  · have n0 : cfg.STK_PROG_PAGE ≠ cfg.STK_GET_PARAMETER :=
      op_ne cfg hwf 5 0 (by decide) (by decide) (by decide)
    have n1 : cfg.STK_PROG_PAGE ≠ cfg.STK_SET_DEVICE :=
      op_ne cfg hwf 5 1 (by decide) (by decide) (by decide)
    have n2 : cfg.STK_PROG_PAGE ≠ cfg.STK_SET_DEVICE_EXT :=
      op_ne cfg hwf 5 2 (by decide) (by decide) (by decide)
    have n3 : cfg.STK_PROG_PAGE ≠ cfg.STK_LOAD_ADDRESS :=
      op_ne cfg hwf 5 3 (by decide) (by decide) (by decide)
    have n4 : cfg.STK_PROG_PAGE ≠ cfg.STK_UNIVERSAL :=
      op_ne cfg hwf 5 4 (by decide) (by decide) (by decide)
    obtain ⟨s', hs', ho⟩ := progRecv_short cfg fuel data (cfg.RAMSTART % 65536)
      (lenOf cfg hi.data lo.data)
      (((s.rxd cfg [op] (hi :: lo :: tag :: (data ++ t :: rest))).rxd cfg [hi, lo]
        (tag :: (data ++ t :: rest))).rxd cfg [tag] (data ++ t :: rest))
      (t :: rest) (lenOf_lt cfg _ _) hd (by omega) rfl
    refine ⟨s', ?_, Or.inl (by simpa using ho)⟩
    unfold step
    simp only [bind_run]
    rw [getch_rxd cfg s op _ h]
    simp only [hop, n0, n1, n2, n3, n4, if_true, if_false, bind_run]
    rw [GETLENGTH_run cfg _ hi lo (tag :: (data ++ t :: rest)) rfl]
    simp only []
    rw [getch_rxd cfg _ tag (data ++ t :: rest) rfl]
    simp only []
    rw [hs']


/-! ## The claims -/

/-- C1 (amended): for every command frame (opcode and the parameter bytes its
branch reads) whose terminator byte equals CRC_EOP, except a Program Page to
code memory whose length is odd, one pass of the dispatch loop returns and the
bytes it sent are STK_INSYNC, a payload, STK_OK; the frame and its terminator
are exactly what it consumed. -/
theorem reply_is_framed (cfg : Config) (hwf : cfg.WF) (fuel : Nat) (hf : 65536 ≤ fuel)
    (s : State) (frame : List Rx) (t : Rx) (rest : List Rx)
    (hin : s.input = frame ++ t :: rest) (hne : frame ≠ [])
    (hlen : frame.length = 1 + paramCount cfg frame)
    (ht : t.data % 256 = cfg.CRC_EOP) (hodd : oddFlashProgram cfg frame = false) :
    ∃ s' payload, step cfg fuel s = .ok () s' ∧
      s'.out = s.out ++ [cfg.STK_INSYNC] ++ payload ++ [cfg.STK_OK] ∧ s'.input = rest := by
  have hi := Nat.mod_eq_of_lt hwf.insync_lt
  have ho := Nat.mod_eq_of_lt hwf.ok_lt
  cases frame_shape cfg frame hne hlen with
  | getParameter op which hop =>
    have hstep := step_getParameter cfg fuel s op which t rest (by simpa using hin) hop
    rw [if_pos ht] at hstep
    exact ⟨_, [paramValue cfg (which.data % 256) % 256], hstep, by simp [hi, ho], by simp⟩
  | setDevice op ps hop hps =>
    have hstep := step_setDevice cfg hwf fuel s op t ps rest (by simpa using hin) hps hop hf
    rw [if_pos ht] at hstep
    exact ⟨_, [], hstep, by simp [hi, ho], by simp⟩
  | setDeviceExt op ps hop hps =>
    have hstep := step_setDeviceExt cfg hwf fuel s op t ps rest (by simpa using hin) hps hop hf
    rw [if_pos ht] at hstep
    exact ⟨_, [], hstep, by simp [hi, ho], by simp⟩
  | loadAddress op lo hi' hop =>
    have hstep := step_loadAddress cfg hwf fuel s op lo hi' t rest (by simpa using hin) hop
    rw [if_pos ht] at hstep
    exact ⟨_, [], hstep, by simp [hi, ho], by simp⟩
  | universal op ps hop hps =>
    have hstep := step_universal cfg hwf fuel s op t ps rest (by simpa using hin) hps hop hf
    rw [if_pos ht] at hstep
    exact ⟨_, [0], hstep, by simp [hi, ho], by simp⟩
  | progPage op hi' lo tag data hop hd =>
    have hlt := lenOf_lt cfg hi'.data lo.data
    have hle := dwIters_le cfg _ hlt
    have hM := lenMod_le cfg
    by_cases hE : tag.data % 256 = 69
    · have hstep := step_progPage cfg hwf fuel s op hi' lo tag t data rest
        (by simpa using hin) hd hop (by omega)
      rw [if_pos ht, writebuffer_ee cfg fuel _ _ _ _ _ ((toInt8_eq _).mpr (by simp [hE])) hlt
        (by omega)] at hstep
      exact ⟨_, [], hstep, by simp [hi, ho], by simp⟩
    · have hev : lenOf cfg hi'.data lo.data % 2 = 0 := by
        simp only [oddFlashProgram, hop, hE, ne_eq, not_false_eq_true, decide_True,
          Bool.true_and, decide_eq_false_iff_not] at hodd
        omega
      obtain ⟨hk0, hk1, hk2⟩ := half_iters cfg _ hlt hev
      have hstep := step_progPage cfg hwf fuel s op hi' lo tag t data rest
        (by simpa using hin) hd hop (by omega)
      rw [if_pos ht, writebuffer_flash cfg fuel _ _ _ _ _ _
        (fun h => hE (by simpa using (toInt8_eq _).mp h)) hlt hk0 hk1 (by omega)] at hstep
      exact ⟨_, [], hstep, by simp [hi, ho], by simp⟩
  | readPage op hi' lo tag hop =>
    have hlt := lenOf_lt cfg hi'.data lo.data
    have hle := dwIters_le cfg _ hlt
    have hpos := dwIters_pos cfg (lenOf cfg hi'.data lo.data)
    have hstep := step_readPage cfg hwf fuel s op hi' lo tag t rest (by simpa using hin) hop
    by_cases hE : (cfg.SUPPORT_EEPROM || cfg.BIGBOOT) = true ∧ tag.data % 256 % 256 = 69
    · rw [if_pos ht, read_mem_ee cfg fuel _ _ _ _ _ hE.1 hE.2 hlt rfl hpos (by omega)] at hstep
      exact ⟨_, eeBytes s.eeprom s.address (dwIters cfg.lenMod (lenOf cfg hi'.data lo.data)),
        hstep, by simp [hi, ho], by simp⟩
    · rw [if_pos ht, read_mem_flash cfg fuel _ _ _ _ _ hE hlt rfl hpos (by omega)] at hstep
      exact ⟨_, flashBytes cfg s.flash s.address
        (dwIters cfg.lenMod (lenOf cfg hi'.data lo.data)), hstep, by simp [hi, ho], by simp⟩
  | readSign op hop =>
    have hstep := step_readSign cfg hwf fuel s op t rest (by simpa using hin) hop
    rw [if_pos ht] at hstep
    exact ⟨_, [cfg.SIGNATURE_0 % 256, cfg.SIGNATURE_1 % 256, cfg.SIGNATURE_2 % 256], hstep,
      by simp [hi, ho], by simp⟩
  | leave op hop =>
    have hstep := step_leave cfg hwf fuel s op t rest (by simpa using hin) hop
    rw [if_pos ht] at hstep
    exact ⟨_, [], hstep, by simp [hi, ho], by simp⟩
  | other op hop =>
    have hstep := step_other cfg fuel s op t rest (by simpa using hin) hop
    rw [if_pos ht] at hstep
    exact ⟨_, [], hstep, by simp [hi, ho], by simp⟩

/-- Witness of C1: a Get Parameter frame on the ATmega328P configuration. -/
theorem reply_is_framed_witness :
    ∃ s' payload, step atmega328p 65536 (State.fresh (line [0x41, 0x81, 0x20])) = .ok () s' ∧
      s'.out = (State.fresh (line [0x41, 0x81, 0x20])).out ++ [atmega328p.STK_INSYNC] ++
        payload ++ [atmega328p.STK_OK] ∧ s'.input = [] :=
  reply_is_framed atmega328p atmega328p_wf 65536 (by decide)
    (State.fresh (line [0x41, 0x81, 0x20])) (line [0x41, 0x81]) ⟨0x20, false⟩ [] rfl
    (by decide) (by decide) (by decide) (by decide)

/-- C1 (counterexample): on the ATmega328P configuration the Program Page
frame with length 1, tag 'F', one data byte and the terminator CRC_EOP never
gets its STK_OK: with no amount of fuel does the pass of the loop return. -/
theorem reply_is_framed_fails_on_odd_length :
    ¬ ∃ fuel s', step atmega328p fuel
        (State.fresh (line [0x64, 0x00, 0x01, 0x46, 0xAA, 0x20])) = .ok () s' := by
  rintro ⟨fuel, s', h⟩
  obtain ⟨s2, hs2, -⟩ := step_progPage_odd atmega328p atmega328p_wf fuel
    (State.fresh (line [0x64, 0x00, 0x01, 0x46, 0xAA, 0x20]))
    ⟨0x64, false⟩ ⟨0x00, false⟩ ⟨0x01, false⟩ ⟨0x46, false⟩ ⟨0x20, false⟩ [⟨0xAA, false⟩] []
    rfl (by decide) (by decide) (by decide) (by decide) (by decide)
  rw [hs2] at h
  cases h

theorem or_shift_bytes (a b : Nat) (ha : a < 256) (hb : b < 256) :
    (a ||| (b <<< 8) % 65536) = a + 256 * b := by
  have h1 : b <<< 8 = 2 ^ 8 * b := by rw [Nat.shiftLeft_eq, Nat.mul_comm]
  have h2 : 2 ^ 8 * b % 65536 = 2 ^ 8 * b := Nat.mod_eq_of_lt (by omega)
  have h3 : 2 ^ 8 * b + a = 2 ^ 8 * b ||| a := Nat.mul_add_lt_is_or (by omega) b
  rw [h1, h2, Nat.or_comm, ← h3]
  omega

theorem loadAddr_eq (lo hi : Nat) :
    loadAddr lo hi = 2 * (lo % 256 + 256 * (hi % 256)) % 65536 := by
  have ha : lo % 256 < 256 := Nat.mod_lt _ (by norm_num)
  have hb : hi % 256 < 256 := Nat.mod_lt _ (by norm_num)
  have h0 : lo % 256 % 65536 &&& 0xff = lo % 256 := by
    have : lo % 256 % 65536 = lo % 256 := Nat.mod_eq_of_lt (by omega)
    rw [this]
    have := Nat.and_pow_two_sub_one_eq_mod (lo % 256) 8
    norm_num at this
    exact this
  unfold loadAddr
  rw [h0, or_shift_bytes _ _ ha hb]
  omega

/-- C3: for every pair of parameter bytes lo, hi (sent in that order) followed
by CRC_EOP, Load Address returns and leaves Address = 2·(lo + 256·hi) mod 65536:
the first parameter byte is the low byte of the word address. -/
theorem load_address_doubles_word (cfg : Config) (hwf : cfg.WF) (fuel : Nat) (s : State)
    (op lo hi t : Rx) (rest : List Rx) (hin : s.input = op :: lo :: hi :: t :: rest)
    (hop : op.data % 256 = cfg.STK_LOAD_ADDRESS) (hlo : lo.data < 256) (hhi : hi.data < 256)
    (ht : t.data % 256 = cfg.CRC_EOP) :
    ∃ s', step cfg fuel s = .ok () s' ∧
      s'.address = 2 * (lo.data + 256 * hi.data) % 65536 := by
  have hstep := step_loadAddress cfg hwf fuel s op lo hi t rest hin hop
  rw [if_pos ht] at hstep
  refine ⟨_, hstep, ?_⟩
  simp [loadAddr_eq, Nat.mod_eq_of_lt hlo, Nat.mod_eq_of_lt hhi]

/-- Witness of C3: word address 0x1234 sent as 0x34, 0x12 gives byte address
0x2468. -/
theorem load_address_doubles_word_witness :
    ∃ s', step atmega328p 0 (State.fresh (line [0x55, 0x34, 0x12, 0x20])) = .ok () s' ∧
      s'.address = 2 * (0x34 + 256 * 0x12) % 65536 :=
  load_address_doubles_word atmega328p atmega328p_wf 0 (State.fresh (line [0x55, 0x34, 0x12, 0x20]))
    ⟨0x55, false⟩ ⟨0x34, false⟩ ⟨0x12, false⟩ ⟨0x20, false⟩ [] rfl (by decide) (by decide)
    (by decide) (by decide)


theorem flashBytes_eq_map (cfg : Config) (hv : cfg.VIRTUAL_BOOT_PARTITION = false)
    (flash : Nat → Nat) :
    ∀ (n a : Nat), a < 65536 → flashBytes cfg flash a n =
      (List.range n).map fun i => flash ((a + i) % 65536) % 256 := by
  intro n
  induction n with
  | zero => intro a _; rfl
  | succ n ih =>
    intro a ha
    rw [List.range_succ_eq_map, List.map_cons, List.map_map]
    simp only [flashBytes, hv, Bool.false_eq_true, if_false,
      ih ((a + 1) % 65536) (Nat.mod_lt _ (by norm_num))]
    refine congrArg₂ _ ?_ ?_
    · simp [Nat.mod_eq_of_lt ha]
    · apply List.map_congr_left
      intro i _
      simp only [Function.comp, Nat.succ_eq_add_one]
      congr 2
      omega

theorem eeBytes_eq_map (ee : Nat → Nat) :
    ∀ (n a : Nat), a < 65536 → eeBytes ee a n =
      (List.range n).map fun i => ee ((a + i) % 65536) % 256 := by
  intro n
  induction n with
  | zero => intro a _; rfl
  | succ n ih =>
    intro a ha
    rw [List.range_succ_eq_map, List.map_cons, List.map_map]
    simp only [eeBytes, ih ((a + 1) % 65536) (Nat.mod_lt _ (by norm_num))]
    refine congrArg₂ _ ?_ ?_
    · simp [Nat.mod_eq_of_lt ha]
    · apply List.map_congr_left
      intro i _
      simp only [Function.comp, Nat.succ_eq_add_one]
      congr 2
      omega

theorem lenOf_eq (cfg : Config) (hi lo : Nat) (hhi : hi < 256) (hlo : lo < 256) :
    lenOf cfg hi lo = if cfg.SPM_PAGESIZE > 255 then 256 * hi + lo else lo := by
  unfold lenOf
  split_ifs
  · rw [Nat.mod_eq_of_lt hhi, Nat.mod_eq_of_lt hlo, Nat.or_comm, or_shift_bytes lo hi hlo hhi]
    omega
  · exact Nat.mod_eq_of_lt hlo

theorem lenOf_declared (cfg : Config) (hi lo : Nat) (hhi : hi < 256) (hlo : lo < 256)
    (h1 : 1 ≤ 256 * hi + lo) (h2 : 256 * hi + lo < cfg.lenMod) :
    dwIters cfg.lenMod (lenOf cfg hi lo) = 256 * hi + lo := by
  rw [lenOf_eq cfg hi lo hhi hlo]
  unfold dwIters
  unfold Config.lenMod Config.lenBits at h2 ⊢
  split_ifs at h2 ⊢ <;> omega


theorem load_then_read_flash (cfg : Config) (hwf : cfg.WF)
    (hv : cfg.VIRTUAL_BOOT_PARTITION = false) (fuel : Nat) (hf : 65536 ≤ fuel) (s : State)
    (op1 lo hi t1 op2 lh ll tag t2 : Rx) (rest : List Rx)
    (hin : s.input = op1 :: lo :: hi :: t1 :: op2 :: lh :: ll :: tag :: t2 :: rest)
    (hop1 : op1.data % 256 = cfg.STK_LOAD_ADDRESS) (ht1 : t1.data % 256 = cfg.CRC_EOP)
    (hop2 : op2.data % 256 = cfg.STK_READ_PAGE) (ht2 : t2.data % 256 = cfg.CRC_EOP)
    (htag : ¬ ((cfg.SUPPORT_EEPROM || cfg.BIGBOOT) = true ∧ tag.data % 256 = 69)) :
    ∃ s1 s2, step cfg fuel s = .ok () s1 ∧
      s1.address = 2 * (lo.data % 256 + 256 * (hi.data % 256)) % 65536 ∧
      s1.flash = s.flash ∧ s1.eeprom = s.eeprom ∧
      step cfg fuel s1 = .ok () s2 ∧
      s2.out = s1.out ++ [cfg.STK_INSYNC] ++
        ((List.range (dwIters cfg.lenMod (lenOf cfg lh.data ll.data))).map fun i =>
          s.flash ((2 * (lo.data % 256 + 256 * (hi.data % 256)) + i) % 65536) % 256) ++
        [cfg.STK_OK] ∧
      s2.input = rest ∧ s2.address = s1.address ∧ s2.flash = s.flash ∧
      s2.eeprom = s.eeprom := by
  have hi' := Nat.mod_eq_of_lt hwf.insync_lt
  have ho := Nat.mod_eq_of_lt hwf.ok_lt
  have hlt := lenOf_lt cfg lh.data ll.data
  have hle := dwIters_le cfg _ hlt
  have hpos := dwIters_pos cfg (lenOf cfg lh.data ll.data)
  have h1 := step_loadAddress cfg hwf fuel s op1 lo hi t1
    (op2 :: lh :: ll :: tag :: t2 :: rest) hin hop1
  rw [if_pos ht1] at h1
  have h2 := step_readPage cfg hwf fuel
    (((s.rxd cfg [op1, lo, hi, t1] (op2 :: lh :: ll :: tag :: t2 :: rest)).withAddress
      (loadAddr lo.data hi.data)).sent [cfg.STK_INSYNC % 256, cfg.STK_OK % 256])
    op2 lh ll tag t2 rest rfl hop2
  rw [if_pos ht2, read_mem_flash cfg fuel _ _ _ _ _ (by simpa using htag) hlt rfl hpos
    (by omega)] at h2
  refine ⟨_, _, h1, by simp [loadAddr_eq], rfl, rfl, h2, ?_, rfl, rfl, rfl, rfl⟩
  simp only [sent_out, sent_flash, sent_address, withAddress_flash, withAddress_address,
    rxd_flash, hi', ho, List.append_assoc]
  rw [flashBytes_eq_map cfg hv _ _ _ (by rw [loadAddr_eq]; exact Nat.mod_lt _ (by norm_num))]
  simp [loadAddr_eq]

/-- C4 (amended): for every word address W = lo + 256·hi and every declared
length N = 256·lh + ll with 1 ≤ N < 2^w (w the width of pagelen_t), without
VIRTUAL_BOOT_PARTITION, Load Address(W) followed by Read Page of length N with
a tag other than 'E' is answered by STK_INSYNC, the N bytes of code memory at
byte addresses 2W, 2W+1, ..., 2W+N-1 (modulo 65536) in this order, STK_OK. -/
theorem load_then_read_returns_code (cfg : Config) (hwf : cfg.WF)
    (hv : cfg.VIRTUAL_BOOT_PARTITION = false) (fuel : Nat) (hf : 65536 ≤ fuel) (s : State)
    (op1 lo hi t1 op2 lh ll tag t2 : Rx) (rest : List Rx)
    (hin : s.input = op1 :: lo :: hi :: t1 :: op2 :: lh :: ll :: tag :: t2 :: rest)
    (hop1 : op1.data % 256 = cfg.STK_LOAD_ADDRESS) (ht1 : t1.data % 256 = cfg.CRC_EOP)
    (hop2 : op2.data % 256 = cfg.STK_READ_PAGE) (ht2 : t2.data % 256 = cfg.CRC_EOP)
    (hlo : lo.data < 256) (hhi : hi.data < 256) (hlh : lh.data < 256) (hll : ll.data < 256)
    (htag : tag.data % 256 ≠ 69)
    (hN1 : 1 ≤ 256 * lh.data + ll.data) (hN2 : 256 * lh.data + ll.data < cfg.lenMod) :
    ∃ s1 s2, step cfg fuel s = .ok () s1 ∧ step cfg fuel s1 = .ok () s2 ∧
      s2.out = s1.out ++ [cfg.STK_INSYNC] ++
        ((List.range (256 * lh.data + ll.data)).map fun i =>
          s.flash ((2 * (lo.data + 256 * hi.data) + i) % 65536) % 256) ++
        [cfg.STK_OK] := by
  obtain ⟨s1, s2, h1, -, -, -, h2, ho, -⟩ := load_then_read_flash cfg hwf hv fuel hf s
    op1 lo hi t1 op2 lh ll tag t2 rest hin hop1 ht1 hop2 ht2 (fun h => htag h.2)
  refine ⟨s1, s2, h1, h2, ?_⟩
  rw [ho, lenOf_declared cfg lh.data ll.data hlh hll hN1 hN2, Nat.mod_eq_of_lt hlo,
    Nat.mod_eq_of_lt hhi]

/-- Witness of C4: word address 1, three bytes, tag 'F', on erased flash. -/
theorem load_then_read_returns_code_witness :
    ∃ s1 s2,
      step atmega328p 65536
        (State.fresh (line [0x55, 0x01, 0x00, 0x20, 0x74, 0x00, 0x03, 0x46, 0x20])) =
          .ok () s1 ∧
      step atmega328p 65536 s1 = .ok () s2 ∧
      s2.out = s1.out ++ [atmega328p.STK_INSYNC] ++
        ((List.range (256 * 0x00 + 0x03)).map fun i =>
          (State.fresh (line [0x55, 0x01, 0x00, 0x20, 0x74, 0x00, 0x03, 0x46, 0x20])).flash
            ((2 * (0x01 + 256 * 0x00) + i) % 65536) % 256) ++
        [atmega328p.STK_OK] :=
  load_then_read_returns_code atmega328p atmega328p_wf rfl 65536 (Nat.le_refl _)
    (State.fresh (line [0x55, 0x01, 0x00, 0x20, 0x74, 0x00, 0x03, 0x46, 0x20]))
    ⟨0x55, false⟩ ⟨0x01, false⟩ ⟨0x00, false⟩ ⟨0x20, false⟩ ⟨0x74, false⟩ ⟨0x00, false⟩
    ⟨0x03, false⟩ ⟨0x46, false⟩ ⟨0x20, false⟩ [] rfl (by decide) (by decide) (by decide)
    (by decide) (by decide) (by decide) (by decide) (by decide) (by decide) (by decide)
    (by decide)

/-- C4 (counterexample): on the ATmega328P configuration, Load Address(0)
followed by Read Page with declared length 0 and tag 'F' is answered with 256
bytes of code memory between STK_INSYNC and STK_OK, not with none. -/
theorem read_page_of_length_zero_sends_256 :
    ∃ s1 s2,
      step atmega328p 65536
        (State.fresh (line [0x55, 0x00, 0x00, 0x20, 0x74, 0x00, 0x00, 0x46, 0x20])) =
          .ok () s1 ∧
      step atmega328p 65536 s1 = .ok () s2 ∧
      s2.out = s1.out ++ [0x14] ++ List.replicate 256 0xFF ++ [0x10] := by
  obtain ⟨s1, s2, h1, -, -, -, h2, ho, -⟩ := load_then_read_flash atmega328p atmega328p_wf rfl
    65536 (Nat.le_refl _)
    (State.fresh (line [0x55, 0x00, 0x00, 0x20, 0x74, 0x00, 0x00, 0x46, 0x20]))
    ⟨0x55, false⟩ ⟨0x00, false⟩ ⟨0x00, false⟩ ⟨0x20, false⟩ ⟨0x74, false⟩ ⟨0x00, false⟩
    ⟨0x00, false⟩ ⟨0x46, false⟩ ⟨0x20, false⟩ [] rfl (by decide) (by decide) (by decide)
    (by decide) (by decide)
  refine ⟨s1, s2, h1, h2, ?_⟩
  rw [ho]
  have e : dwIters atmega328p.lenMod (lenOf atmega328p 0 0) = 256 := by decide
  simp only [e, State.fresh, List.map_const', List.length_range]
  rfl


theorem fillWord_lo (ram : Nat → Nat) (p : Nat) : fillWord ram p % 256 = ram p % 256 := by
  unfold fillWord
  rw [or_shift_bytes _ _ (Nat.mod_lt _ (by norm_num)) (Nat.mod_lt _ (by norm_num))]
  omega

theorem fillWord_hi (ram : Nat → Nat) (p : Nat) :
    fillWord ram p / 256 % 256 = ram ((p + 1) % 65536) % 256 := by
  unfold fillWord
  rw [or_shift_bytes _ _ (Nat.mod_lt _ (by norm_num)) (Nat.mod_lt _ (by norm_num))]
  omega

theorem ramStore_other (vs : List Nat) :
    ∀ (ram : Nat → Nat) (p x : Nat), (∀ j, j < vs.length → x ≠ (p + j) % 65536) → p < 65536 →
      ramStore ram p vs x = ram x := by
  induction vs with
  | nil => intro _ _ _ _ _; rfl
  | cons v vs ih =>
    intro ram p x hx hp
    simp only [ramStore]
    rw [ih _ _ x (fun j hj => by
      have := hx (j + 1) (by simp; omega)
      intro h; apply this; rw [h]; omega) (Nat.mod_lt _ (by norm_num))]
    have h0 := hx 0 (by simp)
    simp only [Nat.add_zero, Nat.mod_eq_of_lt hp] at h0
    simp [h0]

theorem ramStore_get (vs : List Nat) :
    ∀ (ram : Nat → Nat) (p i : Nat) (hi : i < vs.length), vs.length ≤ 65536 → p < 65536 →
      ramStore ram p vs ((p + i) % 65536) = vs[i] % 256 := by
  induction vs with
  | nil => intro _ _ i hi; simp at hi
  | cons v vs ih =>
    intro ram p i hi hlen hp
    simp only [List.length_cons] at hi hlen
    simp only [ramStore]
    cases i with
    | zero =>
      rw [ramStore_other vs _ _ _ (fun j hj => by
        simp only [Nat.add_zero, Nat.mod_eq_of_lt hp]; omega) (Nat.mod_lt _ (by norm_num))]
      simp [Nat.mod_eq_of_lt hp]
    | succ i =>
      have := ih (fun x => if x = p then v % 256 else ram x) ((p + 1) % 65536) i (by omega)
        (by omega) (Nat.mod_lt _ (by norm_num))
      have e : (p + (i + 1)) % 65536 = ((p + 1) % 65536 + i) % 65536 := by omega
      rw [e, this]
      simp

theorem fillLatch_get (cfg : Config) (ram : Nat → Nat) :
    ∀ (n : Nat) (latch : Nat → Nat) (p a j : Nat), p < 65536 → a + 2 * n ≤ 65536 →
      a % cfg.SPM_PAGESIZE % 2 = 0 → a % cfg.SPM_PAGESIZE + 2 * n ≤ cfg.SPM_PAGESIZE →
      fillLatch cfg latch ram p a n j =
        if a % cfg.SPM_PAGESIZE ≤ j ∧ j < a % cfg.SPM_PAGESIZE + 2 * n
        then ram ((p + (j - a % cfg.SPM_PAGESIZE)) % 65536) % 256
        else latch j := by
  intro n
  induction n with
  | zero =>
    intro latch p a j _ _ _ _
    simp only [fillLatch]
    rw [if_neg (by omega)]
  | succ n ih =>
    intro latch p a j hp ha hev hq
    simp only [fillLatch, fillWord_lo, fillWord_hi]
    have hq2 : a % cfg.SPM_PAGESIZE / 2 * 2 = a % cfg.SPM_PAGESIZE := by omega
    rw [hq2]
    by_cases hn : n = 0
    · subst hn
      simp only [fillLatch]
      by_cases h1 : j = a % cfg.SPM_PAGESIZE
      · simp [h1, Nat.mod_eq_of_lt hp]
      · by_cases h2 : j = a % cfg.SPM_PAGESIZE + 1
        · simp [h2]
        · rw [if_neg h1, if_neg h2, if_neg (by omega)]
    · have hPS : 0 < cfg.SPM_PAGESIZE := by
        rcases Nat.eq_zero_or_pos cfg.SPM_PAGESIZE with h0 | h0
        · rw [h0] at hq; omega
        · exact h0
      have ha2 : (a + 2) % 65536 = a + 2 := Nat.mod_eq_of_lt (by omega)
      have hq3 : (a + 2) % cfg.SPM_PAGESIZE = a % cfg.SPM_PAGESIZE + 2 := by
        have hdiv := Nat.div_add_mod a cfg.SPM_PAGESIZE
        have hlt : a % cfg.SPM_PAGESIZE + 2 < cfg.SPM_PAGESIZE := by omega
        rw [show a + 2 = a % cfg.SPM_PAGESIZE + 2 + cfg.SPM_PAGESIZE * (a / cfg.SPM_PAGESIZE) by
          omega, Nat.add_mul_mod_self_left, Nat.mod_eq_of_lt hlt]
      rw [ih _ (((p + 1) % 65536 + 1) % 65536) ((a + 2) % 65536) j (Nat.mod_lt _ (by norm_num))
        (by rw [ha2]; omega) (by rw [ha2, hq3]; omega) (by rw [ha2, hq3]; omega)]
      rw [ha2, hq3]
      by_cases h1 : j = a % cfg.SPM_PAGESIZE
      · rw [if_neg (by omega), if_pos h1, if_pos (by omega)]
        simp [h1, Nat.mod_eq_of_lt hp]
      · by_cases h2 : j = a % cfg.SPM_PAGESIZE + 1
        · rw [if_neg (by omega), if_neg h1, if_pos h2, if_pos (by omega)]
          simp [h2]
        · rw [if_neg h1, if_neg h2]
          by_cases h3 : a % cfg.SPM_PAGESIZE + 2 ≤ j ∧ j < a % cfg.SPM_PAGESIZE + 2 + 2 * n
          · rw [if_pos h3, if_pos (by omega)]
            congr 2
            omega
          · rw [if_neg h3, if_neg (by omega)]


theorem prog_then_read_flash (cfg : Config) (hwf : cfg.WF)
    (hv : cfg.VIRTUAL_BOOT_PARTITION = false) (fuel : Nat) (hf : 65536 ≤ fuel) (s : State)
    (opP hiP loP tagP tP opR hiR loR tagR tR : Rx) (B rest : List Rx)
    (hin : s.input = opP :: hiP :: loP :: tagP ::
      (B ++ tP :: opR :: hiR :: loR :: tagR :: tR :: rest))
    (hopP : opP.data % 256 = cfg.STK_PROG_PAGE) (htP : tP.data % 256 = cfg.CRC_EOP)
    (hopR : opR.data % 256 = cfg.STK_READ_PAGE) (htR : tR.data % 256 = cfg.CRC_EOP)
    (hB : B.length = dwIters cfg.lenMod (lenOf cfg hiP.data loP.data))
    (hev : lenOf cfg hiP.data loP.data % 2 = 0)
    (htagP : tagP.data % 256 ≠ 69)
    (htagR : ¬ ((cfg.SUPPORT_EEPROM || cfg.BIGBOOT) = true ∧ tagR.data % 256 = 69))
    (hA : s.address < 65536) :
    ∃ s1 s2, step cfg fuel s = .ok () s1 ∧ step cfg fuel s1 = .ok () s2 ∧
      s1.out = s.out ++ [cfg.STK_INSYNC, cfg.STK_OK] ∧
      s1.flash = (fun x =>
        if x / cfg.SPM_PAGESIZE = s.address / cfg.SPM_PAGESIZE
        then fillLatch cfg s.latch
          (ramStore s.ram (cfg.RAMSTART % 65536) (B.map fun b => b.data % 256))
          (cfg.RAMSTART % 65536) s.address
          (dwIters cfg.lenMod (lenOf cfg hiP.data loP.data) / 2) (x % cfg.SPM_PAGESIZE)
        else s.flash x) ∧
      s2.out = s1.out ++ [cfg.STK_INSYNC] ++
        ((List.range (dwIters cfg.lenMod (lenOf cfg hiR.data loR.data))).map fun i =>
          s1.flash ((s.address + i) % 65536) % 256) ++ [cfg.STK_OK] := by
  have hi' := Nat.mod_eq_of_lt hwf.insync_lt
  have ho := Nat.mod_eq_of_lt hwf.ok_lt
  have hltP := lenOf_lt cfg hiP.data loP.data
  have hleP := dwIters_le cfg _ hltP
  have hltR := lenOf_lt cfg hiR.data loR.data
  have hleR := dwIters_le cfg _ hltR
  have hposR := dwIters_pos cfg (lenOf cfg hiR.data loR.data)
  obtain ⟨hk0, hk1, hk2⟩ := half_iters cfg _ hltP hev
  have h1 := step_progPage cfg hwf fuel s opP hiP loP tagP tP B
    (opR :: hiR :: loR :: tagR :: tR :: rest) hin hB hopP (by omega)
  rw [if_pos htP, writebuffer_flash cfg fuel _ _ _ _ _ _
    (fun h => htagP (by simpa using (toInt8_eq _).mp h)) hltP hk0 hk1 (by omega)] at h1
  simp only [] at h1
  have h2 := step_readPage cfg hwf fuel _ opR hiR loR tagR tR rest
    (show ((((((s.rxd cfg (opP :: hiP :: loP :: tagP :: B ++ [tP])
      (opR :: hiR :: loR :: tagR :: tR :: rest)).stored (cfg.RAMSTART % 65536)
      (B.map fun b => b.data % 256)).sent [cfg.STK_INSYNC % 256]).flashWritten cfg
      (cfg.RAMSTART % 65536) s.address
      (dwIters cfg.lenMod (lenOf cfg hiP.data loP.data) / 2)).sent
      [cfg.STK_OK % 256]).input) = opR :: hiR :: loR :: tagR :: tR :: rest from rfl) hopR
  rw [if_pos htR, read_mem_flash cfg fuel _ _ _ _ _ (by simpa using htagR) hltR rfl hposR
    (by omega)] at h2
  simp only [] at h2
  refine ⟨_, _, h1, h2, by simp [hi', ho], rfl, ?_⟩
  rw [flashBytes_eq_map cfg hv _ _ _ (by simpa using hA)]
  simp [hi', ho]


/-- C5 (amended): without VIRTUAL_BOOT_PARTITION, for every buffer B of
SPM_PAGESIZE bytes (SPM_PAGESIZE even) and every page-aligned Address A with
A + SPM_PAGESIZE ≤ 65536, a Program Page of B with a tag other than 'E'
followed by a Read Page of the same length with a tag other than 'E' returns
exactly B as payload, whatever the bytes of B are (0xFF included). -/
theorem program_then_read_returns_page (cfg : Config) (hwf : cfg.WF)
    (hv : cfg.VIRTUAL_BOOT_PARTITION = false) (fuel : Nat) (hf : 65536 ≤ fuel) (s : State)
    (opP hiP loP tagP tP opR hiR loR tagR tR : Rx) (B rest : List Rx)
    (hin : s.input = opP :: hiP :: loP :: tagP ::
      (B ++ tP :: opR :: hiR :: loR :: tagR :: tR :: rest))
    (hopP : opP.data % 256 = cfg.STK_PROG_PAGE) (htP : tP.data % 256 = cfg.CRC_EOP)
    (hopR : opR.data % 256 = cfg.STK_READ_PAGE) (htR : tR.data % 256 = cfg.CRC_EOP)
    (hPS0 : 0 < cfg.SPM_PAGESIZE) (hPS1 : cfg.SPM_PAGESIZE < 65536)
    (hPS2 : cfg.SPM_PAGESIZE % 2 = 0)
    (hhiP : hiP.data < 256) (hloP : loP.data < 256)
    (hlenP : 256 * hiP.data + loP.data = cfg.SPM_PAGESIZE)
    (hhiR : hiR.data < 256) (hloR : loR.data < 256)
    (hlenR : 256 * hiR.data + loR.data = cfg.SPM_PAGESIZE)
    (hB : B.length = cfg.SPM_PAGESIZE) (hBb : ∀ b ∈ B, b.data < 256)
    (htagP : tagP.data % 256 ≠ 69) (htagR : tagR.data % 256 ≠ 69)
    (hal : s.address % cfg.SPM_PAGESIZE = 0) (hA : s.address + cfg.SPM_PAGESIZE ≤ 65536) :
    ∃ s1 s2, step cfg fuel s = .ok () s1 ∧ step cfg fuel s1 = .ok () s2 ∧
      s2.out = s1.out ++ [cfg.STK_INSYNC] ++ B.map (fun b => b.data) ++ [cfg.STK_OK] := by
  have hM : cfg.SPM_PAGESIZE < cfg.lenMod := by
    unfold Config.lenMod Config.lenBits
    split_ifs <;> omega
  have hdP := lenOf_declared cfg hiP.data loP.data hhiP hloP (by omega) (by omega)
  have hdR := lenOf_declared cfg hiR.data loR.data hhiR hloR (by omega) (by omega)
  have hlP : lenOf cfg hiP.data loP.data = cfg.SPM_PAGESIZE := by
    rw [lenOf_eq cfg _ _ hhiP hloP]
    split_ifs <;> omega
  obtain ⟨s1, s2, h1, h2, -, hfl, ho⟩ := prog_then_read_flash cfg hwf hv fuel hf s
    opP hiP loP tagP tP opR hiR loR tagR tR B rest hin hopP htP hopR htR
    (by rw [hdP, hlenP]; exact hB) (by rw [hlP]; exact hPS2) htagP (fun h => htagR h.2)
    (by omega)
  refine ⟨s1, s2, h1, h2, ?_⟩
  rw [ho, hdR, hlenR]
  congr 2
  apply List.ext_getElem
  · simp [hB]
  · intro i h1i h2i
    simp only [List.length_map, List.length_range] at h1i
    simp only [List.getElem_map, List.getElem_range]
    have hai : (s.address + i) % 65536 = s.address + i := Nat.mod_eq_of_lt (by omega)
    have hdiv : (s.address + i) / cfg.SPM_PAGESIZE = s.address / cfg.SPM_PAGESIZE := by
      have hd := Nat.div_add_mod s.address cfg.SPM_PAGESIZE
      rw [hal, Nat.add_zero] at hd
      rw [← hd, Nat.mul_comm, Nat.add_comm, Nat.add_mul_div_right _ _ hPS0,
        Nat.div_eq_of_lt h1i, Nat.mul_div_cancel _ hPS0]
      simp
    have hmod : (s.address + i) % cfg.SPM_PAGESIZE = i := by
      rw [Nat.add_mod, hal, Nat.zero_add, Nat.mod_mod, Nat.mod_eq_of_lt h1i]
    rw [hfl, hai]
    simp only [hdiv, if_true, hmod]
    rw [fillLatch_get cfg _ _ _ _ _ _ (Nat.mod_lt _ (by norm_num)) (by rw [hdP, hlenP]; omega)
      (by rw [hal]) (by rw [hal, hdP, hlenP]; omega)]
    rw [hal, if_pos (by rw [hdP, hlenP]; omega), Nat.sub_zero]
    rw [ramStore_get _ _ _ i (by simp; omega) (by simp; omega) (Nat.mod_lt _ (by norm_num))]
    have hb := hBb B[i] (List.getElem_mem _)
    simp only [List.getElem_map]
    omega

set_option maxRecDepth 8192

/-- Witness of C5: a page of 128 bytes 0xFF written to page 0 of the
ATmega328P and read back. -/
theorem program_then_read_returns_page_witness :
    ∃ s1 s2,
      step atmega328p 65536 (State.fresh (line ([0x64, 0x00, 0x80, 0x46] ++
        List.replicate 128 0xFF ++ [0x20, 0x74, 0x00, 0x80, 0x46, 0x20]))) = .ok () s1 ∧
      step atmega328p 65536 s1 = .ok () s2 ∧
      s2.out = s1.out ++ [atmega328p.STK_INSYNC] ++
        (line (List.replicate 128 0xFF)).map (fun b => b.data) ++ [atmega328p.STK_OK] :=
  program_then_read_returns_page atmega328p atmega328p_wf rfl 65536 (Nat.le_refl _)
    (State.fresh (line ([0x64, 0x00, 0x80, 0x46] ++
      List.replicate 128 0xFF ++ [0x20, 0x74, 0x00, 0x80, 0x46, 0x20])))
    ⟨0x64, false⟩ ⟨0x00, false⟩ ⟨0x80, false⟩ ⟨0x46, false⟩ ⟨0x20, false⟩
    ⟨0x74, false⟩ ⟨0x00, false⟩ ⟨0x80, false⟩ ⟨0x46, false⟩ ⟨0x20, false⟩
    (line (List.replicate 128 0xFF)) [] rfl (by decide) (by decide) (by decide)
    (by decide) (by decide) (by decide) (by decide) (by decide) (by decide) (by decide)
    (by decide) (by decide) (by decide) (by decide) (by decide) (by decide) (by decide)
    (by decide) (by decide)

/-- C5 (counterexample): on the ATmega328P with erased flash and Address 2, a
Program Page of 128 zero bytes with tag 'F' followed by a Read Page of 128
bytes with tag 'F' does not return the 128 zero bytes: the bytes at addresses
128 and 129 lie in the next page, which the write does not touch. -/
theorem program_then_read_fails_off_page :
    ∃ s1 s2,
      step atmega328p 65536 ((State.fresh (line ([0x64, 0x00, 0x80, 0x46] ++
        List.replicate 128 0x00 ++ [0x20, 0x74, 0x00, 0x80, 0x46, 0x20]))).withAddress 2) =
          .ok () s1 ∧
      step atmega328p 65536 s1 = .ok () s2 ∧
      s2.out ≠ s1.out ++ [0x14] ++ List.replicate 128 0x00 ++ [0x10] := by
  obtain ⟨s1, s2, h1, h2, -, hfl, ho⟩ := prog_then_read_flash atmega328p atmega328p_wf rfl
    65536 (Nat.le_refl _)
    ((State.fresh (line ([0x64, 0x00, 0x80, 0x46] ++
        List.replicate 128 0x00 ++ [0x20, 0x74, 0x00, 0x80, 0x46, 0x20]))).withAddress 2)
    ⟨0x64, false⟩ ⟨0x00, false⟩ ⟨0x80, false⟩ ⟨0x46, false⟩ ⟨0x20, false⟩
    ⟨0x74, false⟩ ⟨0x00, false⟩ ⟨0x80, false⟩ ⟨0x46, false⟩ ⟨0x20, false⟩
    (line (List.replicate 128 0x00)) [] (by decide) (by decide) (by decide) (by decide)
    (by decide) (by decide) (by decide) (by decide) (by decide) (by decide)
  refine ⟨s1, s2, h1, h2, ?_⟩
  intro h
  rw [ho] at h
  have e : dwIters atmega328p.lenMod (lenOf atmega328p (⟨0x00, false⟩ : Rx).data
      (⟨0x80, false⟩ : Rx).data) = 128 := by decide
  rw [e] at h
  have h' : ((List.range 128).map fun i =>
      s1.flash ((((State.fresh (line ([0x64, 0x00, 0x80, 0x46] ++
        List.replicate 128 0x00 ++ [0x20, 0x74, 0x00, 0x80, 0x46, 0x20]))).withAddress
          2).address + i) % 65536) % 256) = List.replicate 128 0 := by
    have h3 := List.append_cancel_left (by simpa only [List.append_assoc] using h)
    exact List.append_inj_left' (List.cons_inj_right _ |>.mp h3) rfl
  have h4 := congrArg (fun l => l[127]?) h'
  rw [hfl] at h4
  simp [atmega328p, State.fresh, State.withAddress] at h4


theorem eeStore_other (ram : Nat → Nat) :
    ∀ (n : Nat) (ee : Nat → Nat) (p a x : Nat), (∀ j, j < n → x ≠ (a + j) % 65536) →
      a < 65536 → eeStore ee ram p a n x = ee x := by
  intro n
  induction n with
  | zero => intro _ _ _ _ _ _; rfl
  | succ n ih =>
    intro ee p a x hx ha
    simp only [eeStore]
    rw [ih _ _ _ x (fun j hj => by
      have := hx (j + 1) (by omega)
      intro h; apply this; rw [h]; omega) (Nat.mod_lt _ (by norm_num))]
    have h0 := hx 0 (by omega)
    simp only [Nat.add_zero, Nat.mod_eq_of_lt ha] at h0
    simp [h0]

theorem eeStore_get (ram : Nat → Nat) :
    ∀ (n : Nat) (ee : Nat → Nat) (p a i : Nat), i < n → n ≤ 65536 → p < 65536 → a < 65536 →
      eeStore ee ram p a n ((a + i) % 65536) = ram ((p + i) % 65536) % 256 := by
  intro n
  induction n with
  | zero => intro _ _ _ i hi; omega
  | succ n ih =>
    intro ee p a i hi hn hp ha
    simp only [eeStore]
    cases i with
    | zero =>
      rw [eeStore_other ram n _ _ _ _ (fun j hj => by
        simp only [Nat.add_zero, Nat.mod_eq_of_lt ha]; omega) (Nat.mod_lt _ (by norm_num))]
      simp [Nat.mod_eq_of_lt ha, Nat.mod_eq_of_lt hp]
    | succ i =>
      have := ih (fun x => if x = a then ram p % 256 % 256 else ee x) ((p + 1) % 65536)
        ((a + 1) % 65536) i (by omega) (by omega) (Nat.mod_lt _ (by norm_num))
        (Nat.mod_lt _ (by norm_num))
      have e1 : (a + (i + 1)) % 65536 = ((a + 1) % 65536 + i) % 65536 := by omega
      have e2 : (p + (i + 1)) % 65536 = ((p + 1) % 65536 + i) % 65536 := by omega
      rw [e1, e2, this]

theorem eeEvents_eq_map (ram : Nat → Nat) :
    ∀ (n p a : Nat), p < 65536 → a < 65536 → eeEvents ram p a n =
      (List.range n).map fun i =>
        Event.eepromWrite ((a + i) % 65536) (ram ((p + i) % 65536) % 256) := by
  intro n
  induction n with
  | zero => intro _ _ _ _; rfl
  | succ n ih =>
    intro p a hp ha
    rw [List.range_succ_eq_map, List.map_cons, List.map_map]
    simp only [eeEvents, ih ((p + 1) % 65536) ((a + 1) % 65536) (Nat.mod_lt _ (by norm_num))
      (Nat.mod_lt _ (by norm_num))]
    refine congrArg₂ _ ?_ ?_
    · simp [Nat.mod_eq_of_lt ha, Nat.mod_eq_of_lt hp]
    · apply List.map_congr_left
      intro i _
      have e1 : ((a + 1) % 65536 + i) % 65536 = (a + (i + 1)) % 65536 := by omega
      have e2 : ((p + 1) % 65536 + i) % 65536 = (p + (i + 1)) % 65536 := by omega
      simp only [Function.comp, Nat.succ_eq_add_one, e1, e2]

theorem prog_then_read_ee (cfg : Config) (hwf : cfg.WF)
    (hee : (cfg.SUPPORT_EEPROM || cfg.BIGBOOT) = true) (fuel : Nat) (hf : 65536 ≤ fuel)
    (s : State)
    (opP hiP loP tagP tP opR hiR loR tagR tR : Rx) (B rest : List Rx)
    (hin : s.input = opP :: hiP :: loP :: tagP ::
      (B ++ tP :: opR :: hiR :: loR :: tagR :: tR :: rest))
    (hopP : opP.data % 256 = cfg.STK_PROG_PAGE) (htP : tP.data % 256 = cfg.CRC_EOP)
    (hopR : opR.data % 256 = cfg.STK_READ_PAGE) (htR : tR.data % 256 = cfg.CRC_EOP)
    (hB : B.length = dwIters cfg.lenMod (lenOf cfg hiP.data loP.data))
    (htagP : tagP.data % 256 = 69) (htagR : tagR.data % 256 = 69)
    (hA : s.address < 65536) :
    ∃ s1 s2, step cfg fuel s = .ok () s1 ∧ step cfg fuel s1 = .ok () s2 ∧
      s1.out = s.out ++ [cfg.STK_INSYNC, cfg.STK_OK] ∧
      s1.eeprom = eeStore s.eeprom
        (ramStore s.ram (cfg.RAMSTART % 65536) (B.map fun b => b.data % 256))
        (cfg.RAMSTART % 65536) s.address (lenOf cfg hiP.data loP.data) ∧
      s1.log = s.log ++ rxEvents cfg (opP :: hiP :: loP :: tagP :: B ++ [tP]) ++
        [Event.tx cfg.STK_INSYNC] ++
        ((List.range (lenOf cfg hiP.data loP.data)).map fun i =>
          Event.eepromWrite ((s.address + i) % 65536)
            (ramStore s.ram (cfg.RAMSTART % 65536) (B.map fun b => b.data % 256)
              ((cfg.RAMSTART % 65536 + i) % 65536) % 256)) ++
        [Event.tx cfg.STK_OK] ∧
      s2.out = s1.out ++ [cfg.STK_INSYNC] ++
        ((List.range (dwIters cfg.lenMod (lenOf cfg hiR.data loR.data))).map fun i =>
          s1.eeprom ((s.address + i) % 65536) % 256) ++ [cfg.STK_OK] := by
  have hi' := Nat.mod_eq_of_lt hwf.insync_lt
  have ho := Nat.mod_eq_of_lt hwf.ok_lt
  have hltP := lenOf_lt cfg hiP.data loP.data
  have hleP := dwIters_le cfg _ hltP
  have hM := lenMod_le cfg
  have hltR := lenOf_lt cfg hiR.data loR.data
  have hleR := dwIters_le cfg _ hltR
  have hposR := dwIters_pos cfg (lenOf cfg hiR.data loR.data)
  have h1 := step_progPage cfg hwf fuel s opP hiP loP tagP tP B
    (opR :: hiR :: loR :: tagR :: tR :: rest) hin hB hopP (by omega)
  rw [if_pos htP, writebuffer_ee cfg fuel _ _ _ _ _ ((toInt8_eq _).mpr (by simp [htagP])) hltP
    (by omega)] at h1
  simp only [] at h1
  have h2 := step_readPage cfg hwf fuel _ opR hiR loR tagR tR rest
    (show ((((((s.rxd cfg (opP :: hiP :: loP :: tagP :: B ++ [tP])
      (opR :: hiR :: loR :: tagR :: tR :: rest)).stored (cfg.RAMSTART % 65536)
      (B.map fun b => b.data % 256)).sent [cfg.STK_INSYNC % 256]).eeWritten
      (cfg.RAMSTART % 65536) s.address (lenOf cfg hiP.data loP.data)).sent
      [cfg.STK_OK % 256]).input) = opR :: hiR :: loR :: tagR :: tR :: rest from rfl) hopR
  rw [if_pos htR, read_mem_ee cfg fuel _ _ _ _ _ hee (by simp [htagR]) hltR rfl hposR
    (by omega)] at h2
  simp only [] at h2
  refine ⟨_, _, h1, h2, by simp [hi', ho], rfl, ?_, ?_⟩
  · simp only [State.sent, State.eeWritten, State.stored, State.rxd, List.map_cons,
      List.map_nil, hi', ho]
    rw [eeEvents_eq_map _ _ _ _ (Nat.mod_lt _ (by norm_num)) hA]
  · rw [eeBytes_eq_map _ _ _ (by simpa using hA)]
    simp [hi', ho]


theorem and_mask_ne_zero (x p e w : Nat) :
    x &&& (2 ^ p ||| 2 ^ e ||| 2 ^ w) ≠ 0 ↔
      x.testBit p = true ∨ x.testBit e = true ∨ x.testBit w = true := by
  constructor
  · intro h
    obtain ⟨i, hi⟩ := Nat.ne_zero_implies_bit_true h
    simp only [Nat.testBit_and, Nat.testBit_or, Nat.testBit_two_pow, Bool.and_eq_true,
      Bool.or_eq_true, decide_eq_true_eq] at hi
    obtain ⟨hx, (rfl | rfl) | rfl⟩ := hi
    · exact Or.inl hx
    · exact Or.inr (Or.inl hx)
    · exact Or.inr (Or.inr hx)
  · intro h hz
    have key : ∀ i, (x &&& (2 ^ p ||| 2 ^ e ||| 2 ^ w)).testBit i = false := by
      intro i; rw [hz]; exact Nat.zero_testBit i
    rcases h with h | h | h
    · have := key p
      simp [Nat.testBit_and, Nat.testBit_or, Nat.testBit_two_pow, h] at this
    · have := key e
      simp [Nat.testBit_and, Nat.testBit_or, Nat.testBit_two_pow, h] at this
    · have := key w
      simp [Nat.testBit_and, Nat.testBit_or, Nat.testBit_two_pow, h] at this

/-- C7: at startup `main` jumps to the application, with the watchdog turned
off and without reading any byte, exactly when MCUSR has one of the flags PORF,
EXTRF, WDRF set and the first word of code memory is not 0xFFFF; in every
other case it goes on into the command loop.  In both cases MCUSR is 0
afterwards. -/
theorem boot_decision (cfg : Config) (hwf : cfg.WF) (fuel iters : Nat) (s : State)
    (hm : s.mcusr < 256) :
    ((∃ s', bootDecision cfg s = .stop .app s') ↔
      ((s.mcusr.testBit cfg.PORF = true ∨ s.mcusr.testBit cfg.EXTRF = true ∨
          s.mcusr.testBit cfg.WDRF = true) ∧
        s.flash 0 % 256 + 256 * (s.flash 1 % 256) ≠ 0xFFFF)) ∧
    (((s.mcusr.testBit cfg.PORF = true ∨ s.mcusr.testBit cfg.EXTRF = true ∨
          s.mcusr.testBit cfg.WDRF = true) ∧
        s.flash 0 % 256 + 256 * (s.flash 1 % 256) ≠ 0xFFFF) →
      ∃ s', main cfg fuel iters s = (.app, s') ∧ s'.wdtcsr = cfg.WATCHDOG_OFF ∧
        s'.input = s.input ∧ s'.out = s.out ∧ s'.mcusr = 0 ∧
        s'.flash = s.flash ∧ s'.eeprom = s.eeprom) ∧
    (¬ ((s.mcusr.testBit cfg.PORF = true ∨ s.mcusr.testBit cfg.EXTRF = true ∨
          s.mcusr.testBit cfg.WDRF = true) ∧
        s.flash 0 % 256 + 256 * (s.flash 1 % 256) ≠ 0xFFFF) →
      ∃ s', main cfg fuel iters s = mainLoop cfg fuel iters s' ∧ s'.mcusr = 0 ∧
        s'.input = s.input ∧ s'.out = s.out ∧ s'.wdtcsr = cfg.WATCHDOG_1S ∧
        s'.address = 0 ∧ s'.flash = s.flash ∧ s'.eeprom = s.eeprom) := by
  have hoff := Nat.mod_eq_of_lt hwf.wd_off_lt
  have h1s := Nat.mod_eq_of_lt hwf.wd_1s_lt
  have hmm := Nat.mod_eq_of_lt hm
  have hmask := and_mask_ne_zero s.mcusr cfg.PORF cfg.EXTRF cfg.WDRF
  have hrun : ∀ s0 : State, s0.mcusr = s.mcusr → s0.flash = s.flash →
      bootDecision cfg s0 =
        if (s.mcusr.testBit cfg.PORF = true ∨ s.mcusr.testBit cfg.EXTRF = true ∨
            s.mcusr.testBit cfg.WDRF = true) ∧
          s.flash 0 % 256 + 256 * (s.flash 1 % 256) ≠ 0xFFFF
        then .stop .app
          { s0 with wdtcsr := cfg.WATCHDOG_OFF, mcusr := 0,
                    log := s0.log ++ [Event.wdtcsr cfg.WATCHDOG_1S] ++
                      [Event.wdtcsr cfg.WATCHDOG_OFF] }
        else .ok ()
          { s0 with wdtcsr := cfg.WATCHDOG_1S, mcusr := 0,
                    log := s0.log ++ [Event.wdtcsr cfg.WATCHDOG_1S] } := by
    intro s0 h0 h1
    by_cases hf : s.mcusr.testBit cfg.PORF = true ∨ s.mcusr.testBit cfg.EXTRF = true ∨
        s.mcusr.testBit cfg.WDRF = true
    · have hne := hmask.mpr hf
      by_cases hb : s.flash 0 % 256 + 256 * (s.flash 1 % 256) = 0xFFFF
      · rw [if_neg (fun h => h.2 hb)]
        simp [bootDecision, watchdogConfig, getState, setState, pgm_read_word_near, h0, h1,
          hmm, hne, hb, h1s]
      · rw [if_pos ⟨hf, hb⟩]
        simp [bootDecision, watchdogConfig, getState, setState, pgm_read_word_near, h0, h1,
          hmm, hne, hb, h1s, hoff, halt]
    · have hz : s.mcusr &&& (2 ^ cfg.PORF ||| 2 ^ cfg.EXTRF ||| 2 ^ cfg.WDRF) = 0 := by
        by_contra h
        exact hf (hmask.mp h)
      rw [if_neg (fun h => hf h.1)]
      simp [bootDecision, watchdogConfig, getState, setState, h0, hmm, hz, h1s]
  refine ⟨?_, ?_, ?_⟩
  · rw [hrun s rfl rfl]
    split_ifs with h
    · simp [h]
    · simp [h]
  · intro h
    have hmain : main cfg fuel iters s = (.app,
        { s with address := 0 % 65536, wdtcsr := cfg.WATCHDOG_OFF, mcusr := 0,
                 log := s.log ++ [Event.wdtcsr cfg.WATCHDOG_1S] ++
                   [Event.wdtcsr cfg.WATCHDOG_OFF] }) := by
      simp only [main, bind_run, setAddress]
      rw [hrun { s with address := 0 % 65536 } rfl rfl, if_pos h]
    exact ⟨_, hmain, rfl, rfl, rfl, rfl, rfl, rfl⟩
  · intro h
    have hmain : main cfg fuel iters s = mainLoop cfg fuel iters
        { s with address := 0 % 65536, wdtcsr := cfg.WATCHDOG_1S, mcusr := 0,
                 log := s.log ++ [Event.wdtcsr cfg.WATCHDOG_1S] ++ [Event.wdr] } := by
      simp only [main, bind_run, setAddress]
      rw [hrun { s with address := 0 % 65536 } rfl rfl, if_neg h]
      rfl
    exact ⟨_, hmain, rfl, rfl, rfl, rfl, rfl, rfl, rfl⟩

/-- Witness of C7: power-on reset of a device with an application in flash. -/
theorem boot_decision_witness :
    ((∃ s', bootDecision atmega328p
        { State.fresh (line [0x30, 0x20]) with mcusr := 1, flash := fun _ => 0x0C } =
          .stop .app s') ↔
      (((1 : Nat).testBit atmega328p.PORF = true ∨ (1 : Nat).testBit atmega328p.EXTRF = true ∨
          (1 : Nat).testBit atmega328p.WDRF = true) ∧
        0x0C % 256 + 256 * (0x0C % 256) ≠ 0xFFFF)) ∧
    ((((1 : Nat).testBit atmega328p.PORF = true ∨ (1 : Nat).testBit atmega328p.EXTRF = true ∨
          (1 : Nat).testBit atmega328p.WDRF = true) ∧
        0x0C % 256 + 256 * (0x0C % 256) ≠ 0xFFFF) →
      ∃ s', main atmega328p 65536 10
          { State.fresh (line [0x30, 0x20]) with mcusr := 1, flash := fun _ => 0x0C } =
            (.app, s') ∧
        s'.wdtcsr = atmega328p.WATCHDOG_OFF ∧ s'.input = line [0x30, 0x20] ∧ s'.out = [] ∧
        s'.mcusr = 0 ∧ s'.flash = (fun _ => 0x0C) ∧ s'.eeprom = fun _ => 0xFF) ∧
    (¬ (((1 : Nat).testBit atmega328p.PORF = true ∨ (1 : Nat).testBit atmega328p.EXTRF = true ∨
          (1 : Nat).testBit atmega328p.WDRF = true) ∧
        0x0C % 256 + 256 * (0x0C % 256) ≠ 0xFFFF) →
      ∃ s', main atmega328p 65536 10
          { State.fresh (line [0x30, 0x20]) with mcusr := 1, flash := fun _ => 0x0C } =
            mainLoop atmega328p 65536 10 s' ∧
        s'.mcusr = 0 ∧ s'.input = line [0x30, 0x20] ∧ s'.out = [] ∧
        s'.wdtcsr = atmega328p.WATCHDOG_1S ∧ s'.address = 0 ∧
        s'.flash = (fun _ => 0x0C) ∧ s'.eeprom = fun _ => 0xFF) :=
  boot_decision atmega328p atmega328p_wf 65536 10
    { State.fresh (line [0x30, 0x20]) with mcusr := 1, flash := fun _ => 0x0C } (by decide)

/-- C8: for every parameter id byte followed by CRC_EOP, Get Parameter replies
STK_INSYNC, v, STK_OK, where v is OPTIBOOT_AXIOMA_VERSION = 1 for the id
STK_SW_MINOR, OPTIBOOT_MAJOR + 100 for the id STK_SW_MAJOR and 0x03 for every
other id. -/
theorem get_parameter_reply (cfg : Config) (hwf : cfg.WF) (fuel : Nat) (s : State)
    (op which t : Rx) (rest : List Rx) (hin : s.input = op :: which :: t :: rest)
    (hop : op.data % 256 = cfg.STK_GET_PARAMETER) (hw : which.data < 256)
    (ht : t.data % 256 = cfg.CRC_EOP) :
    ∃ s' v, step cfg fuel s = .ok () s' ∧
      s'.out = s.out ++ [cfg.STK_INSYNC, v, cfg.STK_OK] ∧
      (which.data = cfg.STK_SW_MINOR → v = OPTIBOOT_AXIOMA_VERSION ∧ v = 1) ∧
      (which.data = cfg.STK_SW_MAJOR → v = cfg.OPTIBOOT_MAJOR + 100) ∧
      (which.data ≠ cfg.STK_SW_MINOR → which.data ≠ cfg.STK_SW_MAJOR → v = 0x03) := by
  have hi := Nat.mod_eq_of_lt hwf.insync_lt
  have ho := Nat.mod_eq_of_lt hwf.ok_lt
  have hmaj := Nat.mod_eq_of_lt hwf.major_lt
  have hwm := Nat.mod_eq_of_lt hw
  have hstep := step_getParameter cfg fuel s op which t rest hin hop
  rw [if_pos ht] at hstep
  refine ⟨_, paramValue cfg (which.data % 256) % 256, hstep, by simp [hi, ho], ?_, ?_, ?_⟩
  · intro h
    rw [hwm, paramValue, if_pos h]
    exact ⟨rfl, rfl⟩
  · intro h
    have hne : which.data ≠ cfg.STK_SW_MINOR := by rw [h]; exact hwf.ids_ne
    rw [hwm, paramValue, if_neg hne, if_pos h, hmaj]
  · intro h1 h2
    rw [hwm, paramValue, if_neg h1, if_neg h2]

/-- Witness of C8: the major-version id 0x81 on the ATmega328P. -/
theorem get_parameter_reply_witness :
    ∃ s' v, step atmega328p 0 (State.fresh (line [0x41, 0x81, 0x20])) = .ok () s' ∧
      s'.out = (State.fresh (line [0x41, 0x81, 0x20])).out ++
        [atmega328p.STK_INSYNC, v, atmega328p.STK_OK] ∧
      ((0x81 : Nat) = atmega328p.STK_SW_MINOR → v = OPTIBOOT_AXIOMA_VERSION ∧ v = 1) ∧
      ((0x81 : Nat) = atmega328p.STK_SW_MAJOR → v = atmega328p.OPTIBOOT_MAJOR + 100) ∧
      ((0x81 : Nat) ≠ atmega328p.STK_SW_MINOR → (0x81 : Nat) ≠ atmega328p.STK_SW_MAJOR →
        v = 0x03) :=
  get_parameter_reply atmega328p atmega328p_wf 0 (State.fresh (line [0x41, 0x81, 0x20]))
    ⟨0x41, false⟩ ⟨0x81, false⟩ ⟨0x20, false⟩ [] rfl (by decide) (by decide) (by decide)


theorem rxEvents_no_write (cfg : Config) (bs : List Rx) :
    ∀ e ∈ rxEvents cfg bs, e.isWrite = false := by
  induction bs with
  | nil => intro e he; simp [rxEvents] at he
  | cons b bs ih =>
    intro e he
    simp only [rxEvents, rxLog, List.mem_append] at he
    rcases he with (he | he) | he
    · split_ifs at he
      · simp at he
      · simp at he; subst he; rfl
      · simp at he
    · simp at he; subst he; rfl
    · exact ih e he

theorem eeEvents_are_writes (ram : Nat → Nat) :
    ∀ (n p a : Nat), ∀ e ∈ eeEvents ram p a n, ∃ x y, e = Event.eepromWrite x y := by
  intro n
  induction n with
  | zero => intro _ _ e he; simp [eeEvents] at he
  | succ n ih =>
    intro p a e he
    simp only [eeEvents, List.mem_cons] at he
    rcases he with rfl | he
    · exact ⟨_, _, rfl⟩
    · exact ih _ _ e he

theorem eeEvents_length (ram : Nat → Nat) :
    ∀ (n p a : Nat), (eeEvents ram p a n).length = n := by
  intro n
  induction n with
  | zero => intro _ _; rfl
  | succ n ih => intro p a; simp [eeEvents, ih]

theorem fillEvents_are_fills (ram : Nat → Nat) :
    ∀ (n p a : Nat), ∀ e ∈ fillEvents ram p a n, ∃ x w, e = Event.pageFill x w := by
  intro n
  induction n with
  | zero => intro _ _ e he; simp [fillEvents] at he
  | succ n ih =>
    intro p a e he
    simp only [fillEvents, List.mem_cons] at he
    rcases he with rfl | he
    · exact ⟨_, _, rfl⟩
    · exact ih _ _ e he

theorem fillEvents_length (ram : Nat → Nat) :
    ∀ (n p a : Nat), (fillEvents ram p a n).length = n := by
  intro n
  induction n with
  | zero => intro _ _; rfl
  | succ n ih => intro p a; simp [fillEvents, ih]

theorem writebuffer_events (cfg : Config) (fuel memtype mybuff address len : Nat) (s : State)
    (hlt : len < cfg.lenMod) (hf : 65536 ≤ fuel) :
    ∃ tail, (writebuffer cfg fuel memtype mybuff address len s).state.log = s.log ++ tail ∧
      (writebuffer cfg fuel memtype mybuff address len s).state.out = s.out ∧
      ∀ e ∈ tail, e.isRx = false := by
  have hM := lenMod_le cfg
  by_cases hm : toInt8 memtype = 69
  · rw [writebuffer_ee cfg fuel memtype mybuff address len s hm hlt (by omega)]
    refine ⟨eeEvents s.ram mybuff address len, rfl, rfl, ?_⟩
    intro e he
    obtain ⟨x, y, rfl⟩ := eeEvents_are_writes _ _ _ _ e he
    rfl
  · rcases Nat.mod_two_eq_zero_or_one len with hev | hodd
    · obtain ⟨hk0, hk1, hk2⟩ := half_iters cfg len hlt hev
      rw [writebuffer_flash cfg fuel memtype mybuff address len _ s hm hlt hk0 hk1 (by omega)]
      refine ⟨[Event.pageErase address, Event.spmBusyWait] ++
        fillEvents s.ram mybuff address (dwIters cfg.lenMod len / 2) ++
        [Event.pageWrite address, Event.spmBusyWait] ++
        (if cfg.RWWSRE then [Event.rwwEnable] else []),
        by simp [Res.state, State.flashWritten], rfl, ?_⟩
      intro e he
      simp only [List.mem_append, List.mem_cons, List.mem_singleton, List.not_mem_nil,
        or_false] at he
      rcases he with ((he | he) | he) | he
      · rcases he with rfl | rfl <;> rfl
      · obtain ⟨x, y, rfl⟩ := fillEvents_are_fills _ _ _ _ e he
        rfl
      · rcases he with rfl | rfl <;> rfl
      · split_ifs at he
        · simp at he; subst he; rfl
        · simp at he
    · obtain ⟨s', tail, hs', ho, -, -, hlog, htail⟩ :=
        writebuffer_flash_odd cfg fuel memtype mybuff address len s hm hodd
      rw [hs']
      refine ⟨[Event.pageErase address, Event.spmBusyWait] ++ tail,
        by simp [Res.state, hlog], ho, ?_⟩
      intro e he
      simp only [List.mem_append, List.mem_cons, List.mem_singleton, List.not_mem_nil,
        or_false] at he
      rcases he with (rfl | rfl) | he
      · rfl
      · rfl
      · obtain ⟨x, y, rfl⟩ := htail e he
        rfl

/-- The events of a Program Page pass, for the data bytes that the receive loop
takes: first the receipts, none of them a write, then events without receipt;
a terminator other than CRC_EOP leaves code memory and EEPROM as they were. -/
theorem progPage_receives_then_commits (cfg : Config) (hwf : cfg.WF) (fuel : Nat)
    (hf : 65536 ≤ fuel) (s : State) (op hi lo tag t : Rx) (data rest : List Rx)
    (hin : s.input = op :: hi :: lo :: tag :: (data ++ t :: rest))
    (hd : data.length = dwIters cfg.lenMod (lenOf cfg hi.data lo.data))
    (hop : op.data % 256 = cfg.STK_PROG_PAGE) :
    ∃ post,
      (step cfg fuel s).state.log =
        s.log ++ rxEvents cfg (op :: hi :: lo :: tag :: data ++ [t]) ++ post ∧
      (∀ e ∈ rxEvents cfg (op :: hi :: lo :: tag :: data ++ [t]), e.isWrite = false) ∧
      (∀ e ∈ post, e.isRx = false) ∧
      (t.data % 256 ≠ cfg.CRC_EOP →
        (∀ e ∈ post, e.isWrite = false) ∧ (step cfg fuel s).state.flash = s.flash ∧
        (step cfg fuel s).state.eeprom = s.eeprom) := by
  have hlt := lenOf_lt cfg hi.data lo.data
  have hle := dwIters_le cfg _ hlt
  have hstep := step_progPage cfg hwf fuel s op hi lo tag t data rest hin hd hop (by omega)
  by_cases ht : t.data % 256 = cfg.CRC_EOP
  · rw [if_pos ht] at hstep
    obtain ⟨tail, hlog, -, htail⟩ := writebuffer_events cfg fuel (tag.data % 256)
      (cfg.RAMSTART % 65536) s.address (lenOf cfg hi.data lo.data)
      ((((s.rxd cfg (op :: hi :: lo :: tag :: data ++ [t]) rest).stored
        (cfg.RAMSTART % 65536) (data.map fun b => b.data % 256))).sent [cfg.STK_INSYNC % 256])
      hlt hf
    have key : ∀ r : Res Unit,
        r.state.log = ((((s.rxd cfg (op :: hi :: lo :: tag :: data ++ [t]) rest).stored
          (cfg.RAMSTART % 65536) (data.map fun b => b.data % 256))).sent
            [cfg.STK_INSYNC % 256]).log ++ tail →
        ∃ post, (match r with
            | .ok _ s2 => Res.ok () (s2.sent [cfg.STK_OK % 256])
            | .stop h s2 => Res.stop h s2).state.log =
          s.log ++ rxEvents cfg (op :: hi :: lo :: tag :: data ++ [t]) ++ post ∧
          ∀ e ∈ post, e.isRx = false := by
      intro r hr
      cases r with
      | ok a s2 =>
        refine ⟨[Event.tx (cfg.STK_INSYNC % 256)] ++ tail ++ [Event.tx (cfg.STK_OK % 256)],
          ?_, ?_⟩
        · simp only [Res.state] at hr ⊢
          simp [State.sent, hr, State.stored, State.rxd]
        · intro e he
          simp only [List.mem_append, List.mem_singleton] at he
          rcases he with (rfl | he) | rfl
          · rfl
          · exact htail e he
          · rfl
      | stop h s2 =>
        refine ⟨[Event.tx (cfg.STK_INSYNC % 256)] ++ tail, ?_, ?_⟩
        · simp only [Res.state] at hr ⊢
          simp [State.sent, hr, State.stored, State.rxd]
        · intro e he
          simp only [List.mem_append, List.mem_singleton] at he
          rcases he with rfl | he
          · rfl
          · exact htail e he
    obtain ⟨post, hp1, hp2⟩ := key _ hlog
    rw [← hstep] at hp1
    exact ⟨post, hp1, rxEvents_no_write cfg _, hp2, fun h => absurd ht h⟩
  · rw [if_neg ht] at hstep
    refine ⟨[Event.wdtcsr (cfg.WATCHDOG_16MS % 256)], ?_, rxEvents_no_write cfg _, ?_, ?_⟩
    · rw [hstep]; rfl
    · intro e he
      simp at he; subst he; rfl
    · intro _
      refine ⟨?_, ?_, ?_⟩
      · intro e he
        simp at he; subst he; rfl
      · rw [hstep]; rfl
      · rw [hstep]; rfl

/-- C10 (amended): for every memory-type tag byte of a Program Page frame.  If
the tag is 'E', `writebuffer` returns after issuing one EEPROM byte write per
byte of the length and nothing else: no flash erase, fill or write, and code
memory and the write latch are unchanged.  If the tag is any other value and
the length is even, `writebuffer` returns after the page erase, the page fills
and the page write, with no EEPROM write.  If the tag is any other value and
the length is odd, `writebuffer` issues the page erase and page fills only and
never returns: no page write and no EEPROM write is issued. -/
theorem writebuffer_path_by_tag (cfg : Config) (fuel : Nat) (hf : 65536 ≤ fuel)
    (memtype mybuff address len : Nat) (s : State) (hm : memtype < 256)
    (hlt : len < cfg.lenMod) :
    (memtype = 69 →
      ∃ s', writebuffer cfg fuel memtype mybuff address len s = .ok () s' ∧
        s'.log = s.log ++ eeEvents s.ram mybuff address len ∧
        (eeEvents s.ram mybuff address len).length = len ∧
        (∀ e ∈ eeEvents s.ram mybuff address len,
          e.isEepromWrite = true ∧ e.isFlashOp = false) ∧
        s'.flash = s.flash ∧ s'.latch = s.latch) ∧
    (memtype ≠ 69 → len % 2 = 0 →
      ∃ s', writebuffer cfg fuel memtype mybuff address len s = .ok () s' ∧
        s'.log = s.log ++ [Event.pageErase address, Event.spmBusyWait] ++
          fillEvents s.ram mybuff address (dwIters cfg.lenMod len / 2) ++
          [Event.pageWrite address, Event.spmBusyWait] ++
          (if cfg.RWWSRE then [Event.rwwEnable] else []) ∧
        (fillEvents s.ram mybuff address (dwIters cfg.lenMod len / 2)).length =
          dwIters cfg.lenMod len / 2 ∧
        (∀ e ∈ fillEvents s.ram mybuff address (dwIters cfg.lenMod len / 2),
          ∃ a w, e = Event.pageFill a w) ∧
        s'.eeprom = s.eeprom) ∧
    (memtype ≠ 69 → len % 2 = 1 →
      ∃ s' fills, writebuffer cfg fuel memtype mybuff address len s = .stop .fuel s' ∧
        s'.log = s.log ++ [Event.pageErase address, Event.spmBusyWait] ++ fills ∧
        (∀ e ∈ fills, ∃ a w, e = Event.pageFill a w) ∧
        s'.eeprom = s.eeprom) := by
  have hM := lenMod_le cfg
  have hmm : memtype % 256 = memtype := Nat.mod_eq_of_lt hm
  refine ⟨?_, ?_, ?_⟩
  · intro hE
    refine ⟨_, writebuffer_ee cfg fuel memtype mybuff address len s
      ((toInt8_eq _).mpr (by rw [hmm, hE])) hlt (by omega), rfl, eeEvents_length _ _ _ _, ?_,
      rfl, rfl⟩
    intro e he
    obtain ⟨x, y, rfl⟩ := eeEvents_are_writes _ _ _ _ e he
    exact ⟨rfl, rfl⟩
  · intro hE hev
    obtain ⟨hk0, hk1, hk2⟩ := half_iters cfg len hlt hev
    exact ⟨_, writebuffer_flash cfg fuel memtype mybuff address len _ s
      (fun h => hE (by rw [← hmm]; exact (toInt8_eq _).mp h)) hlt hk0 hk1 (by omega), rfl,
      fillEvents_length _ _ _ _, fillEvents_are_fills _ _ _ _, rfl⟩
  · intro hE hodd
    obtain ⟨s', tail, hs', -, -, hee, hlog, htail⟩ :=
      writebuffer_flash_odd cfg fuel memtype mybuff address len s
        (fun h => hE (by rw [← hmm]; exact (toInt8_eq _).mp h)) hodd
    exact ⟨s', tail, hs', hlog, htail, hee⟩

/-- Witness of C10: tag 'F', two bytes, on the ATmega328P. -/
theorem writebuffer_path_by_tag_witness :
    ((0x46 : Nat) = 69 →
      ∃ s', writebuffer atmega328p 65536 0x46 0x100 0 2 (State.fresh []) = .ok () s' ∧
        s'.log = (State.fresh []).log ++ eeEvents (State.fresh []).ram 0x100 0 2 ∧
        (eeEvents (State.fresh []).ram 0x100 0 2).length = 2 ∧
        (∀ e ∈ eeEvents (State.fresh []).ram 0x100 0 2,
          e.isEepromWrite = true ∧ e.isFlashOp = false) ∧
        s'.flash = (State.fresh []).flash ∧ s'.latch = (State.fresh []).latch) ∧
    ((0x46 : Nat) ≠ 69 → 2 % 2 = 0 →
      ∃ s', writebuffer atmega328p 65536 0x46 0x100 0 2 (State.fresh []) = .ok () s' ∧
        s'.log = (State.fresh []).log ++ [Event.pageErase 0, Event.spmBusyWait] ++
          fillEvents (State.fresh []).ram 0x100 0 (dwIters atmega328p.lenMod 2 / 2) ++
          [Event.pageWrite 0, Event.spmBusyWait] ++
          (if atmega328p.RWWSRE then [Event.rwwEnable] else []) ∧
        (fillEvents (State.fresh []).ram 0x100 0 (dwIters atmega328p.lenMod 2 / 2)).length =
          dwIters atmega328p.lenMod 2 / 2 ∧
        (∀ e ∈ fillEvents (State.fresh []).ram 0x100 0 (dwIters atmega328p.lenMod 2 / 2),
          ∃ a w, e = Event.pageFill a w) ∧
        s'.eeprom = (State.fresh []).eeprom) ∧
    ((0x46 : Nat) ≠ 69 → 2 % 2 = 1 →
      ∃ s' fills, writebuffer atmega328p 65536 0x46 0x100 0 2 (State.fresh []) =
          .stop .fuel s' ∧
        s'.log = (State.fresh []).log ++ [Event.pageErase 0, Event.spmBusyWait] ++ fills ∧
        (∀ e ∈ fills, ∃ a w, e = Event.pageFill a w) ∧
        s'.eeprom = (State.fresh []).eeprom) :=
  writebuffer_path_by_tag atmega328p 65536 (Nat.le_refl _) 0x46 0x100 0 2 (State.fresh [])
    (by decide) (by decide)

/-- C10 (counterexample): on the ATmega328P, `writebuffer` with tag 'F' and
length 1 never issues the page write, whatever the fuel: the flash sequence is
not completed. -/
theorem writebuffer_odd_length_never_commits :
    ¬ ∃ fuel a, Event.pageWrite a ∈
        (writebuffer atmega328p fuel 0x46 0x100 0 1 (State.fresh [])).state.log := by
  rintro ⟨fuel, a, h⟩
  obtain ⟨s', tail, hs', -, -, -, hlog, htail⟩ :=
    writebuffer_flash_odd atmega328p fuel 0x46 0x100 0 1 (State.fresh []) (by decide)
      (by decide)
  rw [hs'] at h
  simp only [Res.state, hlog, State.fresh, List.nil_append, List.mem_append, List.mem_cons,
    List.mem_singleton, List.not_mem_nil, or_false] at h
  rcases h with (h | h) | h
  · cases h
  · cases h
  · obtain ⟨x, w, hx⟩ := htail _ h
    cases hx

/-! ## What a piece of the program leaves alone -/

theorem keeps_bind {α β γ : Type} {f : State → γ} (m : M α) (g : α → M β)
    (hm : Keeps f m) (hg : ∀ a, Keeps f (g a)) : Keeps f (m >>= g) := by
  intro s
  rw [bind_run]
  have h := hm s
  revert h
  cases m s with
  | ok a s' => intro h; simp only []; rw [hg a s']; exact h
  | stop r s' => intro h; exact h

theorem keeps_pure {α γ : Type} {f : State → γ} (a : α) : Keeps f (pure a : M α) :=
  fun _ => rfl

theorem keeps_halt {α γ : Type} {f : State → γ} (h : Halt) : Keeps f (halt h : M α) :=
  fun _ => rfl

theorem keeps_ite {α γ : Type} {f : State → γ} (c : Prop) [Decidable c] (a b : M α)
    (ha : Keeps f a) (hb : Keeps f b) : Keeps f (if c then a else b) := by
  split_ifs
  · exact ha
  · exact hb

theorem keeps_getState {γ : Type} {f : State → γ} : Keeps f getState := fun _ => rfl

/-- The observations that `writebuffer` leaves alone. -/
theorem keeps_eeLoop (cfg : Config) :
    ∀ (fuel mybuff address len : Nat),
      Keeps (fun s => (s.input, s.ram, s.address, s.out, s.flash, s.latch, s.wdtcsr))
        (writebuffer.eeLoop cfg fuel mybuff address len) := by
  intro fuel
  induction fuel with
  | zero => intro _ _ _; exact keeps_halt _
  | succ fuel ih =>
    intro mybuff address len
    unfold writebuffer.eeLoop
    apply keeps_ite
    · refine keeps_bind _ _ (fun _ => rfl) (fun v => ?_)
      refine keeps_bind _ _ (fun _ => rfl) (fun _ => ?_)
      exact ih _ _ _
    · exact keeps_pure _

theorem keeps_fillLoop (cfg : Config) :
    ∀ (fuel bufPtr addrPtr len : Nat),
      Keeps (fun s => (s.input, s.ram, s.address, s.out, s.flash, s.eeprom, s.wdtcsr))
        (writebuffer.fillLoop cfg fuel bufPtr addrPtr len) := by
  intro fuel
  induction fuel with
  | zero => intro _ _ _; exact keeps_halt _
  | succ fuel ih =>
    intro bufPtr addrPtr len
    unfold writebuffer.fillLoop
    refine keeps_bind _ _ (fun _ => rfl) (fun a => ?_)
    refine keeps_bind _ _ (fun _ => rfl) (fun b => ?_)
    refine keeps_bind _ _ (fun _ => rfl) (fun _ => ?_)
    apply keeps_ite
    · exact ih _ _ _
    · exact keeps_pure _


theorem keeps_weaken {α β γ : Type} (f : State → β) (g : State → γ) (m : M α)
    (hfg : ∀ s s', f s = f s' → g s = g s') (h : Keeps f m) : Keeps g m :=
  fun s => hfg _ _ (h s)

theorem keeps_writebuffer (cfg : Config) (fuel memtype mybuff address len : Nat) :
    Keeps (fun s => (s.input, s.ram, s.address, s.out, s.wdtcsr))
      (writebuffer cfg fuel memtype mybuff address len) := by
  unfold writebuffer
  apply keeps_ite
  · exact keeps_weaken _ _ _ (fun s s' h => by simp only [Prod.mk.injEq] at h ⊢; tauto)
      (keeps_eeLoop cfg fuel mybuff address len)
  · refine keeps_bind _ _ (fun _ => rfl) (fun _ => ?_)
    refine keeps_bind _ _ (fun _ => rfl) (fun _ => ?_)
    refine keeps_bind _ _ (keeps_weaken _ _ _
      (fun s s' h => by simp only [Prod.mk.injEq] at h ⊢; tauto)
      (keeps_fillLoop cfg fuel mybuff address len)) (fun _ => ?_)
    refine keeps_bind _ _ (fun _ => rfl) (fun _ => ?_)
    refine keeps_bind _ _ (fun _ => rfl) (fun _ => ?_)
    apply keeps_ite
    · exact fun _ => rfl
    · exact keeps_pure _

theorem keeps_getch (cfg : Config) : Keeps State.address (getch cfg) := by
  intro s
  cases h : s.input with
  | nil => rw [getch_nil cfg s h]; rfl
  | cons b rest => rw [getch_cons cfg s b rest h]; rfl

theorem keeps_putch (ch : Nat) : Keeps State.address (putch ch) := fun _ => rfl

theorem keeps_verifySpace (cfg : Config) : Keeps State.address (verifySpace cfg) := by
  unfold verifySpace
  refine keeps_bind _ _ (keeps_getch cfg) (fun c => ?_)
  dsimp only
  apply keeps_ite
  · refine keeps_bind _ _ (fun _ => rfl) (fun _ => ?_)
    exact keeps_bind _ _ (keeps_halt _) (fun _ => keeps_putch _)
  · exact keeps_bind _ _ (keeps_pure _) (fun _ => keeps_putch _)

theorem keeps_getNch_loop (cfg : Config) :
    ∀ (fuel count : Nat), Keeps State.address (getNch.loop cfg fuel count) := by
  intro fuel
  induction fuel with
  | zero => intro _; exact keeps_halt _
  | succ fuel ih =>
    intro count
    unfold getNch.loop
    refine keeps_bind _ _ (keeps_getch cfg) (fun _ => ?_)
    apply keeps_ite
    · exact ih _
    · exact keeps_pure _

theorem keeps_getNch (cfg : Config) (fuel count : Nat) :
    Keeps State.address (getNch cfg fuel count) := by
  unfold getNch
  exact keeps_bind _ _ (keeps_getNch_loop cfg fuel _) (fun _ => keeps_verifySpace cfg)

theorem keeps_GETLENGTH (cfg : Config) : Keeps State.address (GETLENGTH cfg) := by
  unfold GETLENGTH
  apply keeps_ite
  · refine keeps_bind _ _ (keeps_getch cfg) (fun _ => ?_)
    exact keeps_bind _ _ (keeps_getch cfg) (fun _ => keeps_pure _)
  · refine keeps_bind _ _ (keeps_getch cfg) (fun _ => ?_)
    exact keeps_bind _ _ (keeps_getch cfg) (fun _ => keeps_pure _)

theorem keeps_progRecv (cfg : Config) :
    ∀ (fuel bufPtr length : Nat), Keeps State.address (progRecv cfg fuel bufPtr length) := by
  intro fuel
  induction fuel with
  | zero => intro _ _; exact keeps_halt _
  | succ fuel ih =>
    intro bufPtr length
    unfold progRecv
    refine keeps_bind _ _ (keeps_getch cfg) (fun _ => ?_)
    refine keeps_bind _ _ (fun _ => rfl) (fun _ => ?_)
    apply keeps_ite
    · exact ih _ _
    · exact keeps_pure _

theorem keeps_read_eeLoop (cfg : Config) :
    ∀ (fuel address length : Nat),
      Keeps State.address (read_mem.eeLoop cfg fuel address length) := by
  intro fuel
  induction fuel with
  | zero => intro _ _; exact keeps_halt _
  | succ fuel ih =>
    intro address length
    unfold read_mem.eeLoop
    refine keeps_bind _ _ (fun _ => rfl) (fun _ => ?_)
    refine keeps_bind _ _ (keeps_putch _) (fun _ => ?_)
    apply keeps_ite
    · exact ih _ _
    · exact keeps_pure _

theorem keeps_read_flashLoop (cfg : Config) :
    ∀ (fuel address length : Nat),
      Keeps State.address (read_mem.flashLoop cfg fuel address length) := by
  intro fuel
  induction fuel with
  | zero => intro _ _; exact keeps_halt _
  | succ fuel ih =>
    intro address length
    unfold read_mem.flashLoop
    apply keeps_ite
    · refine keeps_bind _ _ (fun _ => rfl) (fun _ => ?_)
      refine keeps_bind _ _ (keeps_putch _) (fun _ => ?_)
      apply keeps_ite
      · exact ih _ _
      · exact keeps_pure _
    · refine keeps_bind _ _ (fun _ => rfl) (fun _ => ?_)
      refine keeps_bind _ _ (keeps_putch _) (fun _ => ?_)
      apply keeps_ite
      · exact ih _ _
      · exact keeps_pure _

theorem keeps_read_mem (cfg : Config) (fuel memtype address length : Nat) :
    Keeps State.address (read_mem cfg fuel memtype address length) := by
  unfold read_mem
  split_ifs
  · exact keeps_read_eeLoop cfg fuel address length
  · exact keeps_read_flashLoop cfg fuel address length

theorem keeps_writebuffer_address (cfg : Config) (fuel memtype mybuff address len : Nat) :
    Keeps State.address (writebuffer cfg fuel memtype mybuff address len) :=
  keeps_weaken _ _ _ (fun s s' h => by simp only [Prod.mk.injEq] at h; exact h.2.2.1)
    (keeps_writebuffer cfg fuel memtype mybuff address len)

theorem keeps_watchdogConfig (x : Nat) : Keeps State.address (watchdogConfig x) :=
  fun _ => rfl

theorem step_keeps_address (cfg : Config) (fuel : Nat) (s : State)
    (h : ∀ b rest, s.input = b :: rest → b.data % 256 ≠ cfg.STK_LOAD_ADDRESS) :
    (step cfg fuel s).state.address = s.address := by
  cases hin : s.input with
  | nil =>
    unfold step
    rw [bind_run, getch_nil cfg s hin]
    rfl
  | cons b rest =>
    have hb := h b rest hin
    unfold step
    rw [bind_run, getch_rxd cfg s b rest hin]
    simp only []
    refine (?_ : Keeps State.address _) (s.rxd cfg [b] rest)
    split_ifs <;>
    repeat' first
        | exact keeps_putch _
        | exact keeps_getch cfg
        | exact keeps_verifySpace cfg
        | exact keeps_getNch cfg _ _
        | exact keeps_GETLENGTH cfg
        | exact keeps_progRecv cfg _ _ _
        | exact keeps_read_mem cfg _ _ _ _
        | exact keeps_writebuffer_address cfg _ _ _ _ _
        | exact keeps_watchdogConfig _
        | exact keeps_pure _
        | exact keeps_getState
        | apply keeps_bind
        | apply keeps_ite
        | intro _

/-! ## Commands that leave the device as it was -/

/-- C11: every opcode byte outside the nine of the dispatch chain, followed by
CRC_EOP, is answered with exactly STK_INSYNC, STK_OK, and the pass leaves
`address`, code memory, the page latch, EEPROM and `WDTCSR` as they were; the
two bytes are all it takes off the line and no memory operation is issued. -/
theorem unknown_opcode_is_acknowledged (cfg : Config) (hwf : cfg.WF) (fuel : Nat) (s : State)
    (op t : Rx) (rest : List Rx) (hin : s.input = op :: t :: rest)
    (hop : op.data % 256 ∉ cfg.opcodes) (ht : t.data % 256 = cfg.CRC_EOP) :
    ∃ s', step cfg fuel s = .ok () s' ∧ s'.input = rest ∧
      s'.out = s.out ++ [cfg.STK_INSYNC, cfg.STK_OK] ∧
      s'.address = s.address ∧ s'.flash = s.flash ∧ s'.latch = s.latch ∧
      s'.eeprom = s.eeprom ∧ s'.wdtcsr = s.wdtcsr ∧
      s'.log = s.log ++ rxEvents cfg [op, t] ++ [Event.tx cfg.STK_INSYNC, Event.tx cfg.STK_OK] := by
  have hi := Nat.mod_eq_of_lt hwf.insync_lt
  have ho := Nat.mod_eq_of_lt hwf.ok_lt
  have hstep := step_other cfg fuel s op t rest hin hop
  rw [if_pos ht] at hstep
  exact ⟨_, hstep, rfl, by simp [hi, ho], rfl, rfl, rfl, rfl, rfl,
    by simp [State.sent, State.rxd, hi, ho]⟩

/-- Witness of C11: the opcode 0x30 (Get Sync) on the ATmega328P. -/
theorem unknown_opcode_is_acknowledged_witness :
    ∃ s', step atmega328p 0 (State.fresh (line [0x30, 0x20, 0x41])) = .ok () s' ∧
      s'.input = line [0x41] ∧
      s'.out = (State.fresh (line [0x30, 0x20, 0x41])).out ++
        [atmega328p.STK_INSYNC, atmega328p.STK_OK] ∧
      s'.address = (State.fresh (line [0x30, 0x20, 0x41])).address ∧
      s'.flash = (State.fresh (line [0x30, 0x20, 0x41])).flash ∧
      s'.latch = (State.fresh (line [0x30, 0x20, 0x41])).latch ∧
      s'.eeprom = (State.fresh (line [0x30, 0x20, 0x41])).eeprom ∧
      s'.wdtcsr = (State.fresh (line [0x30, 0x20, 0x41])).wdtcsr ∧
      s'.log = (State.fresh (line [0x30, 0x20, 0x41])).log ++
        rxEvents atmega328p [⟨0x30, false⟩, ⟨0x20, false⟩] ++
        [Event.tx atmega328p.STK_INSYNC, Event.tx atmega328p.STK_OK] :=
  unknown_opcode_is_acknowledged atmega328p atmega328p_wf 0
    (State.fresh (line [0x30, 0x20, 0x41])) ⟨0x30, false⟩ ⟨0x20, false⟩ (line [0x41]) rfl
    (by decide) (by decide)

/-- C14: a pass of the dispatch loop whose opcode byte is not Load Address
ends with `address` as it was, whatever follows on the line and whether or not
the pass returns: so for every Program Page frame of either memory type, every
Read Page, Get Parameter, Set Device, Set Device (extended), Universal, Read
Signature, Leave Program Mode and unknown-opcode frame. -/
theorem address_changes_only_on_load_address (cfg : Config) (fuel : Nat) (s : State)
    (op : Rx) (rest : List Rx) (hin : s.input = op :: rest)
    (hop : op.data % 256 ≠ cfg.STK_LOAD_ADDRESS) :
    (step cfg fuel s).state.address = s.address := by
  apply step_keeps_address
  intro b r hb
  rw [hin] at hb
  cases hb
  exact hop

/-- Witness of C14: Leave Program Mode on the ATmega328P with `address` at
0x1234. -/
theorem address_changes_only_on_load_address_witness :
    (step atmega328p 0 ((State.fresh (line [0x51, 0x20])).withAddress 0x1234)).state.address =
      0x1234 :=
  address_changes_only_on_load_address atmega328p 0
    ((State.fresh (line [0x51, 0x20])).withAddress 0x1234) ⟨0x51, false⟩ (line [0x20]) rfl
    (by decide)

/-- C16: a Leave Program Mode frame closed by CRC_EOP puts WATCHDOG_16MS in
`WDTCSR`, before the terminator is read, replies exactly STK_INSYNC, STK_OK,
and leaves `address`, code memory, the page latch and EEPROM as they were. -/
theorem leave_progmode_arms_watchdog (cfg : Config) (hwf : cfg.WF) (fuel : Nat) (s : State)
    (op t : Rx) (rest : List Rx) (hin : s.input = op :: t :: rest)
    (hop : op.data % 256 = cfg.STK_LEAVE_PROGMODE) (ht : t.data % 256 = cfg.CRC_EOP) :
    ∃ s', step cfg fuel s = .ok () s' ∧ s'.input = rest ∧
      s'.wdtcsr = cfg.WATCHDOG_16MS % 256 ∧
      s'.out = s.out ++ [cfg.STK_INSYNC, cfg.STK_OK] ∧
      s'.address = s.address ∧ s'.flash = s.flash ∧ s'.latch = s.latch ∧
      s'.eeprom = s.eeprom ∧
      s'.log = s.log ++ rxEvents cfg [op] ++ [Event.wdtcsr (cfg.WATCHDOG_16MS % 256)] ++
        rxEvents cfg [t] ++ [Event.tx cfg.STK_INSYNC, Event.tx cfg.STK_OK] := by
  have hi := Nat.mod_eq_of_lt hwf.insync_lt
  have ho := Nat.mod_eq_of_lt hwf.ok_lt
  have hstep := step_leave cfg hwf fuel s op t rest hin hop
  rw [if_pos ht] at hstep
  exact ⟨_, hstep, rfl, rfl, by simp [hi, ho], rfl, rfl, rfl, rfl,
    by simp [State.sent, State.rxd, State.hung, hi, ho]⟩

/-- Witness of C16: the frame 0x51, 0x20 on the ATmega328P, where
WATCHDOG_16MS is the single bit WDE. -/
theorem leave_progmode_arms_watchdog_witness :
    ∃ s', step atmega328p 0 (State.fresh (line [0x51, 0x20])) = .ok () s' ∧ s'.input = [] ∧
      s'.wdtcsr = atmega328p.WATCHDOG_16MS % 256 ∧
      s'.out = (State.fresh (line [0x51, 0x20])).out ++
        [atmega328p.STK_INSYNC, atmega328p.STK_OK] ∧
      s'.address = (State.fresh (line [0x51, 0x20])).address ∧
      s'.flash = (State.fresh (line [0x51, 0x20])).flash ∧
      s'.latch = (State.fresh (line [0x51, 0x20])).latch ∧
      s'.eeprom = (State.fresh (line [0x51, 0x20])).eeprom ∧
      s'.log = (State.fresh (line [0x51, 0x20])).log ++ rxEvents atmega328p [⟨0x51, false⟩] ++
        [Event.wdtcsr (atmega328p.WATCHDOG_16MS % 256)] ++
        rxEvents atmega328p [⟨0x20, false⟩] ++
        [Event.tx atmega328p.STK_INSYNC, Event.tx atmega328p.STK_OK] :=
  leave_progmode_arms_watchdog atmega328p atmega328p_wf 0 (State.fresh (line [0x51, 0x20]))
    ⟨0x51, false⟩ ⟨0x20, false⟩ [] rfl (by decide) (by decide)

/-! ## What a pass takes off the line before it answers -/

theorem rxEvents_filter_rx (cfg : Config) (bs : List Rx) :
    (rxEvents cfg bs).filter Event.isRx = bs.map fun b => Event.rx (b.data % 256) := by
  induction bs with
  | nil => rfl
  | cons b bs ih =>
    simp only [rxEvents, rxLog, List.filter_append, ih, List.map_cons]
    split_ifs <;> simp [Event.isRx]

theorem rxEvents_no_tx (cfg : Config) (bs : List Rx) :
    ∀ e ∈ rxEvents cfg bs, e.isTx = false := by
  induction bs with
  | nil => intro e he; simp [rxEvents] at he
  | cons b bs ih =>
    intro e he
    simp only [rxEvents, rxLog, List.mem_append] at he
    rcases he with (he | he) | he
    · split_ifs at he
      · simp at he
      · simp at he; subst he; rfl
      · simp at he
    · simp at he; subst he; rfl
    · exact ih e he

theorem tx_no_rx (bytes : List Nat) : ∀ e ∈ bytes.map Event.tx, e.isRx = false := by
  intro e he
  obtain ⟨b, _, rfl⟩ := List.mem_map.1 he
  rfl

/-- A run that ends either with a reply sent from the state `X` or hung in
`verifySpace` from `X`, where `X` has taken exactly `frame` off the line, has
received all of `frame` before it sent anything. -/
theorem reply_after_frame (cfg : Config) (s X : State) (frame rest : List Rx)
    (bytes : List Nat) (c : Prop) [Decidable c] (r : Res Unit)
    (hr : r = if c then .ok () (X.sent bytes) else .stop .desync (X.hung cfg))
    (hin : X.input = rest) (hlog : X.log = s.log ++ rxEvents cfg frame) :
    ∃ pre post, r.state.input = rest ∧ r.state.log = s.log ++ pre ++ post ∧
      pre.filter Event.isRx = frame.map (fun b => Event.rx (b.data % 256)) ∧
      (∀ e ∈ pre, e.isTx = false) ∧ ∀ e ∈ post, e.isRx = false := by
  subst hr
  split_ifs
  · refine ⟨rxEvents cfg frame, bytes.map Event.tx, hin, ?_, rxEvents_filter_rx cfg frame,
      rxEvents_no_tx cfg frame, tx_no_rx bytes⟩
    simp [Res.state, State.sent, hlog]
  · refine ⟨rxEvents cfg frame, [Event.wdtcsr (cfg.WATCHDOG_16MS % 256)], hin, ?_,
      rxEvents_filter_rx cfg frame, rxEvents_no_tx cfg frame, ?_⟩
    · simp [Res.state, State.hung, hlog]
    · intro e he
      simp at he
      subst he
      rfl

/-- C12: one pass of the dispatch loop on a fixed-length command takes exactly
the opcode byte, the `fixedParams` parameter bytes and one terminator byte off
the line, whatever those bytes are, and every one of them has been received
before the first reply byte is sent: the log of the pass splits into a part
that holds all the receipts and no send, and a part without any receipt. -/
theorem fixed_length_command_consumes_frame (cfg : Config) (hwf : cfg.WF) (fuel : Nat)
    (hf : 65536 ≤ fuel) (s : State) (op t : Rx) (ps rest : List Rx)
    (hin : s.input = op :: (ps ++ t :: rest))
    (hop : op.data % 256 ≠ cfg.STK_PROG_PAGE)
    (hps : ps.length = fixedParams cfg (op.data % 256)) :
    ∃ pre post, (step cfg fuel s).state.input = rest ∧
      (step cfg fuel s).state.log = s.log ++ pre ++ post ∧
      pre.filter Event.isRx = (op :: ps ++ [t]).map (fun b => Event.rx (b.data % 256)) ∧
      (∀ e ∈ pre, e.isTx = false) ∧ ∀ e ∈ post, e.isRx = false := by
  unfold fixedParams at hps
  split_ifs at hps with h0 h1 h2 h3 h4 h5
  · match ps, hps with
    | [which], _ =>
      exact reply_after_frame cfg s _ [op, which, t] rest _ _ _
        (step_getParameter cfg fuel s op which t rest hin h0) rfl rfl
  · exact reply_after_frame cfg s _ (op :: ps ++ [t]) rest _ _ _
      (step_setDevice cfg hwf fuel s op t ps rest hin hps h1 hf) rfl rfl
  · exact reply_after_frame cfg s _ (op :: ps ++ [t]) rest _ _ _
      (step_setDeviceExt cfg hwf fuel s op t ps rest hin hps h2 hf) rfl rfl
  · match ps, hps with
    | [lo, hi], _ =>
      exact reply_after_frame cfg s _ [op, lo, hi, t] rest _ _ _
        (step_loadAddress cfg hwf fuel s op lo hi t rest hin h3) rfl rfl
  · exact reply_after_frame cfg s _ (op :: ps ++ [t]) rest _ _ _
      (step_universal cfg hwf fuel s op t ps rest hin hps h4 hf) rfl rfl
  · match ps, hps with
    | [hi, lo, tag], _ =>
      have hstep := step_readPage cfg hwf fuel s op hi lo tag t rest hin h5
      have hlt := lenOf_lt cfg hi.data lo.data
      have hpos := dwIters_pos cfg (lenOf cfg hi.data lo.data)
      have hle := dwIters_le cfg (lenOf cfg hi.data lo.data) hlt
      by_cases hc : (cfg.SUPPORT_EEPROM || cfg.BIGBOOT) = true ∧ tag.data % 256 % 256 = 69
      · rw [read_mem_ee cfg fuel (tag.data % 256) s.address _ _ _ hc.1 hc.2 hlt rfl hpos
          (by omega)] at hstep
        simp only [sent_sent] at hstep
        exact reply_after_frame cfg s _ [op, hi, lo, tag, t] rest _ _ _ hstep rfl rfl
      · rw [read_mem_flash cfg fuel (tag.data % 256) s.address _ _ _ hc hlt rfl hpos
          (by omega)] at hstep
        simp only [sent_sent] at hstep
        exact reply_after_frame cfg s _ [op, hi, lo, tag, t] rest _ _ _ hstep rfl rfl
  · match ps, hps with
    | [], _ =>
      by_cases h7 : op.data % 256 = cfg.STK_READ_SIGN
      · exact reply_after_frame cfg s _ [op, t] rest _ _ _
          (step_readSign cfg hwf fuel s op t rest hin h7) rfl rfl
      by_cases h8 : op.data % 256 = cfg.STK_LEAVE_PROGMODE
      · rw [step_leave cfg hwf fuel s op t rest hin h8]
        split_ifs
        · refine ⟨rxEvents cfg [op] ++ [Event.wdtcsr (cfg.WATCHDOG_16MS % 256)] ++
            rxEvents cfg [t], [cfg.STK_INSYNC % 256, cfg.STK_OK % 256].map Event.tx, rfl, ?_,
            ?_, ?_, tx_no_rx _⟩
          · simp [Res.state, State.sent, State.rxd, State.hung]
          · simp [List.filter_append, rxEvents_filter_rx, Event.isRx]
          · intro e he
            simp only [List.mem_append, List.mem_singleton] at he
            rcases he with (he | he) | he
            · exact rxEvents_no_tx cfg _ e he
            · subst he; rfl
            · exact rxEvents_no_tx cfg _ e he
        · refine ⟨rxEvents cfg [op] ++ [Event.wdtcsr (cfg.WATCHDOG_16MS % 256)] ++
            rxEvents cfg [t], [Event.wdtcsr (cfg.WATCHDOG_16MS % 256)], rfl, ?_, ?_, ?_, ?_⟩
          · simp [Res.state, State.rxd, State.hung]
          · simp [List.filter_append, rxEvents_filter_rx, Event.isRx]
          · intro e he
            simp only [List.mem_append, List.mem_singleton] at he
            rcases he with (he | he) | he
            · exact rxEvents_no_tx cfg _ e he
            · subst he; rfl
            · exact rxEvents_no_tx cfg _ e he
          · intro e he
            simp at he
            subst he
            rfl
      · have hother : op.data % 256 ∉ cfg.opcodes := by
          simp [Config.opcodes, h0, h1, h2, h3, h4, h5, h7, h8, hop]
        exact reply_after_frame cfg s _ [op, t] rest _ _ _
          (step_other cfg fuel s op t rest hin hother) rfl rfl

/-- Witness of C12: Set Device on the ATmega328P, twenty parameter bytes, with
a wrong terminator and one more byte behind it. -/
theorem fixed_length_command_consumes_frame_witness :
    ∃ pre post,
      (step atmega328p 65536
        (State.fresh (line (0x42 :: List.replicate 20 0x07 ++ 0x21 :: [0x30])))).state.input =
          line [0x30] ∧
      (step atmega328p 65536
        (State.fresh (line (0x42 :: List.replicate 20 0x07 ++ 0x21 :: [0x30])))).state.log =
        (State.fresh (line (0x42 :: List.replicate 20 0x07 ++ 0x21 :: [0x30]))).log ++ pre ++
          post ∧
      pre.filter Event.isRx =
        List.map (fun b : Rx => Event.rx (b.data % 256))
          ((⟨0x42, false⟩ : Rx) :: line (List.replicate 20 0x07) ++ [(⟨0x21, false⟩ : Rx)]) ∧
      (∀ e ∈ pre, e.isTx = false) ∧ ∀ e ∈ post, e.isRx = false :=
  fixed_length_command_consumes_frame atmega328p atmega328p_wf 65536 (le_refl _)
    (State.fresh (line (0x42 :: List.replicate 20 0x07 ++ 0x21 :: [0x30])))
    ⟨0x42, false⟩ ⟨0x21, false⟩ (line (List.replicate 20 0x07)) (line [0x30])
    (by simp [State.fresh, line]) (by decide) (by decide)

/-! ## The watchdog pulse of `getch` -/

/-- C17, amended: `getch` returns the received byte as it is in `UDR0`, takes
exactly that one byte off the line without reading again, and pulses the
watchdog exactly when it runs on the hardware UART and the framing-error flag
FE0 of the byte is clear; when FE0 is set, and always on the soft UART, there
is no pulse.  Nothing else of the state changes. -/
theorem getch_pulses_watchdog_unless_framing_error (cfg : Config) (s : State) (b : Rx)
    (rest : List Rx) (hin : s.input = b :: rest) :
    ∃ s', getch cfg s = .ok (b.data % 256) s' ∧ s'.input = rest ∧
      s'.log = s.log ++
        (if cfg.SOFT_UART = false ∧ b.fe = false then [Event.wdr] else []) ++
        [Event.rx (b.data % 256)] ∧
      s'.out = s.out ∧ s'.address = s.address ∧ s'.flash = s.flash ∧
      s'.eeprom = s.eeprom ∧ s'.wdtcsr = s.wdtcsr := by
  refine ⟨_, getch_rxd cfg s b rest hin, rfl, ?_, rfl, rfl, rfl, rfl, rfl⟩
  obtain ⟨d, fe⟩ := b
  cases hs : cfg.SOFT_UART <;> cases fe <;> simp [State.rxd, rxEvents, rxLog, hs]

/-- Witness of C17, amended: a byte received without framing error on the
ATmega328P. -/
theorem getch_pulses_watchdog_unless_framing_error_witness :
    ∃ s', getch atmega328p (State.fresh [⟨0x30, false⟩, ⟨0x20, false⟩]) = .ok (0x30 % 256) s' ∧
      s'.input = [⟨0x20, false⟩] ∧
      s'.log = (State.fresh [⟨0x30, false⟩, ⟨0x20, false⟩]).log ++
        (if atmega328p.SOFT_UART = false ∧ false = false then [Event.wdr] else []) ++
        [Event.rx (0x30 % 256)] ∧
      s'.out = (State.fresh [⟨0x30, false⟩, ⟨0x20, false⟩]).out ∧
      s'.address = (State.fresh [⟨0x30, false⟩, ⟨0x20, false⟩]).address ∧
      s'.flash = (State.fresh [⟨0x30, false⟩, ⟨0x20, false⟩]).flash ∧
      s'.eeprom = (State.fresh [⟨0x30, false⟩, ⟨0x20, false⟩]).eeprom ∧
      s'.wdtcsr = (State.fresh [⟨0x30, false⟩, ⟨0x20, false⟩]).wdtcsr :=
  getch_pulses_watchdog_unless_framing_error atmega328p
    (State.fresh [⟨0x30, false⟩, ⟨0x20, false⟩]) ⟨0x30, false⟩ [⟨0x20, false⟩] rfl

/-- Counterexample to C17 as stated: on the ATmega328P a byte that arrives
with FE0 set is returned without any watchdog pulse, while the same byte with
FE0 clear is preceded by one. -/
theorem getch_framing_error_is_not_pulsed :
    (∃ s', getch atmega328p (State.fresh [⟨0x30, true⟩]) = .ok 0x30 s' ∧
      s'.log = [Event.rx 0x30] ∧ Event.wdr ∉ s'.log) ∧
    (∃ s', getch atmega328p (State.fresh [⟨0x30, false⟩]) = .ok 0x30 s' ∧
      s'.log = [Event.wdr, Event.rx 0x30]) :=
  ⟨⟨_, rfl, rfl, by decide⟩, ⟨_, rfl, rfl⟩⟩

/-! ## Read Page as one equation -/

theorem eeBytes_length (ee : Nat → Nat) : ∀ (n a : Nat), (eeBytes ee a n).length = n := by
  intro n
  induction n with
  | zero => intro _; rfl
  | succ n ih => intro a; simp [eeBytes, ih]

theorem flashBytes_length (cfg : Config) (flash : Nat → Nat) :
    ∀ (n a : Nat), (flashBytes cfg flash a n).length = n := by
  intro n
  induction n with
  | zero => intro _; rfl
  | succ n ih =>
    intro a
    unfold flashBytes
    split_ifs <;> simp [ih]

theorem readBytes_length (cfg : Config) (s : State) (memtype address n : Nat) :
    (readBytes cfg s memtype address n).length = n := by
  unfold readBytes
  split_ifs
  · exact eeBytes_length _ _ _
  · exact flashBytes_length _ _ _ _

theorem step_readPage_ok (cfg : Config) (hwf : cfg.WF) (fuel : Nat) (hf : 65536 ≤ fuel)
    (s : State) (op hi lo tag t : Rx) (rest : List Rx)
    (h : s.input = op :: hi :: lo :: tag :: t :: rest)
    (hop : op.data % 256 = cfg.STK_READ_PAGE) (ht : t.data % 256 = cfg.CRC_EOP) :
    step cfg fuel s = .ok () ((s.rxd cfg [op, hi, lo, tag, t] rest).sent
      ([cfg.STK_INSYNC % 256] ++
        readBytes cfg s (tag.data % 256) s.address
          (dwIters cfg.lenMod (lenOf cfg hi.data lo.data)) ++ [cfg.STK_OK % 256])) := by
  have hstep := step_readPage cfg hwf fuel s op hi lo tag t rest h hop
  have hlt := lenOf_lt cfg hi.data lo.data
  have hpos := dwIters_pos cfg (lenOf cfg hi.data lo.data)
  have hle := dwIters_le cfg (lenOf cfg hi.data lo.data) hlt
  rw [if_pos ht] at hstep
  rw [hstep]
  unfold readBytes
  by_cases hc : (cfg.SUPPORT_EEPROM || cfg.BIGBOOT) = true ∧ tag.data % 256 % 256 = 69
  · rw [read_mem_ee cfg fuel (tag.data % 256) s.address _ _ _ hc.1 hc.2 hlt rfl hpos
      (by omega), if_pos hc]
    simp [sent_sent]
  · rw [read_mem_flash cfg fuel (tag.data % 256) s.address _ _ _ hc hlt rfl hpos
      (by omega), if_neg hc]
    simp [sent_sent]

theorem step_loadAddress_ok (cfg : Config) (hwf : cfg.WF) (fuel : Nat) (s : State)
    (op lo hi t : Rx) (rest : List Rx) (h : s.input = op :: lo :: hi :: t :: rest)
    (hop : op.data % 256 = cfg.STK_LOAD_ADDRESS) (ht : t.data % 256 = cfg.CRC_EOP) :
    step cfg fuel s =
      .ok () (((s.rxd cfg [op, lo, hi, t] rest).withAddress (loadAddr lo.data hi.data)).sent
        [cfg.STK_INSYNC % 256, cfg.STK_OK % 256]) := by
  rw [step_loadAddress cfg hwf fuel s op lo hi t rest h hop, if_pos ht]

/-! ## Load Address twice -/

/-- C15: from one device state, the line Load Address(W), Load Address(W), R
and the line Load Address(W), R, with R a Read Page frame, both run to the end
of R; the second Load Address leaves `address` and every memory as the first
left them, and the two runs end with the same `address`, the same reply to R,
the same code memory, page latch, EEPROM, data space and watchdog setting, and
the same bytes left on the line. -/
theorem load_address_is_idempotent (cfg : Config) (hwf : cfg.WF) (fuel : Nat)
    (hf : 65536 ≤ fuel) (sa sb : State) (op lo hi t rop rhi rlo tag rt : Rx) (rest : List Rx)
    (hina : sa.input =
      op :: lo :: hi :: t :: op :: lo :: hi :: t :: rop :: rhi :: rlo :: tag :: rt :: rest)
    (hinb : sb.input = op :: lo :: hi :: t :: rop :: rhi :: rlo :: tag :: rt :: rest)
    (hflash : sa.flash = sb.flash) (hee : sa.eeprom = sb.eeprom)
    (hop : op.data % 256 = cfg.STK_LOAD_ADDRESS) (ht : t.data % 256 = cfg.CRC_EOP)
    (hrop : rop.data % 256 = cfg.STK_READ_PAGE) (hrt : rt.data % 256 = cfg.CRC_EOP) :
    ∃ a1 a2 a3 b1 b2 reply,
      step cfg fuel sa = .ok () a1 ∧ step cfg fuel a1 = .ok () a2 ∧
      step cfg fuel a2 = .ok () a3 ∧
      step cfg fuel sb = .ok () b1 ∧ step cfg fuel b1 = .ok () b2 ∧
      a2.address = a1.address ∧ a2.flash = a1.flash ∧ a2.eeprom = a1.eeprom ∧
      a2.latch = a1.latch ∧ a2.ram = a1.ram ∧ a2.wdtcsr = a1.wdtcsr ∧
      a3.out = a2.out ++ reply ∧ b2.out = b1.out ++ reply ∧
      a3.address = b2.address ∧ a3.flash = b2.flash ∧ a3.eeprom = b2.eeprom ∧
      a3.flash = sa.flash ∧ a3.eeprom = sa.eeprom ∧ a3.input = rest ∧ b2.input = rest := by
  have ha1 := step_loadAddress_ok cfg hwf fuel sa op lo hi t _ hina hop ht
  have ha2 := step_loadAddress_ok cfg hwf fuel _ op lo hi t
    (rop :: rhi :: rlo :: tag :: rt :: rest)
    (rfl : (((sa.rxd cfg [op, lo, hi, t]
      (op :: lo :: hi :: t :: rop :: rhi :: rlo :: tag :: rt :: rest)).withAddress
        (loadAddr lo.data hi.data)).sent [cfg.STK_INSYNC % 256, cfg.STK_OK % 256]).input = _)
    hop ht
  have ha3 := step_readPage_ok cfg hwf fuel hf _ rop rhi rlo tag rt rest
    (rfl : ((((((sa.rxd cfg [op, lo, hi, t]
      (op :: lo :: hi :: t :: rop :: rhi :: rlo :: tag :: rt :: rest)).withAddress
        (loadAddr lo.data hi.data)).sent [cfg.STK_INSYNC % 256, cfg.STK_OK % 256]).rxd cfg
          [op, lo, hi, t] (rop :: rhi :: rlo :: tag :: rt :: rest)).withAddress
            (loadAddr lo.data hi.data)).sent [cfg.STK_INSYNC % 256, cfg.STK_OK % 256]).input = _)
    hrop hrt
  have hb1 := step_loadAddress_ok cfg hwf fuel sb op lo hi t _ hinb hop ht
  have hb2 := step_readPage_ok cfg hwf fuel hf _ rop rhi rlo tag rt rest
    (rfl : (((sb.rxd cfg [op, lo, hi, t]
      (rop :: rhi :: rlo :: tag :: rt :: rest)).withAddress
        (loadAddr lo.data hi.data)).sent [cfg.STK_INSYNC % 256, cfg.STK_OK % 256]).input = _)
    hrop hrt
  refine ⟨_, _, _, _, _, _, ha1, ha2, ha3, hb1, hb2, rfl, rfl, rfl, rfl, rfl, rfl, rfl, ?_,
    rfl, hflash, hee, rfl, rfl, rfl, rfl⟩
  simp [readBytes, hflash, hee]

/-- Witness of C15: word address 1 and a Read Page of three bytes of flash on
the ATmega328P. -/
theorem load_address_is_idempotent_witness :
    ∃ a1 a2 a3 b1 b2 reply,
      step atmega328p 65536
        (State.fresh (line [0x55, 0x01, 0x00, 0x20, 0x55, 0x01, 0x00, 0x20,
          0x74, 0x00, 0x03, 0x46, 0x20])) = .ok () a1 ∧
      step atmega328p 65536 a1 = .ok () a2 ∧
      step atmega328p 65536 a2 = .ok () a3 ∧
      step atmega328p 65536
        (State.fresh (line [0x55, 0x01, 0x00, 0x20, 0x74, 0x00, 0x03, 0x46, 0x20])) = .ok () b1 ∧
      step atmega328p 65536 b1 = .ok () b2 ∧
      a2.address = a1.address ∧ a2.flash = a1.flash ∧ a2.eeprom = a1.eeprom ∧
      a2.latch = a1.latch ∧ a2.ram = a1.ram ∧ a2.wdtcsr = a1.wdtcsr ∧
      a3.out = a2.out ++ reply ∧ b2.out = b1.out ++ reply ∧
      a3.address = b2.address ∧ a3.flash = b2.flash ∧ a3.eeprom = b2.eeprom ∧
      a3.flash =
        (State.fresh (line [0x55, 0x01, 0x00, 0x20, 0x55, 0x01, 0x00, 0x20,
          0x74, 0x00, 0x03, 0x46, 0x20])).flash ∧
      a3.eeprom =
        (State.fresh (line [0x55, 0x01, 0x00, 0x20, 0x55, 0x01, 0x00, 0x20,
          0x74, 0x00, 0x03, 0x46, 0x20])).eeprom ∧
      a3.input = [] ∧ b2.input = [] :=
  load_address_is_idempotent atmega328p atmega328p_wf 65536 (Nat.le_refl _)
    (State.fresh (line [0x55, 0x01, 0x00, 0x20, 0x55, 0x01, 0x00, 0x20,
          0x74, 0x00, 0x03, 0x46, 0x20]))
    (State.fresh (line [0x55, 0x01, 0x00, 0x20, 0x74, 0x00, 0x03, 0x46, 0x20]))
    ⟨0x55, false⟩ ⟨0x01, false⟩ ⟨0x00, false⟩ ⟨0x20, false⟩ ⟨0x74, false⟩ ⟨0x00, false⟩
    ⟨0x03, false⟩ ⟨0x46, false⟩ ⟨0x20, false⟩ [] rfl rfl rfl rfl (by decide) (by decide)
    (by decide) (by decide)

/-! ## The length of a page command -/

/-- What Program Page has done to the line and the page buffer at the end of
the pass, however the terminator and `writebuffer` turn out. -/
theorem step_progPage_buffers (cfg : Config) (hwf : cfg.WF) (fuel : Nat) (s : State)
    (op hi lo tag t : Rx) (data rest : List Rx)
    (h : s.input = op :: hi :: lo :: tag :: (data ++ t :: rest))
    (hd : data.length = dwIters cfg.lenMod (lenOf cfg hi.data lo.data))
    (hop : op.data % 256 = cfg.STK_PROG_PAGE) (hf : data.length ≤ fuel) :
    (step cfg fuel s).state.input = rest ∧
      (step cfg fuel s).state.ram =
        ramStore s.ram (cfg.RAMSTART % 65536) (data.map fun b => b.data % 256) := by
  rw [step_progPage cfg hwf fuel s op hi lo tag t data rest h hd hop hf]
  split_ifs
  · have hk := keeps_writebuffer cfg fuel (tag.data % 256) (cfg.RAMSTART % 65536) s.address
      (lenOf cfg hi.data lo.data)
      ((((s.rxd cfg (op :: hi :: lo :: tag :: data ++ [t]) rest).stored
        (cfg.RAMSTART % 65536) (data.map fun b => b.data % 256))).sent [cfg.STK_INSYNC % 256])
    simp only [Prod.mk.injEq] at hk
    obtain ⟨h1, h2, -⟩ := hk
    generalize writebuffer cfg fuel (tag.data % 256) (cfg.RAMSTART % 65536) s.address
      (lenOf cfg hi.data lo.data) _ = r at h1 h2 ⊢
    cases r with
    | ok u s2 =>
      simp only [Res.state] at h1 h2 ⊢
      exact ⟨by simpa using h1, by simpa [State.stored] using h2⟩
    | stop r s2 =>
      simp only [Res.state] at h1 h2 ⊢
      exact ⟨by simpa using h1, by simpa [State.stored] using h2⟩
  · exact ⟨rfl, rfl⟩

/-- C13, amended: when the big-endian value N = 256·hi + lo of the two length
bytes lies in 1 ≤ N < 2^w, w the width of `pagelen_t`, Read Page streams
exactly N bytes between STK_INSYNC and STK_OK, and Program Page takes exactly
N data bytes off the line, between the tag and the byte it reads as
terminator, and leaves them in the page buffer at RAMSTART. -/
theorem page_length_is_big_endian_in_range (cfg : Config) (hwf : cfg.WF) (fuel : Nat)
    (hf : 65536 ≤ fuel) (sr sp : State) (hi lo opr tagr tr opp tagp tp : Rx)
    (data restr restp : List Rx)
    (hhi : hi.data < 256) (hlo : lo.data < 256)
    (hN1 : 1 ≤ 256 * hi.data + lo.data) (hN2 : 256 * hi.data + lo.data < cfg.lenMod)
    (hinr : sr.input = opr :: hi :: lo :: tagr :: tr :: restr)
    (hopr : opr.data % 256 = cfg.STK_READ_PAGE) (htr : tr.data % 256 = cfg.CRC_EOP)
    (hinp : sp.input = opp :: hi :: lo :: tagp :: (data ++ tp :: restp))
    (hopp : opp.data % 256 = cfg.STK_PROG_PAGE)
    (hd : data.length = 256 * hi.data + lo.data) :
    (∃ s' payload, step cfg fuel sr = .ok () s' ∧ s'.input = restr ∧
      s'.out = sr.out ++ [cfg.STK_INSYNC] ++ payload ++ [cfg.STK_OK] ∧
      payload.length = 256 * hi.data + lo.data) ∧
    (step cfg fuel sp).state.input = restp ∧
    (step cfg fuel sp).state.ram =
      ramStore sp.ram (cfg.RAMSTART % 65536) (data.map fun b => b.data % 256) := by
  have hN := lenOf_declared cfg hi.data lo.data hhi hlo hN1 hN2
  have hle := lenMod_le cfg
  constructor
  · refine ⟨_, readBytes cfg sr (tagr.data % 256) sr.address
        (dwIters cfg.lenMod (lenOf cfg hi.data lo.data)),
      step_readPage_ok cfg hwf fuel hf sr opr hi lo tagr tr restr hinr hopr htr, rfl, ?_, ?_⟩
    · simp [Nat.mod_eq_of_lt hwf.insync_lt, Nat.mod_eq_of_lt hwf.ok_lt]
    · rw [readBytes_length, hN]
  · exact step_progPage_buffers cfg hwf fuel sp opp hi lo tagp tp data restp hinp
      (by rw [hN, hd]) hopp (by omega)

/-- Witness of C13, amended: length bytes 0, 3 for Read Page and for Program
Page on the ATmega328P. -/
theorem page_length_is_big_endian_in_range_witness :
    (∃ s' payload,
      step atmega328p 65536 (State.fresh (line [0x74, 0x00, 0x03, 0x46, 0x20])) = .ok () s' ∧
      s'.input = [] ∧
      s'.out = (State.fresh (line [0x74, 0x00, 0x03, 0x46, 0x20])).out ++
        [atmega328p.STK_INSYNC] ++ payload ++ [atmega328p.STK_OK] ∧
      payload.length = 256 * 0x00 + 0x03) ∧
    (step atmega328p 65536
      (State.fresh (line [0x64, 0x00, 0x03, 0x46, 0xAA, 0xBB, 0xCC, 0x20, 0x30]))).state.input =
        line [0x30] ∧
    (step atmega328p 65536
      (State.fresh (line [0x64, 0x00, 0x03, 0x46, 0xAA, 0xBB, 0xCC, 0x20, 0x30]))).state.ram =
        ramStore (State.fresh (line [0x64, 0x00, 0x03, 0x46, 0xAA, 0xBB, 0xCC, 0x20, 0x30])).ram
          (atmega328p.RAMSTART % 65536)
          ((line [0xAA, 0xBB, 0xCC]).map fun b => b.data % 256) :=
  page_length_is_big_endian_in_range atmega328p atmega328p_wf 65536 (Nat.le_refl _)
    (State.fresh (line [0x74, 0x00, 0x03, 0x46, 0x20]))
    (State.fresh (line [0x64, 0x00, 0x03, 0x46, 0xAA, 0xBB, 0xCC, 0x20, 0x30]))
    ⟨0x00, false⟩ ⟨0x03, false⟩ ⟨0x74, false⟩ ⟨0x46, false⟩ ⟨0x20, false⟩
    ⟨0x64, false⟩ ⟨0x46, false⟩ ⟨0x20, false⟩ (line [0xAA, 0xBB, 0xCC]) [] (line [0x30])
    (by decide) (by decide) (by decide) (by decide) rfl (by decide) (by decide) rfl (by decide)
    rfl

/-- Counterexample to C13 as stated: on the ATmega328P, where `pagelen_t` has
8 bits, Read Page with the length bytes 0x01, 0x02 streams 2 bytes, not the
258 of the big-endian value. -/
theorem read_page_drops_high_length_byte :
    ∃ s', step atmega328p 65536 (State.fresh (line [0x74, 0x01, 0x02, 0x46, 0x20])) =
        .ok () s' ∧
      s'.out = [0x14, 0xFF, 0xFF, 0x10] ∧ s'.out.length - 2 ≠ 0x01 * 256 + 0x02 := by
  have h := step_readPage_ok atmega328p atmega328p_wf 65536 (Nat.le_refl _)
    (State.fresh (line [0x74, 0x01, 0x02, 0x46, 0x20]))
    ⟨0x74, false⟩ ⟨0x01, false⟩ ⟨0x02, false⟩ ⟨0x46, false⟩ ⟨0x20, false⟩ [] rfl (by decide)
    (by decide)
  exact ⟨_, h, by decide, by decide⟩

/-! ## The 8-bit length counter -/

theorem lenMod_short (cfg : Config) (hsp : cfg.SPM_PAGESIZE ≤ 255) : cfg.lenMod = 256 := by
  unfold Config.lenMod Config.lenBits
  rw [if_neg (by omega)]
  norm_num

theorem lenOf_short (cfg : Config) (hsp : cfg.SPM_PAGESIZE ≤ 255) (hi lo : Nat)
    (hhi : hi < 256) (hlo : lo < 256) : lenOf cfg hi lo = lo := by
  rw [lenOf_eq cfg hi lo hhi hlo, if_neg (by omega)]

theorem dwIters_short (cfg : Config) (hsp : cfg.SPM_PAGESIZE ≤ 255) (hi lo : Nat)
    (hhi : hi < 256) (hlo : lo < 256) :
    dwIters cfg.lenMod (lenOf cfg hi lo) = (lo + 255) % 256 + 1 := by
  rw [lenOf_short cfg hsp hi lo hhi hlo, lenMod_short cfg hsp]
  unfold dwIters
  split_ifs <;> omega

/-- C20: with the 8-bit `pagelen_t` of SPM_PAGESIZE ≤ 255, for every pair of
length bytes hi, lo, Read Page sends and Program Page buffers
n = ((lo - 1) mod 256) + 1 bytes: n does not depend on hi, is lo for
1 ≤ lo ≤ 255 and 256 for lo = 0.  When that Program Page has the tag 'E' and a
correct terminator, it returns after exactly lo EEPROM byte writes, between
STK_INSYNC and STK_OK. -/
theorem short_pagelen_counts_low_byte (cfg : Config) (hwf : cfg.WF)
    (hsp : cfg.SPM_PAGESIZE ≤ 255) (fuel : Nat) (hf : 65536 ≤ fuel) (sr sp : State)
    (hi lo opr tagr tr opp tagp tp : Rx) (data restr restp : List Rx)
    (hhi : hi.data < 256) (hlo : lo.data < 256)
    (hinr : sr.input = opr :: hi :: lo :: tagr :: tr :: restr)
    (hopr : opr.data % 256 = cfg.STK_READ_PAGE) (htr : tr.data % 256 = cfg.CRC_EOP)
    (hinp : sp.input = opp :: hi :: lo :: tagp :: (data ++ tp :: restp))
    (hopp : opp.data % 256 = cfg.STK_PROG_PAGE)
    (hd : data.length = (lo.data + 255) % 256 + 1) :
    (((lo.data + 255) % 256 + 1 : Nat) : Int) = ((lo.data : Int) - 1) % 256 + 1 ∧
    (1 ≤ lo.data → (lo.data + 255) % 256 + 1 = lo.data) ∧
    (lo.data = 0 → (lo.data + 255) % 256 + 1 = 256) ∧
    (∃ s' payload, step cfg fuel sr = .ok () s' ∧ s'.input = restr ∧
      s'.out = sr.out ++ [cfg.STK_INSYNC] ++ payload ++ [cfg.STK_OK] ∧
      payload.length = (lo.data + 255) % 256 + 1) ∧
    (step cfg fuel sp).state.input = restp ∧
    (step cfg fuel sp).state.ram =
      ramStore sp.ram (cfg.RAMSTART % 65536) (data.map fun b => b.data % 256) ∧
    (tagp.data % 256 = 69 → tp.data % 256 = cfg.CRC_EOP →
      ∃ s' evs, step cfg fuel sp = .ok () s' ∧
        s'.log = sp.log ++ rxEvents cfg (opp :: hi :: lo :: tagp :: data ++ [tp]) ++
          [Event.tx cfg.STK_INSYNC] ++ evs ++ [Event.tx cfg.STK_OK] ∧
        evs.length = lo.data ∧ (∀ e ∈ evs, e.isEepromWrite = true) ∧
        s'.out = sp.out ++ [cfg.STK_INSYNC, cfg.STK_OK]) := by
  have hN := dwIters_short cfg hsp hi.data lo.data hhi hlo
  have hL := lenOf_short cfg hsp hi.data lo.data hhi hlo
  have hM := lenMod_short cfg hsp
  have hi' := Nat.mod_eq_of_lt hwf.insync_lt
  have ho' := Nat.mod_eq_of_lt hwf.ok_lt
  refine ⟨by omega, by omega, by omega, ?_, ?_⟩
  · refine ⟨_, readBytes cfg sr (tagr.data % 256) sr.address
        (dwIters cfg.lenMod (lenOf cfg hi.data lo.data)),
      step_readPage_ok cfg hwf fuel hf sr opr hi lo tagr tr restr hinr hopr htr, rfl, ?_, ?_⟩
    · simp [hi', ho']
    · rw [readBytes_length, hN]
  · have hb := step_progPage_buffers cfg hwf fuel sp opp hi lo tagp tp data restp hinp
      (by rw [hN, hd]) hopp (by omega)
    refine ⟨hb.1, hb.2, ?_⟩
    intro htag ht
    have hstep := step_progPage cfg hwf fuel sp opp hi lo tagp tp data restp hinp
      (by rw [hN, hd]) hopp (by omega)
    rw [if_pos ht, writebuffer_ee cfg fuel (tagp.data % 256) _ _ _ _
      ((toInt8_eq _).2 (by rw [Nat.mod_mod]; exact htag)) (lenOf_lt cfg _ _)
      (by rw [hL]; omega)] at hstep
    refine ⟨_, eeEvents (ramStore sp.ram (cfg.RAMSTART % 65536)
      (data.map fun b => b.data % 256)) (cfg.RAMSTART % 65536) sp.address
      (lenOf cfg hi.data lo.data), hstep, ?_, ?_, ?_, ?_⟩
    · simp [State.sent, State.eeWritten, State.stored, State.rxd, hi', ho']
    · rw [eeEvents_length, hL]
    · intro e he
      obtain ⟨x, y, rfl⟩ := eeEvents_are_writes _ _ _ _ e he
      rfl
    · simp [State.sent, State.eeWritten, State.stored, State.rxd, hi', ho']

/-- Witness of C20: length bytes 0x01, 0x02 on the ATmega328P, Read Page from
flash and Program Page to EEPROM. -/
theorem short_pagelen_counts_low_byte_witness :
    (((0x02 + 255) % 256 + 1 : Nat) : Int) = (((0x02 : Nat) : Int) - 1) % 256 + 1 ∧
    (1 ≤ 0x02 → (0x02 + 255) % 256 + 1 = 0x02) ∧
    (0x02 = 0 → (0x02 + 255) % 256 + 1 = 256) ∧
    (∃ s' payload,
      step atmega328p 65536 (State.fresh (line [0x74, 0x01, 0x02, 0x46, 0x20])) = .ok () s' ∧
      s'.input = [] ∧
      s'.out = (State.fresh (line [0x74, 0x01, 0x02, 0x46, 0x20])).out ++
        [atmega328p.STK_INSYNC] ++ payload ++ [atmega328p.STK_OK] ∧
      payload.length = (0x02 + 255) % 256 + 1) ∧
    (step atmega328p 65536
      (State.fresh (line [0x64, 0x01, 0x02, 0x45, 0xAA, 0xBB, 0x20]))).state.input = [] ∧
    (step atmega328p 65536
      (State.fresh (line [0x64, 0x01, 0x02, 0x45, 0xAA, 0xBB, 0x20]))).state.ram =
        ramStore (State.fresh (line [0x64, 0x01, 0x02, 0x45, 0xAA, 0xBB, 0x20])).ram
          (atmega328p.RAMSTART % 65536) ((line [0xAA, 0xBB]).map fun b => b.data % 256) ∧
    ((0x45 : Nat) % 256 = 69 → (0x20 : Nat) % 256 = atmega328p.CRC_EOP →
      ∃ s' evs,
        step atmega328p 65536
          (State.fresh (line [0x64, 0x01, 0x02, 0x45, 0xAA, 0xBB, 0x20])) = .ok () s' ∧
        s'.log = (State.fresh (line [0x64, 0x01, 0x02, 0x45, 0xAA, 0xBB, 0x20])).log ++
          rxEvents atmega328p ((⟨0x64, false⟩ : Rx) :: ⟨0x01, false⟩ :: ⟨0x02, false⟩ ::
            ⟨0x45, false⟩ :: line [0xAA, 0xBB] ++ [⟨0x20, false⟩]) ++
          [Event.tx atmega328p.STK_INSYNC] ++ evs ++ [Event.tx atmega328p.STK_OK] ∧
        evs.length = 0x02 ∧ (∀ e ∈ evs, e.isEepromWrite = true) ∧
        s'.out = (State.fresh (line [0x64, 0x01, 0x02, 0x45, 0xAA, 0xBB, 0x20])).out ++
          [atmega328p.STK_INSYNC, atmega328p.STK_OK]) :=
  short_pagelen_counts_low_byte atmega328p atmega328p_wf (by decide) 65536 (Nat.le_refl _)
    (State.fresh (line [0x74, 0x01, 0x02, 0x46, 0x20]))
    (State.fresh (line [0x64, 0x01, 0x02, 0x45, 0xAA, 0xBB, 0x20]))
    ⟨0x01, false⟩ ⟨0x02, false⟩ ⟨0x74, false⟩ ⟨0x46, false⟩ ⟨0x20, false⟩
    ⟨0x64, false⟩ ⟨0x45, false⟩ ⟨0x20, false⟩ (line [0xAA, 0xBB]) [] []
    (by decide) (by decide) rfl (by decide) (by decide) rfl (by decide) rfl

/-! ## The operations of the flash path -/

theorem fillWord_eq (ram : Nat → Nat) (p : Nat) :
    fillWord ram p = ram p % 256 + 256 * (ram ((p + 1) % 65536) % 256) := by
  unfold fillWord
  rw [or_shift_bytes _ _ (Nat.mod_lt _ (by norm_num)) (Nat.mod_lt _ (by norm_num))]
  omega

theorem fillEvents_eq_map (ram : Nat → Nat) :
    ∀ (n p a : Nat), p < 65536 → a < 65536 → fillEvents ram p a n =
      (List.range n).map fun k =>
        Event.pageFill ((a + 2 * k) % 65536)
          (ram ((p + 2 * k) % 65536) % 256 + 256 * (ram ((p + 2 * k + 1) % 65536) % 256)) := by
  intro n
  induction n with
  | zero => intro _ _ _ _; rfl
  | succ n ih =>
    intro p a hp ha
    rw [List.range_succ_eq_map, List.map_cons, List.map_map]
    simp only [fillEvents, ih (((p + 1) % 65536 + 1) % 65536) ((a + 2) % 65536)
      (Nat.mod_lt _ (by norm_num)) (Nat.mod_lt _ (by norm_num))]
    refine congrArg₂ _ ?_ ?_
    · simp [Nat.mod_eq_of_lt ha, Nat.mod_eq_of_lt hp, fillWord_eq]
    · apply List.map_congr_left
      intro i _
      have e1 : ((a + 2) % 65536 + 2 * i) % 65536 = (a + 2 * (i + 1)) % 65536 := by omega
      have e2 : (((p + 1) % 65536 + 1) % 65536 + 2 * i) % 65536 =
          (p + 2 * (i + 1)) % 65536 := by omega
      have e3 : (((p + 1) % 65536 + 1) % 65536 + 2 * i + 1) % 65536 =
          (p + 2 * (i + 1) + 1) % 65536 := by omega
      simp only [Function.comp, Nat.succ_eq_add_one, e1, e2, e3]

/-- C18: for a memory type other than 'E', a buffer at `mybuff`, an address
and an even non-zero length `len`, `writebuffer` returns, and what it does is
exactly: page erase at `address`, busy-wait; `len / 2` page fills, the k-th at
`address + 2k` (in 16 bits) with the word buf[2k] + 256·buf[2k+1], for k
ascending from 0;
page write at `address`, busy-wait; and, where RWWSRE is defined, the
re-enabling of reads.  No other event is logged. -/
theorem flash_path_operation_sequence (cfg : Config) (fuel memtype mybuff address len : Nat)
    (s : State) (hm : toInt8 memtype ≠ 69) (heven : len % 2 = 0) (hpos : 0 < len)
    (hlt : len < cfg.lenMod) (ha : address < 65536) (hb : mybuff < 65536)
    (hf : len / 2 ≤ fuel) :
    ∃ s', writebuffer cfg fuel memtype mybuff address len s = .ok () s' ∧
      s'.log = s.log ++ [Event.pageErase address, Event.spmBusyWait] ++
        ((List.range (len / 2)).map fun k =>
          Event.pageFill ((address + 2 * k) % 65536)
            (s.ram ((mybuff + 2 * k) % 65536) % 256 +
              256 * (s.ram ((mybuff + 2 * k + 1) % 65536) % 256))) ++
        [Event.pageWrite address, Event.spmBusyWait] ++
        (if cfg.RWWSRE then [Event.rwwEnable] else []) := by
  have hn : 2 * (len / 2) = dwIters cfg.lenMod len := by
    unfold dwIters
    rw [if_neg (by omega)]
    omega
  refine ⟨_, writebuffer_flash cfg fuel memtype mybuff address len (len / 2) s hm hlt
    (by omega) hn hf, ?_⟩
  rw [← fillEvents_eq_map s.ram (len / 2) mybuff address hb ha]
  rfl

/-- Witness of C18: four bytes at RAMSTART written to the page at 0x0100 on
the ATmega328P. -/
theorem flash_path_operation_sequence_witness :
    ∃ s', writebuffer atmega328p 2 0x46 0x100 0x0100 4 (State.fresh []) = .ok () s' ∧
      s'.log = (State.fresh []).log ++ [Event.pageErase 0x0100, Event.spmBusyWait] ++
        ((List.range (4 / 2)).map fun k =>
          Event.pageFill ((0x0100 + 2 * k) % 65536)
            ((State.fresh []).ram ((0x100 + 2 * k) % 65536) % 256 +
              256 * ((State.fresh []).ram ((0x100 + 2 * k + 1) % 65536) % 256))) ++
        [Event.pageWrite 0x0100, Event.spmBusyWait] ++
        (if atmega328p.RWWSRE then [Event.rwwEnable] else []) :=
  flash_path_operation_sequence atmega328p 2 0x46 0x100 0x0100 4 (State.fresh [])
    (by decide) (by decide) (by decide) (by decide) (by decide) (by decide) (by decide)

/-! ## Termination of the fill loop -/

/-- C19: with the 8-bit `pagelen_t` of SPM_PAGESIZE ≤ 255 and a length byte
`lo`, the fill loop started with `len = lo` returns for some fuel if and only
if `lo` is even.  For even `lo` it returns after exactly `lo / 2` passes, 128
when `lo = 0`, each pass one page fill; for odd `lo` it never returns, whatever
the fuel, and the Program Page with that length and a tag other than 'E' ends
without return having sent nothing, or STK_INSYNC alone, so never STK_OK. -/
theorem fill_loop_terminates_iff_even (cfg : Config) (hwf : cfg.WF)
    (hsp : cfg.SPM_PAGESIZE ≤ 255) (bufPtr addrPtr : Nat) (s : State)
    (op hi lo tag t : Rx) (data rest : List Rx)
    (hhi : hi.data < 256) (hlo : lo.data < 256)
    (hin : s.input = op :: hi :: lo :: tag :: (data ++ t :: rest))
    (hd : data.length = (lo.data + 255) % 256 + 1)
    (hop : op.data % 256 = cfg.STK_PROG_PAGE) (ht : t.data % 256 = cfg.CRC_EOP)
    (hE : tag.data % 256 ≠ 69) :
    ((∃ fuel s', writebuffer.fillLoop cfg fuel bufPtr addrPtr lo.data s = .ok () s') ↔
      lo.data % 2 = 0) ∧
    (lo.data % 2 = 0 → ∀ fuel, (if lo.data = 0 then 128 else lo.data / 2) ≤ fuel →
      ∃ s' fills, writebuffer.fillLoop cfg fuel bufPtr addrPtr lo.data s = .ok () s' ∧
        s'.log = s.log ++ fills ∧
        fills.length = (if lo.data = 0 then 128 else lo.data / 2) ∧
        ∀ e ∈ fills, ∃ a w, e = Event.pageFill a w) ∧
    (lo.data % 2 = 1 → ∀ fuel,
      (∃ s', writebuffer.fillLoop cfg fuel bufPtr addrPtr lo.data s = .stop .fuel s') ∧
      ∃ s', step cfg fuel s = .stop .fuel s' ∧
        (s'.out = s.out ∨ s'.out = s.out ++ [cfg.STK_INSYNC % 256])) := by
  have hM := lenMod_short cfg hsp
  have hL := lenOf_short cfg hsp hi.data lo.data hhi hlo
  have hN := dwIters_short cfg hsp hi.data lo.data hhi hlo
  have hK : lo.data % 2 = 0 →
      2 * (if lo.data = 0 then 128 else lo.data / 2) = dwIters cfg.lenMod lo.data := by
    intro hev
    rw [hM]
    unfold dwIters
    split_ifs <;> omega
  have hok : lo.data % 2 = 0 → ∀ fuel, (if lo.data = 0 then 128 else lo.data / 2) ≤ fuel →
      writebuffer.fillLoop cfg fuel bufPtr addrPtr lo.data s =
        .ok () { s with
          latch := fillLatch cfg s.latch s.ram bufPtr addrPtr
            (if lo.data = 0 then 128 else lo.data / 2),
          log := s.log ++ fillEvents s.ram bufPtr addrPtr
            (if lo.data = 0 then 128 else lo.data / 2) } := by
    intro hev fuel hf
    exact fillLoop_ok cfg _ fuel bufPtr addrPtr lo.data s (by split_ifs <;> omega)
      (by rw [hM]; exact hlo) (hK hev) hf
  refine ⟨⟨?_, ?_⟩, ?_, ?_⟩
  · rintro ⟨fuel, s', hs'⟩
    by_contra hodd
    obtain ⟨s2, -, h2, -⟩ := fillLoop_odd cfg fuel bufPtr addrPtr lo.data s (by omega)
    rw [h2] at hs'
    cases hs'
  · intro hev
    exact ⟨_, _, hok hev _ (Nat.le_refl _)⟩
  · intro hev fuel hf
    exact ⟨_, _, hok hev fuel hf, rfl, fillEvents_length _ _ _ _,
      fillEvents_are_fills _ _ _ _⟩
  · intro hodd fuel
    constructor
    · obtain ⟨s2, -, h2, -⟩ := fillLoop_odd cfg fuel bufPtr addrPtr lo.data s hodd
      exact ⟨s2, h2⟩
    · exact step_progPage_odd cfg hwf fuel s op hi lo tag t data rest hin (by rw [hN, hd]) hop
        ht hE (by rw [hL]; exact hodd)

/-- Witness of C19: Program Page with the length bytes 0, 1 and the tag 'F' on
the ATmega328P. -/
theorem fill_loop_terminates_iff_even_witness :
    ((∃ fuel s', writebuffer.fillLoop atmega328p fuel 0x100 0
        0x01 (State.fresh (line [0x64, 0x00, 0x01, 0x46, 0xAA, 0x20])) = .ok () s') ↔
      0x01 % 2 = 0) ∧
    (0x01 % 2 = 0 → ∀ fuel, (if 0x01 = 0 then 128 else 0x01 / 2) ≤ fuel →
      ∃ s' fills, writebuffer.fillLoop atmega328p fuel 0x100 0
          0x01 (State.fresh (line [0x64, 0x00, 0x01, 0x46, 0xAA, 0x20])) = .ok () s' ∧
        s'.log = (State.fresh (line [0x64, 0x00, 0x01, 0x46, 0xAA, 0x20])).log ++ fills ∧
        fills.length = (if 0x01 = 0 then 128 else 0x01 / 2) ∧
        ∀ e ∈ fills, ∃ a w, e = Event.pageFill a w) ∧
    (0x01 % 2 = 1 → ∀ fuel,
      (∃ s', writebuffer.fillLoop atmega328p fuel 0x100 0
        0x01 (State.fresh (line [0x64, 0x00, 0x01, 0x46, 0xAA, 0x20])) = .stop .fuel s') ∧
      ∃ s', step atmega328p fuel
          (State.fresh (line [0x64, 0x00, 0x01, 0x46, 0xAA, 0x20])) = .stop .fuel s' ∧
        (s'.out = (State.fresh (line [0x64, 0x00, 0x01, 0x46, 0xAA, 0x20])).out ∨
          s'.out = (State.fresh (line [0x64, 0x00, 0x01, 0x46, 0xAA, 0x20])).out ++
            [atmega328p.STK_INSYNC % 256])) :=
  fill_loop_terminates_iff_even atmega328p atmega328p_wf (by decide) 0x100 0
    (State.fresh (line [0x64, 0x00, 0x01, 0x46, 0xAA, 0x20]))
    ⟨0x64, false⟩ ⟨0x00, false⟩ ⟨0x01, false⟩ ⟨0x46, false⟩ ⟨0x20, false⟩ (line [0xAA]) []
    (by decide) (by decide) rfl (by decide) (by decide) (by decide) (by decide)

/-! ## Program Page and the declared length -/

theorem atmega328pPlain_wf : atmega328pPlain.WF := by
  constructor <;> decide

/-- Program Page with the tag 'E' and a correct terminator, as one equation. -/
theorem step_progPage_ee (cfg : Config) (hwf : cfg.WF) (fuel : Nat) (hf : 65536 ≤ fuel)
    (s : State) (op hi lo tag t : Rx) (data rest : List Rx)
    (h : s.input = op :: hi :: lo :: tag :: (data ++ t :: rest))
    (hd : data.length = dwIters cfg.lenMod (lenOf cfg hi.data lo.data))
    (hop : op.data % 256 = cfg.STK_PROG_PAGE) (ht : t.data % 256 = cfg.CRC_EOP)
    (htag : tag.data % 256 = 69) :
    step cfg fuel s = .ok () (((((s.rxd cfg (op :: hi :: lo :: tag :: data ++ [t]) rest).stored
      (cfg.RAMSTART % 65536) (data.map fun b => b.data % 256)).sent
        [cfg.STK_INSYNC % 256]).eeWritten (cfg.RAMSTART % 65536) s.address
          (lenOf cfg hi.data lo.data)).sent [cfg.STK_OK % 256]) := by
  have hlt := lenOf_lt cfg hi.data lo.data
  have hle := dwIters_le cfg _ hlt
  have hM := lenMod_le cfg
  rw [step_progPage cfg hwf fuel s op hi lo tag t data rest h hd hop (by omega), if_pos ht,
    writebuffer_ee cfg fuel _ _ _ _ _ ((toInt8_eq _).mpr (by simp [htag])) hlt (by omega)]

/-- C9, amended: for every Program Page frame whose declared length
N = 256·hi + lo lies in 1 ≤ N < 2^w, w the width of `pagelen_t`, the events of
the pass are first the receipt of the opcode, the length bytes, the tag, all N
data bytes and the terminator, none of which is a flash or EEPROM write, and
then events none of which is a receipt; and when the terminator is not CRC_EOP
the later events contain no write and code memory and EEPROM are exactly what
they were before the frame. -/
theorem program_page_receives_then_commits (cfg : Config) (hwf : cfg.WF) (fuel : Nat)
    (hf : 65536 ≤ fuel) (s : State) (op hi lo tag t : Rx) (data rest : List Rx)
    (hin : s.input = op :: hi :: lo :: tag :: (data ++ t :: rest))
    (hhi : hi.data < 256) (hlo : lo.data < 256)
    (hN1 : 1 ≤ 256 * hi.data + lo.data) (hN2 : 256 * hi.data + lo.data < cfg.lenMod)
    (hd : data.length = 256 * hi.data + lo.data)
    (hop : op.data % 256 = cfg.STK_PROG_PAGE) :
    ∃ post,
      (step cfg fuel s).state.log =
        s.log ++ rxEvents cfg (op :: hi :: lo :: tag :: data ++ [t]) ++ post ∧
      (∀ e ∈ rxEvents cfg (op :: hi :: lo :: tag :: data ++ [t]), e.isWrite = false) ∧
      (∀ e ∈ post, e.isRx = false) ∧
      (t.data % 256 ≠ cfg.CRC_EOP →
        (∀ e ∈ post, e.isWrite = false) ∧ (step cfg fuel s).state.flash = s.flash ∧
        (step cfg fuel s).state.eeprom = s.eeprom) :=
  progPage_receives_then_commits cfg hwf fuel hf s op hi lo tag t data rest hin
    (by rw [lenOf_declared cfg hi.data lo.data hhi hlo hN1 hN2, hd]) hop

/-- Witness of C9, amended: an EEPROM Program Page of two declared bytes whose
terminator is 0x21 instead of CRC_EOP. -/
theorem program_page_receives_then_commits_witness :
    ∃ post,
      (step atmega328p 65536 (State.fresh (line [0x64, 0x00, 0x02, 0x45, 0x11, 0x22,
        0x21]))).state.log =
        (State.fresh (line [0x64, 0x00, 0x02, 0x45, 0x11, 0x22, 0x21])).log ++
          rxEvents atmega328p (⟨0x64, false⟩ :: ⟨0x00, false⟩ :: ⟨0x02, false⟩ ::
            ⟨0x45, false⟩ :: line [0x11, 0x22] ++ [⟨0x21, false⟩]) ++ post ∧
      (∀ e ∈ rxEvents atmega328p (⟨0x64, false⟩ :: ⟨0x00, false⟩ :: ⟨0x02, false⟩ ::
            ⟨0x45, false⟩ :: line [0x11, 0x22] ++ [⟨0x21, false⟩]), e.isWrite = false) ∧
      (∀ e ∈ post, e.isRx = false) ∧
      ((⟨0x21, false⟩ : Rx).data % 256 ≠ atmega328p.CRC_EOP →
        (∀ e ∈ post, e.isWrite = false) ∧
        (step atmega328p 65536 (State.fresh (line [0x64, 0x00, 0x02, 0x45, 0x11, 0x22,
          0x21]))).state.flash =
          (State.fresh (line [0x64, 0x00, 0x02, 0x45, 0x11, 0x22, 0x21])).flash ∧
        (step atmega328p 65536 (State.fresh (line [0x64, 0x00, 0x02, 0x45, 0x11, 0x22,
          0x21]))).state.eeprom =
          (State.fresh (line [0x64, 0x00, 0x02, 0x45, 0x11, 0x22, 0x21])).eeprom) :=
  program_page_receives_then_commits atmega328p atmega328p_wf 65536 (Nat.le_refl _)
    (State.fresh (line [0x64, 0x00, 0x02, 0x45, 0x11, 0x22, 0x21]))
    ⟨0x64, false⟩ ⟨0x00, false⟩ ⟨0x02, false⟩ ⟨0x45, false⟩ ⟨0x21, false⟩
    (line [0x11, 0x22]) [] rfl (by decide) (by decide) (by decide) (by decide) rfl
    (by decide)

/-- Counterexample to C9 as stated: on the ATmega328P, where `pagelen_t` has 8
bits, a Program Page frame with the tag 'E' that declares 258 data bytes
(length bytes 0x01, 0x02), whose third data byte is 0x20 and whose terminator
is 0x21, is committed and acknowledged after its first two data bytes: the two
EEPROM writes are issued while 255 declared data bytes and the terminator are
still on the line, and EEPROM is changed although the terminator is not
CRC_EOP. -/
theorem program_page_commits_before_declared_length :
    ∃ s', step atmega328p 65536 (State.fresh
        (line [0x64, 0x01, 0x02, 0x45, 0xAA, 0xBB, 0x20] ++
          line (List.replicate 255 0x00 ++ [0x21]))) = .ok () s' ∧
      s'.input = line (List.replicate 255 0x00 ++ [0x21]) ∧
      s'.log = [Event.wdr, Event.rx 0x64, Event.wdr, Event.rx 0x01, Event.wdr, Event.rx 0x02,
        Event.wdr, Event.rx 0x45, Event.wdr, Event.rx 0xAA, Event.wdr, Event.rx 0xBB,
        Event.wdr, Event.rx 0x20, Event.tx 0x14, Event.eepromWrite 0 0xAA,
        Event.eepromWrite 1 0xBB, Event.tx 0x10] ∧
      s'.out = [0x14, 0x10] ∧ s'.eeprom 0 = 0xAA ∧ s'.eeprom 1 = 0xBB ∧
      (0x21 : Nat) ≠ atmega328p.CRC_EOP ∧ 2 < 0x01 * 256 + 0x02 := by
  have h := step_progPage_ee atmega328p atmega328p_wf 65536 (Nat.le_refl _)
    (State.fresh (line [0x64, 0x01, 0x02, 0x45, 0xAA, 0xBB, 0x20] ++
      line (List.replicate 255 0x00 ++ [0x21])))
    ⟨0x64, false⟩ ⟨0x01, false⟩ ⟨0x02, false⟩ ⟨0x45, false⟩ ⟨0x20, false⟩
    (line [0xAA, 0xBB]) (line (List.replicate 255 0x00 ++ [0x21])) rfl (by decide) (by decide)
    (by decide) (by decide)
  exact ⟨_, h, rfl, by decide, by decide, by decide, by decide, by decide, by decide⟩


/-! ## The EEPROM round trip and the build -/

end Optiboot
